import Mathlib

/-!
# Port patcher: backup, patch, restore, rebuild

A shallow embedding of `PortPatcher` and its collaborators from `propatch.cpp`,
of its command line (`parse_args`, `main`), and of the parts of `patch.c`
(namespace `PatchC`) and `reaptchpro_st.cpp` (namespace `ReaptchSt`) that differ
from it.

* External processes and the operating system are an explicit `World`: it scripts
  what every command returns, what the clock reads and which filesystem
  operations fail.
* Stateful code is explicit state passing over `St`: the logger, a recording of
  the commands and backup operations performed, the entries of the backup root
  and the content of the resolved source directory.
* A C++ exception is the `Except.error` branch of a step; `run` is the only place
  that catches.
-/

namespace Propatch

/-! ## Logger -/

/-- `Logger::Level`, in declaration order. -/
inductive Level
  | DEBUG
  | INFO
  | WARNING
  | ERROR
deriving DecidableEq, Repr

/-- The underlying value of the enumeration (`uint8_t`). -/
def Level.toNat : Level → Nat
  | .DEBUG => 0
  | .INFO => 1
  | .WARNING => 2
  | .ERROR => 3

/-- A logger: its threshold and the lines printed so far (level and message; the
time stamp and the source location of a line are not modelled). -/
structure Logger where
  min_level : Level
  out : List (Level × String)
deriving DecidableEq, Repr

/-- The run-time overload `Logger::log(Level, fmt, args...)`. -/
def Logger.log (lg : Logger) (level : Level) (msg : String) : Logger :=
  if level.toNat < lg.min_level.toNat then lg
  else { lg with out := lg.out ++ [(level, msg)] }

/-- The overload `Logger::log<Level>(fmt, args...)` with the compile-time filter
`if constexpr (Level >= Level::INFO)`. -/
def Logger.log_static (lg : Logger) (level : Level) (msg : String) : Logger :=
  if Level.INFO.toNat ≤ level.toNat then lg.log level msg else lg

def Logger.debug (lg : Logger) (msg : String) : Logger := lg.log_static .DEBUG msg
def Logger.info (lg : Logger) (msg : String) : Logger := lg.log_static .INFO msg
def Logger.warning (lg : Logger) (msg : String) : Logger := lg.log_static .WARNING msg
def Logger.error (lg : Logger) (msg : String) : Logger := lg.log_static .ERROR msg

/-! ## Paths and text -/

/-- The path concatenation `p / q` of `std::filesystem::path` on a POSIX system: an
absolute `q` replaces `p`; otherwise a separator is inserted unless `p` is empty or
already ends in one. -/
def pathJoin (p q : String) : String :=
  match q.data with
  | '/' :: _ => q
  | _ =>
    match p.data.getLast? with
    | none => q
    | some '/' => p ++ q
    | some _ => p ++ "/" ++ q

/-- The test `hay.contains(needle)` of `std::string`. -/
def contains (hay needle : String) : Bool :=
  decide (needle.data <:+: hay.data)

/-- Whether `s` begins with `pre` (`std::string::starts_with`). -/
def startsWith (s pre : String) : Bool :=
  decide (pre.data <+: s.data)

/-! ## Directory trees -/

/-- What a directory entry is: a regular file with its bytes, or a directory.
Symbolic links are outside the model. -/
inductive Obj
  | file (bytes : List Nat)
  | dir
deriving DecidableEq, Repr

/-- A path relative to the root of a tree, as its components. -/
abbrev RelPath := List String

/-- The content of a directory: the entries below it in the order a
`recursive_directory_iterator` yields them, each with its path relative to the
directory. -/
abbrev Tree := List (RelPath × Obj)

/-- The entry of a tree at a relative path, if any. -/
def Tree.get? (t : Tree) (p : RelPath) : Option Obj :=
  (t.find? (fun e => decide (e.1 = p))).map Prod.snd

/-- Whether the parent of `p` is a directory of `t`; the root of the tree is one. -/
def Tree.parentIsDir (t : Tree) (p : RelPath) : Bool :=
  p.dropLast = [] || t.get? p.dropLast = some Obj.dir

/-- The check that a listing is the listing of an actual directory: seen from the
front, every path is non-empty and new, and its parent was listed before it as a
directory. `seen` is the part of the listing already read. -/
def Tree.wfFrom (seen : Tree) : Tree → Bool
  | [] => true
  | (p, o) :: rest =>
    p ≠ [] && seen.get? p = none && seen.parentIsDir p && Tree.wfFrom (seen ++ [(p, o)]) rest

/-- A well-formed tree listing. -/
def Tree.WF (t : Tree) : Prop := Tree.wfFrom [] t = true

instance (t : Tree) : Decidable t.WF := by unfold Tree.WF; infer_instance

/-- The names of the direct children (what a `directory_iterator` yields). -/
def Tree.topNames (t : Tree) : List String :=
  t.filterMap (fun e => match e.1 with
    | [n] => some n
    | _ => none)

/-- The tree without the entry `name` and everything below it (`fs::remove_all`
succeeding on a direct child). -/
def Tree.removeAll (t : Tree) (name : String) : Tree :=
  t.filter (fun e => decide (e.1.head? ≠ some name))

/-- One `mkdir` of `create_directories`: an existing directory is kept, a missing
one is created, a file in the way is an error. -/
def mkdir_if_missing (q : RelPath) (t : Tree) : Except String Tree :=
  match t.get? q with
  | some Obj.dir => .ok t
  | some (Obj.file _) => .error "Not a directory"
  | none => .ok (t ++ [(q, Obj.dir)])

/-- The library call `fs::create_directories(dest, ec)` below the root of `t`: every
component of `dest` that does not exist yet is created, from the outermost in.
`done` are the components already handled. -/
def create_directories_from (done : RelPath) : RelPath → Tree → Except String Tree
  | [], t => .ok t
  | c :: todo, t =>
    match mkdir_if_missing (done ++ [c]) t with
    | .error e => .error e
    | .ok t1 => create_directories_from (done ++ [c]) todo t1

def create_directories (dest : RelPath) (t : Tree) : Except String Tree :=
  create_directories_from [] dest t

/-- The library call `fs::copy_file(src, dest, overwrite_existing, ec)` below the
root of `t`: the parent must be a directory, a directory at `dest` is an error, an
existing file is overwritten in place. -/
def copy_file_overwrite (bytes : List Nat) (dest : RelPath) (t : Tree) : Except String Tree :=
  if !t.parentIsDir dest then .error "No such file or directory"
  else
    match t.get? dest with
    | some Obj.dir => .error "Is a directory"
    | some (Obj.file _) =>
      .ok (t.map (fun e => if e.1 = dest then (e.1, Obj.file bytes) else e))
    | none => .ok (t ++ [(dest, Obj.file bytes)])

/-- One entry of a recursive `fs::copy` without overwrite options: a directory is
created unless it exists, a file is copied unless something is already there. -/
def copy_item (e : RelPath × Obj) (t : Tree) : Except String Tree :=
  match e.2, t.get? e.1 with
  | Obj.dir, some Obj.dir => .ok t
  | Obj.dir, some (Obj.file _) => .error "Not a directory"
  | Obj.file _, some _ => .error "File exists"
  | o, none =>
    if t.parentIsDir e.1 then .ok (t ++ [(e.1, o)]) else .error "No such file or directory"

/-- The entries of a recursive `fs::copy`, in order. `fault i` is the system error,
if any, that the `i`-th entry of the source runs into. A failure leaves what was
copied so far. -/
def copy_items (fault : Nat → Option String) : Nat → Tree → Tree → Option String × Tree
  | _, [], dst => (none, dst)
  | i, e :: rest, dst =>
    match fault i with
    | some msg => (some msg, dst)
    | none =>
      match copy_item e dst with
      | .error msg => (some msg, dst)
      | .ok dst1 => copy_items fault (i + 1) rest dst1

/-! ## Time stamps -/

/-- A reading of the local clock, broken down. `subsec` is what `%S` prints after the
whole seconds when the time point is finer than a second (a `.` and the fraction
digits); it is empty for a clock of whole seconds. -/
structure LocalTime where
  year : Nat
  month : Nat
  day : Nat
  hour : Nat
  minute : Nat
  second : Nat
  subsec : String
deriving DecidableEq, Repr

/-- A number in decimal, zero-padded on the left to at least `width` digits. -/
def padNat (width n : Nat) : String :=
  let ds := Nat.toDigits 10 n
  String.mk (List.replicate (width - ds.length) '0' ++ ds)

/-- The time stamp of `PortPatcher::get_timestamp`: the clock reading in the format
`%Y%m%d-%H%M%S`. -/
def get_timestamp (now : LocalTime) : String :=
  padNat 4 now.year ++ padNat 2 now.month ++ padNat 2 now.day ++ "-" ++
    padNat 2 now.hour ++ padNat 2 now.minute ++ padNat 2 now.second ++ now.subsec

/-! ## Commands, the world and the state -/

/-- `CommandExecutor::Result`. -/
structure Result where
  status : Int
  output : String
deriving DecidableEq, Repr

/-- The four places of the workflow that run an external command. -/
inductive Step
  | extract
  | query
  | patch
  | rebuild
deriving DecidableEq, Repr

/-- `PortPatcher::Config`. -/
structure Config where
  port_name : String
  patch_file : String
  backup_dir : String
  ports_dir : String
  dry_run : Bool
  force : Bool
deriving DecidableEq, Repr

/-- An entry of the backup root: its file name, its last-modification time and the
tree below it. -/
structure Entry where
  name : String
  mtime : Nat
  tree : Tree
deriving DecidableEq, Repr

/-- Everything outside the program, for one run.
* `fs_exists`: the answer of `fs::exists`.
* `mkdir_error`: the error of `fs::create_directories` on the backup root, if any.
* `result`: what the command of each step returns; `none` when `popen` fails.
* `effect`: the content of the resolved source directory after the command of a
  step ran, when that command changes it.
* `clock`, `file_time`: the local time and the file clock when the snapshot is
  taken.
* `copy_fault`: the system error hit by the snapshot copy, by position: `0` is the
  start of the copy (before anything is created), `i + 1` the `i`-th entry.
* `remove_fault`: the error of `fs::remove_all` on a child of the target, if any.
* `restore_fault`: the system error hit when restoring a relative path, if any. -/
structure World where
  fs_exists : String → Bool
  mkdir_error : Option String
  result : Step → Option Result
  effect : Step → Option Tree
  clock : LocalTime
  file_time : Nat
  copy_fault : Nat → Option String
  remove_fault : String → Option String
  restore_fault : RelPath → Option String

/-- What a recording test double would see of a run: each call of
`CommandExecutor::execute` with its result, each snapshot copy with its error, each
call of `restore_from_backup` with its target and its error. -/
inductive Event
  | exec (step : Step) (command : String) (result : Option Result)
  | snapshot (source : String) (backup : String) (ec : Option String)
  | restore (target : String) (err : Option String)
deriving DecidableEq, Repr

/-- The state a run threads through its steps. `backups` are the entries of the
backup root, in directory order; `work` is the content of the resolved source
directory, the only directory that is snapshotted, patched and restored. -/
structure St where
  logger : Logger
  trace : List Event
  backups : List Entry
  work : Tree
deriving DecidableEq, Repr

/-- The state before a run: nothing recorded yet. -/
def St.init (lg : Logger) (backups : List Entry) (work : Tree) : St :=
  { logger := lg, trace := [], backups := backups, work := work }

def St.debug (st : St) (msg : String) : St := { st with logger := st.logger.debug msg }
def St.info (st : St) (msg : String) : St := { st with logger := st.logger.info msg }
def St.warning (st : St) (msg : String) : St := { st with logger := st.logger.warning msg }
def St.error (st : St) (msg : String) : St := { st with logger := st.logger.error msg }
def St.record (st : St) (e : Event) : St := { st with trace := st.trace ++ [e] }

/-! ## CommandExecutor -/

/-- `CommandExecutor::execute`: `.error` is the `std::unexpected` of a failed
`popen`. The exit status is not interpreted here. `step` names the call site, so
that the world can script what each call returns and does to the source
directory. -/
def execute (step : Step) (command : String) (w : World) (st : St) :
    Except String Result × St :=
  let st1 := (st.debug ("Executing: " ++ command)).record (Event.exec step command (w.result step))
  match w.result step with
  | none => (.error "popen() failed", st1)
  | some r =>
    let st2 := { st1 with work := (w.effect step).getD st1.work }
    let st3 := if r.output ≠ "" then st2.debug ("command output:\n" ++ r.output) else st2
    (.ok r, st3)

/-- The loop of `execute_with_output` that removes trailing line terminators, on the
reversed text. -/
def strip_rev : List Char → List Char
  | [] => []
  | c :: cs => if c = '\n' ∨ c = '\r' then strip_rev cs else c :: cs

/-- The text without its trailing `\n` and `\r`. -/
def strip_trailing (s : String) : String :=
  String.mk (strip_rev s.data.reverse).reverse

/-- `CommandExecutor::execute_with_output`. -/
def execute_with_output (step : Step) (command : String) (w : World) (st : St) :
    Except String String × St :=
  match execute step command w st with
  | (.error e, st1) => (.error e, st1)
  | (.ok r, st1) =>
    if r.status ≠ 0 then
      (.error ("command failed with status: " ++ toString r.status), st1)
    else (.ok (strip_trailing r.output), st1)

/-! ## PortPatcher -/

/-- The directory of the port: `ports_dir / "x11" / port_name`. -/
def port_dir (cfg : Config) : String :=
  pathJoin (pathJoin cfg.ports_dir "x11") cfg.port_name

/-- The file name of a snapshot: `{port_name}-original-{timestamp}`. -/
def snapshot_name (cfg : Config) (now : LocalTime) : String :=
  cfg.port_name ++ "-original-" ++ get_timestamp now

/-- The path of an entry of the backup root. -/
def entry_path (cfg : Config) (name : String) : String :=
  pathJoin cfg.backup_dir name

/-- `PortPatcher::verify_prerequisites`. -/
def verify_prerequisites (cfg : Config) (w : World) (st : St) : Except String Unit × St :=
  if !w.fs_exists (port_dir cfg) then
    (.error ("Port directory not found " ++ port_dir cfg ++ ":"), st)
  else if !w.fs_exists cfg.patch_file then
    (.error ("patch file not found: " ++ cfg.patch_file), st)
  else (.ok (), st.debug "prerequisistes verified succeessfuly")

/-- `PortPatcher::create_backup_dir`: the backup root is created if it is missing;
its entries are untouched. -/
def create_backup_dir (cfg : Config) (w : World) (st : St) : Except String Unit × St :=
  match w.mkdir_error with
  | some msg => (.error ("failed to create backup directory: " ++ msg), st)
  | none => (.ok (), st.debug ("Backup directory ready: " ++ cfg.backup_dir))

/-- The library call `fs::copy(source_dir, backup_path, recursive | copy_symlinks, ec)`
of `backup_original`, on the entries of the backup root. The snapshot directory is
created when missing; an existing one is copied into. The last-modification time
of the snapshot directory becomes the file clock when it is created or gets a new
direct child. -/
def snapshot_copy (w : World) (name : String) (src : Tree) (backups : List Entry) :
    Option String × List Entry :=
  match w.copy_fault 0 with
  | some msg => (some msg, backups)
  | none =>
    match backups.find? (fun e => decide (e.name = name)) with
    | none =>
      let r := copy_items w.copy_fault 1 src []
      (r.1, backups ++ [{ name := name, mtime := w.file_time, tree := r.2 }])
    | some old =>
      let r := copy_items w.copy_fault 1 src old.tree
      let mtime := if r.2.topNames = old.tree.topNames then old.mtime else w.file_time
      (r.1, backups.map (fun e =>
        if e.name = name then { name := name, mtime := mtime, tree := r.2 } else e))

/-- `PortPatcher::backup_original`: extract, resolve `WRKSRC`, copy the resolved
source directory into the backup root. Returns `WRKSRC`. -/
def backup_original (cfg : Config) (w : World) (st : St) : Except String String × St :=
  let st0 := st.info "Backing up original source files..."
  match execute Step.extract ("cd " ++ port_dir cfg ++ " && make extract") w st0 with
  | (.error _, st1) => (.error "make extract failed", st1)
  | (.ok r, st1) =>
    if r.status ≠ 0 then (.error "make extract failed", st1)
    else
      match execute_with_output Step.query ("cd " ++ port_dir cfg ++ " && make -v WRKSRC") w st1 with
      | (.error e, st2) => (.error ("failed to get WRKSRC: " ++ e), st2)
      | (.ok wrksrc, st2) =>
        let source_dir := pathJoin (port_dir cfg) wrksrc
        let backup_path := entry_path cfg (snapshot_name cfg w.clock)
        let c := snapshot_copy w (snapshot_name cfg w.clock) st2.work st2.backups
        let st3 := ({ st2 with backups := c.2 }).record (Event.snapshot source_dir backup_path c.1)
        match c.1 with
        | some msg => (.error ("backup failed: " ++ msg), st3)
        | none => (.ok wrksrc, st3.info ("backup created at: " ++ backup_path))

/-- The filter of `restore_from_backup`: the entries of the backup root whose path
text contains `{port_name}-original-`. -/
def matching_backups (cfg : Config) (backups : List Entry) : List Entry :=
  backups.filter (fun e => contains (entry_path cfg e.name) (cfg.port_name ++ "-original-"))

/-- The sort of `restore_from_backup`, with the comparator
`last_write_time(a) > last_write_time(b)`: an entry comes before another unless the
other is newer. Entries of equal time keep the order of the listing, as in the
insertion sort that `std::ranges::sort` runs on a short range; the standard leaves
the order of ties open. -/
def sort_by_mtime (backups : List Entry) : List Entry :=
  backups.insertionSort (fun a b => b.mtime ≤ a.mtime)

/-- The backup `restore_from_backup` restores from: the front of the sorted
matches. -/
def latest_backup (cfg : Config) (backups : List Entry) : Option Entry :=
  (sort_by_mtime (matching_backups cfg backups)).head?

/-- The first loop of `restore_from_backup`: every direct child of the target is
removed with all below it; a failure is logged as a warning and the child stays. -/
def clear_target (w : World) (target_dir : String) : List String → St → St
  | [], st => st
  | n :: ns, st =>
    match w.remove_fault n with
    | some msg =>
      clear_target w target_dir ns
        (st.warning ("Failed to remove " ++ pathJoin target_dir n ++ ": " ++ msg))
    | none => clear_target w target_dir ns { st with work := st.work.removeAll n }

/-- One round of the second loop of `restore_from_backup`: the error code after
restoring one entry of the backup. -/
def restore_entry (w : World) (e : RelPath × Obj) (t : Tree) : Except String Tree :=
  match w.restore_fault e.1 with
  | some msg => .error msg
  | none =>
    match e.2 with
    | Obj.dir => create_directories e.1 t
    | Obj.file bytes => copy_file_overwrite bytes e.1 t

/-- The second loop of `restore_from_backup`: the entries of the backup, in the
order of the recursive iterator; the first error is thrown. -/
def restore_entries (w : World) : Tree → St → Except String Unit × St
  | [], st => (.ok (), st)
  | e :: rest, st =>
    match restore_entry w e st.work with
    | .error msg => (.error ("Restore failed during copy: " ++ msg), st)
    | .ok t => restore_entries w rest { st with work := t }

/-- The body of `restore_from_backup`. -/
def restore_steps (cfg : Config) (w : World) (target_dir : String) (st : St) :
    Except String Unit × St :=
  match latest_backup cfg st.backups with
  | none => (.error "No backup found to restore from", st)
  | some latest =>
    let st1 := st.info ("Restoring from backup: " ++ entry_path cfg latest.name)
    let st2 := clear_target w target_dir st1.work.topNames st1
    restore_entries w latest.tree st2

/-- `PortPatcher::restore_from_backup`, recorded with its target and its error. -/
def restore_from_backup (cfg : Config) (w : World) (target_dir : String) (st : St) :
    Except String Unit × St :=
  let r := restore_steps cfg w target_dir st
  (r.1, r.2.record (Event.restore target_dir (match r.1 with
    | .error e => some e
    | .ok _ => none)))

/-- The command line of `apply_patch`. -/
def patch_cmd (cfg : Config) (wrksrc : String) : String :=
  "cd " ++ pathJoin (port_dir cfg) wrksrc ++ " && patch -p1 < " ++ cfg.patch_file

/-- `PortPatcher::apply_patch`. -/
def apply_patch (cfg : Config) (w : World) (wrksrc : String) (st : St) :
    Except String Unit × St :=
  let st0 := st.info ("applying patch " ++ cfg.patch_file)
  let source_dir := pathJoin (port_dir cfg) wrksrc
  if cfg.dry_run then
    (.ok (), st0.info ("[DRY RUN] would execute: " ++ patch_cmd cfg wrksrc))
  else
    let failed (st1 : St) : Except String Unit × St :=
      match restore_from_backup cfg w source_dir (st1.error "patch failed! attempting restore...") with
      | (.error e, st2) => (.error e, st2)
      | (.ok _, st2) => (.error "patch application failed", st2)
    match execute Step.patch (patch_cmd cfg wrksrc) w st0 with
    | (.error _, st1) => failed st1
    | (.ok r, st1) => if r.status ≠ 0 then failed st1 else (.ok (), st1)

/-- `PortPatcher::rebuild_port`. -/
def rebuild_port (cfg : Config) (w : World) (st : St) : Except String Unit × St :=
  let st0 := st.info "Rebuilding port with patch..."
  match execute Step.rebuild ("cd " ++ port_dir cfg ++ " && make clean install") w st0 with
  | (.error _, st1) => (.error "make clean install failed", st1)
  | (.ok r, st1) =>
    if r.status ≠ 0 then (.error "make clean install failed", st1) else (.ok (), st1)

/-- The `try` block of `PortPatcher::run`. -/
def run_steps (cfg : Config) (w : World) (st : St) : Except String Unit × St :=
  let st0 := st.info ("starting  port patching for " ++ cfg.port_name)
  match verify_prerequisites cfg w st0 with
  | (.error e, st1) => (.error e, st1)
  | (.ok _, st1) =>
    match create_backup_dir cfg w st1 with
    | (.error e, st2) => (.error e, st2)
    | (.ok _, st2) =>
      match backup_original cfg w st2 with
      | (.error e, st3) => (.error e, st3)
      | (.ok wrksrc, st3) =>
        match apply_patch cfg w wrksrc st3 with
        | (.error e, st4) => (.error e, st4)
        | (.ok _, st4) =>
          if !cfg.dry_run then
            match rebuild_port cfg w st4 with
            | (.error e, st5) => (.error e, st5)
            | (.ok _, st5) => (.ok (), st5.info ("successfully patched " ++ cfg.port_name))
          else (.ok (), st4.info ("successfully patched " ++ cfg.port_name))

/-- `PortPatcher::run`: the steps, with every exception turned into the error
`Operation failed: {what}`. -/
def run (cfg : Config) (w : World) (st : St) : Except String Unit × St :=
  match run_steps cfg w st with
  | (.error e, st1) => (.error ("Operation failed: " ++ e), st1)
  | (.ok _, st1) => (.ok (), st1)

/-! ## Command line (propatch.cpp) -/

/-- `CLIArgs`, with its default member initialisers. -/
structure CLIArgs where
  port_name : String := ""
  patch_file : String := ""
  backup_dir : String := "/usr/local/etc/patches"
  dry_run : Bool := false
  verbose : Bool := false
  help : Bool := false
deriving DecidableEq, Repr

/-- Whether the argument begins with `-` (`arg.starts_with('-')`). -/
def is_dashed (arg : String) : Bool :=
  match arg.data with
  | '-' :: _ => true
  | _ => false

/-- The loop of `parse_args` over `args[1..]`: `todo` are the arguments from index
`i` on, `a` is `cli_args` so far. The value after `--backup-dir`/`-b` is consumed
with it. -/
def parse_loop : List String → CLIArgs → Except String CLIArgs
  | [], a => .ok a
  | arg :: rest, a =>
    if arg = "--help" ∨ arg = "-h" then parse_loop rest { a with help := true }
    else if arg = "--dry-run" ∨ arg = "-n" then parse_loop rest { a with dry_run := true }
    else if arg = "--verbose" ∨ arg = "-v" then parse_loop rest { a with verbose := true }
    else if arg = "--backup-dir" ∨ arg = "-b" then
      match rest with
      | [] => .error "Missing backup directory"
      | dir :: rest1 => parse_loop rest1 { a with backup_dir := dir }
    else if !is_dashed arg then
      if a.port_name = "" then parse_loop rest { a with port_name := arg }
      else if a.patch_file = "" then parse_loop rest { a with patch_file := arg }
      else parse_loop rest a
    else .error ("Unknown argument: " ++ arg)

/-- `parse_args`: `args[0]` is the program name. -/
def parse_args (args : List String) : Except String CLIArgs :=
  match parse_loop (args.drop 1) {} with
  | .error e => .error e
  | .ok a =>
    if a.help then .ok a
    else if a.port_name = "" then .error "Port name required"
    else if a.patch_file = "" then .error "Patch file required"
    else .ok a

/-- What `main` leaves behind: its exit code, what it printed to the standard error
stream, whether it printed the usage text, the console logger, and the run of the
patcher with its final state when the patcher was constructed and run. -/
structure MainOutcome where
  exit_code : Nat
  stderr : List String
  usage_printed : Bool
  console : Logger
  ran : Option (Except String Unit × St)

/-- The function `main` of propatch.cpp. The file logger gets what the patcher logs;
`backups` and `work` are the backup root and the source directory before the
run. -/
def main (argv : List String) (w : World) (backups : List Entry) (work : Tree) :
    MainOutcome :=
  match parse_args argv with
  | .error e =>
    { exit_code := 1, stderr := ["Error: " ++ e], usage_printed := true,
      console := { min_level := Level.INFO, out := [] }, ran := none }
  | .ok args =>
    if args.help then
      { exit_code := 0, stderr := [], usage_printed := true,
        console := { min_level := Level.INFO, out := [] }, ran := none }
    else
      let level := if args.verbose then Level.DEBUG else Level.INFO
      let file_logger : Logger := { min_level := level, out := [] }
      let console_logger : Logger := { min_level := level, out := [] }
      let config : Config :=
        { port_name := args.port_name, patch_file := args.patch_file,
          backup_dir := args.backup_dir, ports_dir := "/usr/ports",
          dry_run := args.dry_run, force := false }
      let console1 :=
        if args.dry_run then console_logger.info "Running in dry-run mode" else console_logger
      let result := run config w (St.init file_logger backups work)
      match result.1 with
      | .error e =>
        { exit_code := 1, stderr := [], usage_printed := false,
          console := console1.error e, ran := some result }
      | .ok _ =>
        { exit_code := 0, stderr := [], usage_printed := false,
          console := console1.info "Operation completed successfully", ran := some result }

/-! ## patch.c -/

namespace PatchC

/-- `logger_log`: the same threshold test as the run-time `Logger::log`. -/
def logger_log (lg : Logger) (level : Level) (msg : String) : Logger :=
  lg.log level msg

/-- `command_result_t`; `output` is `none` for a null pointer. -/
structure command_result_t where
  status : Int
  output : Option String
deriving DecidableEq, Repr

/-- What the operating system makes of a command line: `none` when `popen` fails,
otherwise the status `pclose` returns and the text the process printed (without
zero bytes). Memory allocation is taken to succeed. -/
abbrev Proc := Option (Int × String)

/-- The chunks that successive calls of `fgets(buffer, size, pipe)` return: each
ends after a newline or when `size - 1` characters are read. `cur` is the chunk
being read, reversed. -/
def fgets_chunks (size : Nat) : List Char → List Char → List (List Char)
  | [], cur => if cur = [] then [] else [cur.reverse]
  | c :: cs, cur =>
    if c = '\n' ∨ cur.length + 1 = size - 1 then (c :: cur).reverse :: fgets_chunks size cs []
    else fgets_chunks size cs (c :: cur)

/-- The reading loop of `command_execute`: `output` starts as a null pointer and
every chunk is appended to it. -/
def read_output (text : String) : Option String :=
  (fgets_chunks 128 text.data []).foldl
    (fun (output : Option String) chunk => some (output.getD "" ++ String.mk chunk)) none

/-- `command_execute(command, result, logger)`: the return value, `*result` and the
logger afterwards. `result` and `logger` are `none` for null pointers. The return
value is 0 whenever the process was started; the exit status only goes to
`*result`. With a null `result` the source logs the output after freeing it; the
text is logged here as it was read. -/
def command_execute (command : String) (proc : Proc) (result : Option command_result_t)
    (logger : Option Logger) : Int × Option command_result_t × Option Logger :=
  let logger1 := logger.map (fun lg => logger_log lg Level.DEBUG ("Executing: " ++ command))
  match proc with
  | none => (-1, result, logger1)
  | some (status, text) =>
    let output := read_output text
    let result1 := result.map (fun _ => ({ status := status, output := output } : command_result_t))
    let logger2 :=
      match output with
      | some out => logger1.map (fun lg => logger_log lg Level.DEBUG ("Command output:\n" ++ out))
      | none => logger1
    (0, result1, logger2)

/-- `command_execute_with_output(command, logger)`: the returned pointer (`none` for
null) and the logger afterwards. -/
def command_execute_with_output (command : String) (proc : Proc) (logger : Option Logger) :
    Option String × Option Logger :=
  let r := command_execute command proc (some { status := 0, output := none }) logger
  if r.1 ≠ 0 then (none, r.2.2)
  else
    match r.2.1 with
    | none => (none, r.2.2)
    | some result =>
      if result.status ≠ 0 then (none, r.2.2)
      else (result.output.map strip_trailing, r.2.2)

/-- The text `snprintf(buf, size, ...)` leaves in `buf`: at most `size - 1`
characters. -/
def snprintf (size : Nat) (s : String) : String :=
  String.mk (s.data.take (size - 1))

/-- `patcher_config_t`. -/
structure patcher_config_t where
  port_name : String
  patch_file : String
  backup_dir : String
  ports_dir : String
  dry_run : Bool
deriving DecidableEq, Repr

/-- The three commands of `backup_original`. -/
inductive CStep
  | extract
  | query
  | copy
deriving DecidableEq, Repr

/-- Everything outside `backup_original`: what becomes of each of its commands, and
the local time `localtime` returns. -/
structure CWorld where
  proc : CStep → Proc
  clock : LocalTime

/-- The state of `backup_original`: the logger of the patcher and the command lines
passed to `command_execute`, in order. -/
structure CSt where
  logger : Logger
  commands : List String
deriving DecidableEq, Repr

/-- The time stamp `strftime(timestamp, 20, "%Y%m%d-%H%M%S", tm_info)` writes, for a
year that fits the buffer. -/
def timestamp (tm : LocalTime) : String :=
  get_timestamp { tm with subsec := "" }

/-- `backup_original(patcher)`: the returned pointer (`none` for null) and the state
afterwards. -/
def backup_original (config : patcher_config_t) (w : CWorld) (st : CSt) : Option String × CSt :=
  let lg0 := logger_log st.logger Level.INFO "Backing up original source files..."
  let port_dir := snprintf 1024 (config.ports_dir ++ "/x11/" ++ config.port_name)
  let command1 := snprintf 2048 ("cd " ++ port_dir ++ " && make extract")
  let r1 := command_execute command1 (w.proc CStep.extract) (some { status := 0, output := none })
    (some lg0)
  let lg1 := r1.2.2.getD lg0
  let cmds1 := st.commands ++ [command1]
  if r1.1 ≠ 0 ∨ (r1.2.1.map (fun r => r.status)).getD 0 ≠ 0 then
    (none, { logger := logger_log lg1 Level.ERROR "make extract failed", commands := cmds1 })
  else
    let command2 := snprintf 2048 ("cd " ++ port_dir ++ " && make -V WRKSRC")
    let r2 := command_execute_with_output command2 (w.proc CStep.query) (some lg1)
    let lg2 := r2.2.getD lg1
    let cmds2 := cmds1 ++ [command2]
    match r2.1 with
    | none =>
      (none, { logger := logger_log lg2 Level.ERROR "Failed to get WRKSRC directory",
               commands := cmds2 })
    | some wrksrc =>
      let backup_path := snprintf 1024
        (config.backup_dir ++ "/" ++ config.port_name ++ "-original-" ++ timestamp w.clock)
      let source_dir := snprintf 1024 (port_dir ++ "/" ++ wrksrc)
      let command3 := snprintf 2048 ("cp -r " ++ source_dir ++ " " ++ backup_path)
      let r3 := command_execute command3 (w.proc CStep.copy) none (some lg2)
      let lg3 := r3.2.2.getD lg2
      let cmds3 := cmds2 ++ [command3]
      if r3.1 ≠ 0 then
        (none, { logger := logger_log lg3 Level.ERROR "Backup copy failed", commands := cmds3 })
      else
        (some wrksrc,
          { logger := logger_log lg3 Level.INFO ("Backup created at: " ++ backup_path),
            commands := cmds3 })

/-- The error numbers of `mkdir` the model tells apart. -/
inductive Errno
  | EEXIST
  | ENOENT
  | ENOTDIR
  | EACCES
  | other (n : Nat)
deriving DecidableEq, Repr

/-- The names in a path text, left to right: the text split at `/`, without empty
names. `cur` is the name being read, reversed. -/
def path_names_from : List Char → List Char → List String
  | [], cur => if cur = [] then [] else [String.mk cur.reverse]
  | c :: cs, cur =>
    if c = '/' then
      if cur = [] then path_names_from cs []
      else String.mk cur.reverse :: path_names_from cs []
    else path_names_from cs (c :: cur)

def path_names (path : String) : List String :=
  path_names_from path.data []

/-- Path resolution from the directory `cur` of the tree: every name must lead to a
directory. The name `.` stays, `..` goes to the parent, and the root of the tree is
its own parent. -/
def resolve (t : Tree) : RelPath → List String → Except Errno RelPath
  | cur, [] => .ok cur
  | cur, n :: rest =>
    if n = "." then resolve t cur rest
    else if n = ".." then resolve t cur.dropLast rest
    else
      match t.get? (cur ++ [n]) with
      | some Obj.dir => resolve t (cur ++ [n]) rest
      | some (Obj.file _) => .error Errno.ENOTDIR
      | none => .error Errno.ENOENT

/-- Where the last name of a path points, the names before it resolved through
directories: an error of the resolution; `none` when the path has no names or ends
in `.` or `..` and so names a directory that exists; otherwise the place of the
entry, which may or may not exist. -/
def target (t : Tree) (path : String) : Except Errno (Option RelPath) :=
  match (path_names path).getLast? with
  | none => .ok none
  | some last =>
    match resolve t [] (path_names path).dropLast with
    | .error e => .error e
    | .ok cur => if last = "." ∨ last = ".." then .ok none else .ok (some (cur ++ [last]))

/-- The system call `mkdir(path, 0755)` on the tree below the root directory (the
working directory is taken to be the root): the error number, if any, and the tree
afterwards. `fault` is the error the system reports for reasons outside the tree
(permissions, a read-only or full disk). A path that names an existing entry of any
type gives `EEXIST`. -/
def mkdir (fault : RelPath → Option Errno) (path : String) (t : Tree) : Option Errno × Tree :=
  if path = "" then (some Errno.ENOENT, t)
  else
    match fault (path_names path) with
    | some e => (some e, t)
    | none =>
      match target t path with
      | .error e => (some e, t)
      | .ok none => (some Errno.EEXIST, t)
      | .ok (some q) =>
        match t.get? q with
        | some _ => (some Errno.EEXIST, t)
        | none => (none, t ++ [(q, Obj.dir)])

/-- The state of `create_directory_recursive`: the tree, and every call of `mkdir`
with its error number, in order. -/
structure DirSt where
  tree : Tree
  calls : List (String × Option Errno)
deriving DecidableEq, Repr

/-- One `mkdir(path_copy, 0755) != 0 && errno != EEXIST` test: `false` means the
function returns -1. -/
def mkdir_step (fault : RelPath → Option Errno) (path : String) (st : DirSt) : Bool × DirSt :=
  let r := mkdir fault path st.tree
  let st1 : DirSt := { tree := r.2, calls := st.calls ++ [(path, r.1)] }
  match r.1 with
  | none => (true, st1)
  | some Errno.EEXIST => (true, st1)
  | some _ => (false, st1)

/-- The `while` loop of `create_directory_recursive`: `done` is the text before `p`,
the list is the text from `p` on. At every `/` the text before it is made a
directory. -/
def create_loop (fault : RelPath → Option Errno) (done : List Char) :
    List Char → DirSt → Bool × DirSt
  | [], st => (true, st)
  | c :: rest, st =>
    if c = '/' then
      match mkdir_step fault (String.mk done) st with
      | (false, st1) => (false, st1)
      | (true, st1) => create_loop fault (done ++ [c]) rest st1
    else create_loop fault (done ++ [c]) rest st

/-- The step `if (*p == '/') p++` before the loop: the text before `p` and the text
from `p` on. -/
def skip_leading_slash : List Char → List Char × List Char
  | '/' :: rest => (['/'], rest)
  | cs => ([], cs)

/-- `create_directory_recursive(path)`: the return value and the state afterwards. A
leading `/` is skipped before the loop; after the loop the whole path is made a
directory. -/
def create_directory_recursive (fault : RelPath → Option Errno) (path : String) (st : DirSt) :
    Int × DirSt :=
  let start := skip_leading_slash path.data
  match create_loop fault start.1 start.2 st with
  | (false, st1) => (-1, st1)
  | (true, st1) =>
    match mkdir_step fault path st1 with
    | (false, st2) => (-1, st2)
    | (true, st2) => (0, st2)

/-- `directory_exists(path)`: `stat` succeeds and the entry is a directory. -/
def directory_exists (path : String) (t : Tree) : Bool :=
  if path = "" then false
  else
    match target t path with
    | .error _ => false
    | .ok none => true
    | .ok (some q) => decide (t.get? q = some Obj.dir)

/-- `create_backup_dir(patcher)`: the return value, the logger and the state
afterwards. `strerror` is the text the C library has for the error number left by
the last `mkdir` call. -/
def create_backup_dir (fault : RelPath → Option Errno) (strerror : Option Errno → String)
    (config : patcher_config_t) (logger : Logger) (st : DirSt) : Int × Logger × DirSt :=
  let r := create_directory_recursive fault config.backup_dir st
  if r.1 ≠ 0 then
    (-1, logger_log logger Level.ERROR ("Failed to create backup directory: " ++
      strerror ((r.2.calls.getLast?.map Prod.snd).getD none)), r.2)
  else
    (0, logger_log logger Level.DEBUG ("Backup directory ready: " ++ config.backup_dir), r.2)

end PatchC

/-! ## reaptchpro_st.cpp -/

namespace ReaptchSt

/-- `Logger::log(level, message)` of reaptchpro_st.cpp: a line is printed when
`level >= min_level_`. -/
def log (lg : Logger) (level : Level) (message : String) : Logger :=
  if lg.min_level.toNat ≤ level.toNat then { lg with out := lg.out ++ [(level, message)] }
  else lg

/-- `CommandExecutor::execute` of reaptchpro_st.cpp: the exit status, or the
exception of a failed `popen`; and the logger afterwards. -/
def execute (command : String) (proc : PatchC.Proc) (lg : Logger) : Except String Int × Logger :=
  let lg1 := log lg Level.DEBUG ("Executing: " ++ command)
  match proc with
  | none => (.error "popen() failed!", lg1)
  | some (status, text) =>
    if text ≠ "" then (.ok status, log lg1 Level.DEBUG ("Command output:\n" ++ text))
    else (.ok status, lg1)

/-- `PortPatcher::get_timestamp` of reaptchpro_st.cpp: `put_time` on a `std::tm`,
which has whole seconds. -/
def get_timestamp (tm : LocalTime) : String :=
  Propatch.get_timestamp { tm with subsec := "" }

/-- The order `a < b` of `std::string`: the first differing character decides, by
its code; a proper initial part comes first. -/
def lex_lt : List Char → List Char → Bool
  | [], [] => false
  | [], _ :: _ => true
  | _ :: _, [] => false
  | a :: as, b :: bs => decide (a < b) || (decide (a = b) && lex_lt as bs)

def str_lt (a b : String) : Bool :=
  lex_lt a.data b.data

/-- The choice of `restore_from_backup` in reaptchpro_st.cpp: `std::sort` on the
matching paths, ascending, and `backups.back()`. The paths lie in one directory, so
their order is the order of their file names as text. -/
def latest_backup (names : List String) : Option String :=
  (names.insertionSort (fun a b => str_lt b a = false)).getLast?

end ReaptchSt

/-! ## Vocabulary for the statements -/

/-- The command of a step was spawned and exited with status 0. -/
def World.ok (w : World) (s : Step) : Bool :=
  match w.result s with
  | some r => decide (r.status = 0)
  | none => false

/-- The value of `WRKSRC` a run resolves: the output of the query without its
trailing line terminators. -/
def World.wrksrc (w : World) : String :=
  match w.result Step.query with
  | some r => strip_trailing r.output
  | none => ""

/-- The resolved source directory of a run: `port_dir / wrksrc`. -/
def source_dir (cfg : Config) (w : World) : String :=
  pathJoin (port_dir cfg) w.wrksrc

/-- The content of the resolved source directory when the snapshot is taken, for a
run that started with `work`. -/
def work_at_snapshot (w : World) (work : Tree) : Tree :=
  (w.effect Step.query).getD ((w.effect Step.extract).getD work)

/-- The snapshot copy of a run that started with the entries `backups` and the
source content `work`: its error and the entries of the backup root after it. -/
def run_copy (cfg : Config) (w : World) (backups : List Entry) (work : Tree) :
    Option String × List Entry :=
  snapshot_copy w (snapshot_name cfg w.clock) (work_at_snapshot w work) backups

/-- Both prerequisites hold and the backup root could be created. -/
def Ready (cfg : Config) (w : World) : Prop :=
  w.fs_exists (port_dir cfg) = true ∧ w.fs_exists cfg.patch_file = true ∧ w.mkdir_error = none

instance (cfg : Config) (w : World) : Decidable (Ready cfg w) := by
  unfold Ready; infer_instance

def ev_extract (cfg : Config) (w : World) : Event :=
  Event.exec Step.extract ("cd " ++ port_dir cfg ++ " && make extract") (w.result Step.extract)

def ev_query (cfg : Config) (w : World) : Event :=
  Event.exec Step.query ("cd " ++ port_dir cfg ++ " && make -v WRKSRC") (w.result Step.query)

def ev_snapshot (cfg : Config) (w : World) (ec : Option String) : Event :=
  Event.snapshot (source_dir cfg w) (entry_path cfg (snapshot_name cfg w.clock)) ec

def ev_patch (cfg : Config) (w : World) : Event :=
  Event.exec Step.patch ("cd " ++ source_dir cfg w ++ " && patch -p1 < " ++ cfg.patch_file)
    (w.result Step.patch)

def ev_rebuild (cfg : Config) (w : World) : Event :=
  Event.exec Step.rebuild ("cd " ++ port_dir cfg ++ " && make clean install")
    (w.result Step.rebuild)

/-- The event is a call of `restore_from_backup`. -/
def Event.isRestore : Event → Bool
  | Event.restore _ _ => true
  | _ => false

/-- The event is an attempt to run the command of step `s`. -/
def Event.isExec (s : Step) : Event → Bool
  | Event.exec s1 _ _ => decide (s1 = s)
  | _ => false

/-- The event is a snapshot copy. -/
def Event.isSnapshot : Event → Bool
  | Event.snapshot _ _ _ => true
  | _ => false

/-- The text of the error a run reports when the patch command failed and the
restore went through. -/
def patch_failure : String := "Operation failed: patch application failed"

/-- The front of a list dominates the list in last-modification time. -/
def FrontNewest (l : List Entry) : Prop :=
  ∀ f, l.head? = some f → ∀ x ∈ l, x.mtime ≤ f.mtime

/-- Every proper, non-empty initial part of `p` is a directory of `t`. -/
def AncDirs (t : Tree) (p : RelPath) : Prop :=
  ∀ k, 0 < k → k < p.length → t.get? (p.take k) = some Obj.dir

/-- Every entry of `t` has a non-empty path and lies below directories of `t`. -/
def Closed (t : Tree) : Prop :=
  ∀ q o, (q, o) ∈ t → q ≠ [] ∧ AncDirs t q

/-! ## Vocabulary for the later statements -/

/-- The event is a call of `CommandExecutor::execute`. -/
def Event.isCommand : Event → Bool
  | Event.exec _ _ _ => true
  | _ => false

/-- The event is a command that was spawned and exited with status 0. -/
def Event.succeeded : Event → Bool
  | Event.exec _ _ (some r) => decide (r.status = 0)
  | _ => false

/-- The commands of a run, in the order they were executed. -/
def commands_of (trace : List Event) : List Event :=
  trace.filter Event.isCommand

/-- The character is a line terminator. -/
def is_eol (c : Char) : Prop := c = '\n' ∨ c = '\r'

instance (c : Char) : Decidable (is_eol c) := by unfold is_eol; infer_instance

/-- The text `r` is `output` without its trailing line terminators: `output` is `r`
followed only by line terminators, and `r` is empty or ends in another character. -/
def Stripped (output r : String) : Prop :=
  (∃ t : List Char, output.data = r.data ++ t ∧ ∀ c ∈ t, is_eol c) ∧
    ∀ c, r.data.getLast? = some c → ¬ is_eol c

/-- How the claims read an argument: a flag, the backup option with its value or
without one, a positional, or an unknown `-` argument. -/
inductive Tok
  | help
  | dry_run
  | verbose
  | backup (dir : String)
  | dangling
  | positional (s : String)
  | unknown (s : String)
deriving DecidableEq, Repr

/-- The reading of the arguments after the program name: `--backup-dir`/`-b` takes
the next argument as its value, whatever it is; it is `dangling` when it is the last
argument. -/
def scan : List String → List Tok
  | [] => []
  | arg :: rest =>
    if arg = "--help" ∨ arg = "-h" then Tok.help :: scan rest
    else if arg = "--dry-run" ∨ arg = "-n" then Tok.dry_run :: scan rest
    else if arg = "--verbose" ∨ arg = "-v" then Tok.verbose :: scan rest
    else if arg = "--backup-dir" ∨ arg = "-b" then
      match rest with
      | [] => [Tok.dangling]
      | dir :: rest1 => Tok.backup dir :: scan rest1
    else if is_dashed arg then Tok.unknown arg :: scan rest
    else Tok.positional arg :: scan rest

/-- An unknown `-` argument, or a backup option without a value. -/
def Tok.isBad : Tok → Bool
  | Tok.unknown _ => true
  | Tok.dangling => true
  | _ => false

/-- The positional arguments that are not empty, in order. -/
def named : List Tok → List String
  | [] => []
  | Tok.positional s :: rest => if s = "" then named rest else s :: named rest
  | _ :: rest => named rest

/-- The value of the last backup option, if there is one. -/
def backup_choice : List Tok → Option String
  | [] => none
  | Tok.backup dir :: rest => (backup_choice rest).orElse (fun _ => some dir)
  | _ :: rest => backup_choice rest

/-- The positional arguments, empty ones included. -/
def positionals : List Tok → List String
  | [] => []
  | Tok.positional s :: rest => s :: positionals rest
  | _ :: rest => positionals rest

/-- An argument vector is malformed, in the words of C15: it lacks the port name or
the patch file positional, or it has an unknown `-` argument, or its backup option
has no value. -/
def Malformed (argv : List String) : Prop :=
  (positionals (scan (argv.drop 1))).length < 2 ∨ (scan (argv.drop 1)).any Tok.isBad = true

instance (argv : List String) : Decidable (Malformed argv) := by
  unfold Malformed; infer_instance

/-- Every entry of `t` is an entry of `t1`, at the same path and with the same
content. -/
def Keeps (t t1 : Tree) : Prop :=
  ∀ q x, t.get? q = some x → t1.get? q = some x

/-- The error number is none, or `EEXIST`: what `create_directory_recursive` lets
pass. -/
def Accepted (e : Option PatchC.Errno) : Prop :=
  e = none ∨ e = some PatchC.Errno.EEXIST

instance (e : Option PatchC.Errno) : Decidable (Accepted e) := by
  unfold Accepted; infer_instance

/-- The `width` low-order decimal digits of `n`, most significant first. -/
def digitsW : Nat → Nat → List Char
  | 0, _ => []
  | w + 1, n => digitsW w (n / 10) ++ [Nat.digitChar (n % 10)]

/-- A broken-down time with a four-digit year and every field in its range. -/
def InRange (t : LocalTime) : Prop :=
  1000 ≤ t.year ∧ t.year ≤ 9999 ∧ 1 ≤ t.month ∧ t.month ≤ 12 ∧ 1 ≤ t.day ∧ t.day ≤ 31 ∧
    t.hour ≤ 23 ∧ t.minute ≤ 59 ∧ t.second ≤ 59

instance (t : LocalTime) : Decidable (InRange t) := by unfold InRange; infer_instance

/-- The chronological order of broken-down times: the order of the tuples (year,
month, day, hour, minute, second). -/
def earlier (a b : LocalTime) : Prop :=
  a.year < b.year ∨ (a.year = b.year ∧ (a.month < b.month ∨ (a.month = b.month ∧
    (a.day < b.day ∨ (a.day = b.day ∧ (a.hour < b.hour ∨ (a.hour = b.hour ∧
      (a.minute < b.minute ∨ (a.minute = b.minute ∧ a.second < b.second)))))))))

instance (a b : LocalTime) : Decidable (earlier a b) := by unfold earlier; infer_instance

/-- The snapshot name reaptchpro_st.cpp gives a port at a time:
`port_name_ + "-original-" + get_timestamp()`. -/
def st_snapshot_name (port : String) (t : LocalTime) : String :=
  port ++ "-original-" ++ ReaptchSt.get_timestamp t

/-- Every entry of `t1` is an entry of `t` or a directory. -/
def Grown (t t1 : Tree) : Prop :=
  ∀ q x, t1.get? q = some x → t.get? q = some x ∨ x = Obj.dir

/-- The texts `done ++ rest.take j` for every position `j` of `rest` that holds a
`/`, shortest first. -/
def cuts_after (done rest : List Char) : List String :=
  ((List.range rest.length).filter (fun j => decide (rest[j]? = some '/'))).map
    (fun j => String.mk (done ++ rest.take j))

/-- The initial parts of a path text that end right before a `/` which is not its
first character, shortest first, and then the path text itself. -/
def cut_points (path : String) : List String :=
  ((List.range path.data.length).filter
      (fun i => decide (0 < i) && decide (path.data[i]? = some '/'))).map
    (fun i => String.mk (path.data.take i)) ++ [path]

/-- The call `mkdir(p, 0755)` on each path of a list in turn, up to the first one
that fails with an error other than `EEXIST`; `false` when there is one. -/
def mkdir_each (fault : RelPath → Option PatchC.Errno) :
    List String → PatchC.DirSt → Bool × PatchC.DirSt
  | [], st => (true, st)
  | p :: ps, st =>
    if (PatchC.mkdir_step fault p st).1 then mkdir_each fault ps (PatchC.mkdir_step fault p st).2
    else (false, (PatchC.mkdir_step fault p st).2)

/-- The port `demo` with its patch, not in simulation mode. -/
def demoCfg : Config :=
  { port_name := "demo", patch_file := "/tmp/fix.diff", backup_dir := "/b",
    ports_dir := "/usr/ports", dry_run := false, force := false }

/-- The sources of `demo` after extraction. -/
def demoTree : Tree :=
  [(["src"], Obj.dir), (["src", "a.c"], Obj.file [1, 2]), (["README"], Obj.file [3])]

/-- A world in which everything exists and every command succeeds. -/
def demoWorld : World :=
  { fs_exists := fun _ => true
    mkdir_error := none
    result := fun s => match s with
      | Step.query => some { status := 0, output := "work/demo-1.0\n" }
      | _ => some { status := 0, output := "" }
    effect := fun s => match s with
      | Step.extract => some demoTree
      | _ => none
    clock := { year := 2024, month := 3, day := 9, hour := 7, minute := 5, second := 0,
               subsec := "" }
    file_time := 100
    copy_fault := fun _ => none
    remove_fault := fun _ => none
    restore_fault := fun _ => none }

/-- The world of `demoWorld` in which nothing exists. -/
def emptyWorld : World := { demoWorld with fs_exists := fun _ => false }

/-- The world of `demoWorld` in which the patch command exits with status 1 after
leaving a reject file behind. -/
def badPatchWorld : World :=
  { demoWorld with
    result := fun s => match s with
      | Step.query => some { status := 0, output := "work/demo-1.0\n" }
      | Step.patch => some { status := 256, output := "1 out of 1 hunk FAILED" }
      | _ => some { status := 0, output := "" }
    effect := fun s => match s with
      | Step.extract => some demoTree
      | Step.patch => some (demoTree ++ [(["a.c.rej"], Obj.file [9])])
      | _ => none }

/-- A logger at the default threshold with nothing printed. -/
def demoLogger : Logger := { min_level := Level.INFO, out := [] }

/-- The port `st`, with its backups under `/b`. -/
def stCfg : Config :=
  { port_name := "st", patch_file := "/tmp/st.diff", backup_dir := "/b",
    ports_dir := "/usr/ports", dry_run := false, force := false }

/-- A snapshot of the port `st`. -/
def stEntry : Entry :=
  { name := "st-original-20240101-000000", mtime := 10, tree := [(["st.c"], Obj.file [1])] }

/-- An older snapshot of the port `st`. -/
def stOldEntry : Entry :=
  { name := "st-original-20231231-235959", mtime := 5, tree := [(["st.c"], Obj.file [0])] }

/-- A later snapshot of another port, `xst`, whose name ends in `st`. -/
def xstEntry : Entry :=
  { name := "xst-original-20240202-000000", mtime := 20, tree := [(["xst.c"], Obj.file [2])] }

/-- The port `st` with a backup root whose own path contains `st-original-`. -/
def stRootCfg : Config := { stCfg with backup_dir := "/var/st-original-store" }

/-- A snapshot of the port `vim`. -/
def vimEntry : Entry :=
  { name := "vim-original-20240303-000000", mtime := 30, tree := [(["vim.c"], Obj.file [3])] }

/-- The snapshot of `demo` that `demoWorld` makes. -/
def demoEntry : Entry :=
  { name := "demo-original-20240309-070500", mtime := 100, tree := demoTree }

/-- The world of `demoWorld` in which the reject file cannot be removed. -/
def stuckWorld : World :=
  { demoWorld with
    remove_fault := fun n => if n = "a.c.rej" then some "Permission denied" else none }

/-- The state after a failed patch of `demo` that left a reject file in the source
directory. -/
def rejectState : St :=
  St.init demoLogger [demoEntry] (demoTree ++ [(["a.c.rej"], Obj.file [9])])

/-- The world of `demoWorld` with a clock of nanoseconds, as `system_clock::now()`
reads it. -/
def tickWorld : World :=
  { demoWorld with
    clock := { year := 2024, month := 3, day := 9, hour := 7, minute := 5, second := 0,
               subsec := ".123456789" } }

/-- The world of `tickWorld` at the next snapshot when the clock returns the same
reading again; the file clock has moved on. -/
def sameReadingWorld : World := { tickWorld with file_time := 101 }

/-- The world of `tickWorld` one nanosecond later. -/
def nextTickWorld : World :=
  { demoWorld with
    clock := { year := 2024, month := 3, day := 9, hour := 7, minute := 5, second := 0,
               subsec := ".123456790" }
    file_time := 101 }

/-- The snapshot of `demo` that `tickWorld` makes. -/
def tickEntry : Entry :=
  { name := "demo-original-20240309-070500.123456789", mtime := 100, tree := demoTree }

/-- A logger that lets every level through, with nothing printed. -/
def debugLogger : Logger := { min_level := Level.DEBUG, out := [] }

/-- The port `st` for patch.c. -/
def stPatcher : PatchC.patcher_config_t :=
  { port_name := "st", patch_file := "/tmp/st.diff", backup_dir := "/b",
    ports_dir := "/usr/ports", dry_run := false }

/-- A world for patch.c in which extraction and the query succeed and `cp -r` exits
with status 1 (wait status 256) after an error message. -/
def cpFailsWorld : PatchC.CWorld :=
  { proc := fun s => match s with
      | PatchC.CStep.extract => some (0, "")
      | PatchC.CStep.query => some (0, "work/st-0.9\n")
      | PatchC.CStep.copy => some (256, "cp: /b/st-original-20240309-070500: No space left on device\n")
    clock := { year := 2024, month := 3, day := 9, hour := 7, minute := 5, second := 0,
               subsec := "" } }

/-- The world of `cpFailsWorld` in which `cp -r` cannot be started. -/
def cpMissingWorld : PatchC.CWorld :=
  { cpFailsWorld with
    proc := fun s => match s with
      | PatchC.CStep.extract => some (0, "")
      | PatchC.CStep.query => some (0, "work/st-0.9\n")
      | PatchC.CStep.copy => none }

/-- The state of patch.c before `backup_original`. -/
def cStart : PatchC.CSt := { logger := demoLogger, commands := [] }

/-- The world of `demoWorld` in which the `WRKSRC` query prints nothing. -/
def silentWorld : World :=
  { demoWorld with result := fun _ => some { status := 0, output := "" } }

/-- The last second of January 2024. -/
def janEnd : LocalTime :=
  { year := 2024, month := 1, day := 31, hour := 23, minute := 59, second := 59, subsec := "" }

/-- The first second of February 2024. -/
def febStart : LocalTime :=
  { year := 2024, month := 2, day := 1, hour := 0, minute := 0, second := 0, subsec := "" }

/-- A tree in which `/usr/local/etc` is a directory and `patches` in it is a regular
file. -/
def patchesFileTree : PatchC.DirSt :=
  { tree := [(["usr"], Obj.dir), (["usr", "local"], Obj.dir), (["usr", "local", "etc"], Obj.dir),
      (["usr", "local", "etc", "patches"], Obj.file [104, 105])],
    calls := [] }

/-- A tree in which `/usr/local` is a regular file. -/
def localFileTree : PatchC.DirSt :=
  { tree := [(["usr"], Obj.dir), (["usr", "local"], Obj.file [])], calls := [] }

/-- The port `st` for patch.c with the default backup directory. -/
def patchesConfig : PatchC.patcher_config_t :=
  { stPatcher with backup_dir := "/usr/local/etc/patches" }

@[simp] theorem clear_target_trace (w : World) (t : String) (ns : List String) (st : St) :
    (clear_target w t ns st).trace = st.trace := by
  induction ns generalizing st with
  | nil => rfl
  | cons n ns ih =>
    unfold clear_target
    cases w.remove_fault n <;> simp [ih, St.warning]

@[simp] theorem clear_target_backups (w : World) (t : String) (ns : List String) (st : St) :
    (clear_target w t ns st).backups = st.backups := by
  induction ns generalizing st with
  | nil => rfl
  | cons n ns ih =>
    unfold clear_target
    cases w.remove_fault n <;> simp [ih, St.warning]

@[simp] theorem restore_entries_trace (w : World) (es : Tree) (st : St) :
    (restore_entries w es st).2.trace = st.trace := by
  induction es generalizing st with
  | nil => rfl
  | cons e es ih =>
    unfold restore_entries
    cases restore_entry w e st.work <;> simp [ih]

@[simp] theorem restore_entries_backups (w : World) (es : Tree) (st : St) :
    (restore_entries w es st).2.backups = st.backups := by
  induction es generalizing st with
  | nil => rfl
  | cons e es ih =>
    unfold restore_entries
    cases restore_entry w e st.work <;> simp [ih]

@[simp] theorem restore_steps_trace (cfg : Config) (w : World) (t : String) (st : St) :
    (restore_steps cfg w t st).2.trace = st.trace := by
  unfold restore_steps
  cases latest_backup cfg st.backups <;> simp [St.info]

@[simp] theorem restore_steps_backups (cfg : Config) (w : World) (t : String) (st : St) :
    (restore_steps cfg w t st).2.backups = st.backups := by
  unfold restore_steps
  cases latest_backup cfg st.backups <;> simp [St.info]

/-- The errors `restore_from_backup` throws. -/
theorem restore_entries_error (w : World) (es : Tree) (st : St) (e : String)
    (h : (restore_entries w es st).1 = Except.error e) :
    ∃ d, e = "Restore failed during copy: " ++ d := by
  induction es generalizing st with
  | nil => simp [restore_entries] at h
  | cons x es ih =>
    unfold restore_entries at h
    cases hx : restore_entry w x st.work with
    | error d =>
      rw [hx] at h
      simp only [Except.error.injEq] at h
      exact ⟨d, h.symm⟩
    | ok t =>
      rw [hx] at h
      exact ih _ h

theorem restore_steps_error (cfg : Config) (w : World) (t : String) (st : St) (e : String)
    (h : (restore_steps cfg w t st).1 = Except.error e) :
    e = "No backup found to restore from" ∨ ∃ d, e = "Restore failed during copy: " ++ d := by
  unfold restore_steps at h
  cases hl : latest_backup cfg st.backups with
  | none =>
    rw [hl] at h
    simp only [Except.error.injEq] at h
    exact Or.inl h.symm
  | some l =>
    rw [hl] at h
    exact Or.inr (restore_entries_error w _ _ e h)

/-! ## What each step returns and records -/

/-- A call of `Logger::debug` prints nothing: `DEBUG` does not pass the compile-time
filter of `log<Level>`. -/
@[simp] theorem Logger.debug_eq (lg : Logger) (msg : String) : lg.debug msg = lg := by
  simp [Logger.debug, Logger.log_static, Level.toNat]

@[simp] theorem St.debug_noop (st : St) (msg : String) : st.debug msg = st := by
  simp [St.debug]

theorem execute_eq (step : Step) (command : String) (w : World) (st : St) :
    execute step command w st =
      match w.result step with
      | none => (Except.error "popen() failed", st.record (Event.exec step command none))
      | some r => (Except.ok r,
          { st.record (Event.exec step command (some r)) with
            work := (w.effect step).getD st.work }) := by
  unfold execute
  cases h : w.result step <;> simp [St.record]

theorem verify_prerequisites_ok (cfg : Config) (w : World) (st : St) (h : Ready cfg w) :
    verify_prerequisites cfg w st = (Except.ok (), st) := by
  simp [verify_prerequisites, h.1, h.2.1]

theorem create_backup_dir_ok (cfg : Config) (w : World) (st : St) (h : Ready cfg w) :
    create_backup_dir cfg w st = (Except.ok (), st) := by
  simp [create_backup_dir, h.2.2]

theorem not_ready_fails (cfg : Config) (w : World) (st : St) (h : ¬ Ready cfg w) :
    (∃ e, verify_prerequisites cfg w st = (Except.error e, st)) ∨
      (verify_prerequisites cfg w st = (Except.ok (), st) ∧
        ∃ e, create_backup_dir cfg w st = (Except.error e, st)) := by
  unfold Ready at h
  unfold verify_prerequisites create_backup_dir
  cases h1 : w.fs_exists (port_dir cfg)
  · simp
  cases h2 : w.fs_exists cfg.patch_file
  · simp
  cases h3 : w.mkdir_error
  · simp [h1, h2, h3] at h
  · simp

theorem World.ok_false_iff (w : World) (s : Step) :
    w.ok s = false ↔ w.result s = none ∨ ∃ r, w.result s = some r ∧ r.status ≠ 0 := by
  unfold World.ok
  cases h : w.result s <;> simp

theorem World.ok_true_iff (w : World) (s : Step) :
    w.ok s = true ↔ ∃ r, w.result s = some r ∧ r.status = 0 := by
  unfold World.ok
  cases h : w.result s <;> simp

theorem backup_original_extract_failed (cfg : Config) (w : World) (st : St)
    (h : w.ok Step.extract = false) :
    (∃ e, (backup_original cfg w st).1 = Except.error e) ∧
      (backup_original cfg w st).2.trace = st.trace ++ [ev_extract cfg w] ∧
      (backup_original cfg w st).2.backups = st.backups := by
  unfold backup_original
  simp only [execute_eq]
  rcases (World.ok_false_iff w _).1 h with h | ⟨r, h, hs⟩
  · simp [h, St.record, St.info, ev_extract]
  · simp [h, hs, St.record, St.info, ev_extract]

theorem backup_original_query_failed (cfg : Config) (w : World) (st : St)
    (h1 : w.ok Step.extract = true) (h : w.ok Step.query = false) :
    (∃ e, (backup_original cfg w st).1 = Except.error e) ∧
      (backup_original cfg w st).2.trace = st.trace ++ [ev_extract cfg w, ev_query cfg w] ∧
      (backup_original cfg w st).2.backups = st.backups := by
  unfold backup_original execute_with_output
  simp only [execute_eq]
  obtain ⟨r1, h1, hs1⟩ := (World.ok_true_iff w _).1 h1
  simp only [h1, hs1]
  rcases (World.ok_false_iff w _).1 h with h | ⟨r, h, hs⟩
  · simp [h1, h, St.record, St.info, ev_extract, ev_query]
  · simp [h1, h, hs, St.record, St.info, ev_extract, ev_query]

theorem backup_original_copy (cfg : Config) (w : World) (st : St)
    (h1 : w.ok Step.extract = true) (h2 : w.ok Step.query = true) :
    (backup_original cfg w st).1 =
        (match (run_copy cfg w st.backups st.work).1 with
        | some msg => Except.error ("backup failed: " ++ msg)
        | none => Except.ok w.wrksrc) ∧
      (backup_original cfg w st).2.trace = st.trace ++
        [ev_extract cfg w, ev_query cfg w,
          ev_snapshot cfg w (run_copy cfg w st.backups st.work).1] ∧
      (backup_original cfg w st).2.backups = (run_copy cfg w st.backups st.work).2 := by
  unfold backup_original execute_with_output
  simp only [execute_eq]
  obtain ⟨r1, h1, hs1⟩ := (World.ok_true_iff w _).1 h1
  obtain ⟨r2, h2, hs2⟩ := (World.ok_true_iff w _).1 h2
  simp only [h1, hs1]
  simp only [h2, hs2, run_copy, work_at_snapshot, St.record, St.info, ev_extract, ev_query,
    ev_snapshot, source_dir, World.wrksrc]
  cases hc : (snapshot_copy w (snapshot_name cfg w.clock)
      ((w.effect Step.query).getD ((w.effect Step.extract).getD st.work)) st.backups).1 <;>
    simp [hc, h1, h2]

theorem apply_patch_dry (cfg : Config) (w : World) (wrksrc : String) (st : St)
    (hd : cfg.dry_run = true) :
    (apply_patch cfg w wrksrc st).1 = Except.ok () ∧
      (apply_patch cfg w wrksrc st).2.trace = st.trace ∧
      (apply_patch cfg w wrksrc st).2.backups = st.backups := by
  simp [apply_patch, hd, St.info]

theorem restore_from_backup_spec (cfg : Config) (w : World) (target : String) (st : St) :
    ∃ err : Option String,
      (restore_from_backup cfg w target st).1 =
        (match err with
        | some e => Except.error e
        | none => Except.ok ()) ∧
      (∀ m, err = some m → m = "No backup found to restore from" ∨
        ∃ d, m = "Restore failed during copy: " ++ d) ∧
      (restore_from_backup cfg w target st).2.trace = st.trace ++ [Event.restore target err] ∧
      (restore_from_backup cfg w target st).2.backups = st.backups := by
  unfold restore_from_backup
  cases hr : (restore_steps cfg w target st).1 with
  | error e =>
    refine ⟨some e, rfl, ?_, ?_, ?_⟩
    · intro m hm
      cases hm
      exact restore_steps_error cfg w target st e hr
    · simp [St.record, hr]
    · simp [St.record]
  | ok u =>
    refine ⟨none, rfl, ?_, ?_, ?_⟩
    · intro m hm
      cases hm
    · simp [St.record, hr]
    · simp [St.record]

theorem apply_patch_failed (cfg : Config) (w : World) (wrksrc : String) (st : St)
    (hd : cfg.dry_run = false) (hp : w.ok Step.patch = false) :
    ∃ err : Option String,
      (apply_patch cfg w wrksrc st).1 = Except.error (err.getD "patch application failed") ∧
      (∀ m, err = some m → m = "No backup found to restore from" ∨
        ∃ d, m = "Restore failed during copy: " ++ d) ∧
      (apply_patch cfg w wrksrc st).2.trace = st.trace ++
        [Event.exec Step.patch (patch_cmd cfg wrksrc) (w.result Step.patch),
          Event.restore (pathJoin (port_dir cfg) wrksrc) err] ∧
      (apply_patch cfg w wrksrc st).2.backups = st.backups := by
  unfold apply_patch
  simp only [execute_eq]
  simp only [hd, Bool.false_eq_true, if_false]
  have key : ∀ st1 : St, ∃ err : Option String,
      (match restore_from_backup cfg w (pathJoin (port_dir cfg) wrksrc)
          (st1.error "patch failed! attempting restore...") with
        | (Except.error e, st2) => ((Except.error e : Except String Unit), st2)
        | (Except.ok _, st2) => (Except.error "patch application failed", st2)).1 =
          Except.error (err.getD "patch application failed") ∧
      (∀ m, err = some m → m = "No backup found to restore from" ∨
        ∃ d, m = "Restore failed during copy: " ++ d) ∧
      (match restore_from_backup cfg w (pathJoin (port_dir cfg) wrksrc)
          (st1.error "patch failed! attempting restore...") with
        | (Except.error e, st2) => ((Except.error e : Except String Unit), st2)
        | (Except.ok _, st2) => (Except.error "patch application failed", st2)).2.trace =
          st1.trace ++ [Event.restore (pathJoin (port_dir cfg) wrksrc) err] ∧
      (match restore_from_backup cfg w (pathJoin (port_dir cfg) wrksrc)
          (st1.error "patch failed! attempting restore...") with
        | (Except.error e, st2) => ((Except.error e : Except String Unit), st2)
        | (Except.ok _, st2) => (Except.error "patch application failed", st2)).2.backups =
          st1.backups := by
    intro st1
    obtain ⟨err, h1, h2, h3, h4⟩ := restore_from_backup_spec cfg w
      (pathJoin (port_dir cfg) wrksrc) (st1.error "patch failed! attempting restore...")
    rcases hx : restore_from_backup cfg w (pathJoin (port_dir cfg) wrksrc)
      (st1.error "patch failed! attempting restore...") with ⟨r, s⟩
    rw [hx] at h1 h3 h4
    refine ⟨err, ?_, h2, ?_, ?_⟩
    · cases err with
      | some e => simp only at h1; subst h1; rfl
      | none => simp only at h1; subst h1; rfl
    · cases r <;> simpa [St.error] using h3
    · cases r <;> simpa [St.error] using h4
  rcases (World.ok_false_iff w _).1 hp with h | ⟨r, h, hs⟩
  · simp only [h]
    obtain ⟨err, k1, k2, k3, k4⟩ := key ((st.info ("applying patch " ++ cfg.patch_file)).record
      (Event.exec Step.patch (patch_cmd cfg wrksrc) none))
    exact ⟨err, k1, k2, by simpa [St.record, St.info] using k3, by simpa [St.record, St.info] using k4⟩
  · simp only [h, hs, ne_eq, not_false_eq_true, if_true]
    obtain ⟨err, k1, k2, k3, k4⟩ := key { (st.info ("applying patch " ++ cfg.patch_file)).record
      (Event.exec Step.patch (patch_cmd cfg wrksrc) (some r)) with
        work := (w.effect Step.patch).getD (st.info ("applying patch " ++ cfg.patch_file)).work }
    exact ⟨err, k1, k2, by simpa [St.record, St.info] using k3, by simpa [St.record, St.info] using k4⟩

theorem apply_patch_ok (cfg : Config) (w : World) (wrksrc : String) (st : St)
    (hd : cfg.dry_run = false) (hp : w.ok Step.patch = true) :
    (apply_patch cfg w wrksrc st).1 = Except.ok () ∧
      (apply_patch cfg w wrksrc st).2.trace = st.trace ++
        [Event.exec Step.patch (patch_cmd cfg wrksrc) (w.result Step.patch)] ∧
      (apply_patch cfg w wrksrc st).2.backups = st.backups := by
  unfold apply_patch
  simp only [execute_eq]
  obtain ⟨r, h, hs⟩ := (World.ok_true_iff w _).1 hp
  simp [hd, h, hs, St.record, St.info]

theorem rebuild_port_spec (cfg : Config) (w : World) (st : St) :
    (rebuild_port cfg w st).1 =
        (if w.ok Step.rebuild = true then Except.ok ()
          else Except.error "make clean install failed") ∧
      (rebuild_port cfg w st).2.trace = st.trace ++ [ev_rebuild cfg w] ∧
      (rebuild_port cfg w st).2.backups = st.backups := by
  unfold rebuild_port
  simp only [execute_eq]
  unfold World.ok
  cases h : w.result Step.rebuild with
  | none => simp [St.record, St.info, ev_rebuild, h]
  | some r =>
    by_cases hs : r.status = 0 <;> simp [St.record, St.info, ev_rebuild, h, hs]

/-- Every run is one of eight scenarios; each fixes the result, the recording and
the entries of the backup root. -/
theorem run_cases (cfg : Config) (w : World) (lg : Logger) (backups : List Entry) (work : Tree) :
    (¬ Ready cfg w ∧
      (∃ e, (run cfg w (St.init lg backups work)).1 = Except.error e) ∧
      (run cfg w (St.init lg backups work)).2.trace = [] ∧
      (run cfg w (St.init lg backups work)).2.backups = backups) ∨
    (Ready cfg w ∧ w.ok Step.extract = false ∧
      (∃ e, (run cfg w (St.init lg backups work)).1 = Except.error e) ∧
      (run cfg w (St.init lg backups work)).2.trace = [ev_extract cfg w] ∧
      (run cfg w (St.init lg backups work)).2.backups = backups) ∨
    (Ready cfg w ∧ w.ok Step.extract = true ∧ w.ok Step.query = false ∧
      (∃ e, (run cfg w (St.init lg backups work)).1 = Except.error e) ∧
      (run cfg w (St.init lg backups work)).2.trace = [ev_extract cfg w, ev_query cfg w] ∧
      (run cfg w (St.init lg backups work)).2.backups = backups) ∨
    (Ready cfg w ∧ w.ok Step.extract = true ∧ w.ok Step.query = true ∧
      (∃ msg, (run_copy cfg w backups work).1 = some msg ∧
        (run cfg w (St.init lg backups work)).1 =
          Except.error ("Operation failed: " ++ ("backup failed: " ++ msg)) ∧
        (run cfg w (St.init lg backups work)).2.trace =
          [ev_extract cfg w, ev_query cfg w, ev_snapshot cfg w (some msg)]) ∧
      (run cfg w (St.init lg backups work)).2.backups = (run_copy cfg w backups work).2) ∨
    (Ready cfg w ∧ w.ok Step.extract = true ∧ w.ok Step.query = true ∧
      (run_copy cfg w backups work).1 = none ∧ cfg.dry_run = true ∧
      (run cfg w (St.init lg backups work)).1 = Except.ok () ∧
      (run cfg w (St.init lg backups work)).2.trace =
        [ev_extract cfg w, ev_query cfg w, ev_snapshot cfg w none] ∧
      (run cfg w (St.init lg backups work)).2.backups = (run_copy cfg w backups work).2) ∨
    (Ready cfg w ∧ w.ok Step.extract = true ∧ w.ok Step.query = true ∧
      (run_copy cfg w backups work).1 = none ∧ cfg.dry_run = false ∧ w.ok Step.patch = false ∧
      (∃ err : Option String,
        (run cfg w (St.init lg backups work)).1 =
          Except.error ("Operation failed: " ++ err.getD "patch application failed") ∧
        (∀ m, err = some m → m = "No backup found to restore from" ∨
          ∃ d, m = "Restore failed during copy: " ++ d) ∧
        (run cfg w (St.init lg backups work)).2.trace =
          [ev_extract cfg w, ev_query cfg w, ev_snapshot cfg w none, ev_patch cfg w,
            Event.restore (source_dir cfg w) err]) ∧
      (run cfg w (St.init lg backups work)).2.backups = (run_copy cfg w backups work).2) ∨
    (Ready cfg w ∧ w.ok Step.extract = true ∧ w.ok Step.query = true ∧
      (run_copy cfg w backups work).1 = none ∧ cfg.dry_run = false ∧ w.ok Step.patch = true ∧
      w.ok Step.rebuild = false ∧
      (run cfg w (St.init lg backups work)).1 =
        Except.error "Operation failed: make clean install failed" ∧
      (run cfg w (St.init lg backups work)).2.trace =
        [ev_extract cfg w, ev_query cfg w, ev_snapshot cfg w none, ev_patch cfg w,
          ev_rebuild cfg w] ∧
      (run cfg w (St.init lg backups work)).2.backups = (run_copy cfg w backups work).2) ∨
    (Ready cfg w ∧ w.ok Step.extract = true ∧ w.ok Step.query = true ∧
      (run_copy cfg w backups work).1 = none ∧ cfg.dry_run = false ∧ w.ok Step.patch = true ∧
      w.ok Step.rebuild = true ∧
      (run cfg w (St.init lg backups work)).1 = Except.ok () ∧
      (run cfg w (St.init lg backups work)).2.trace =
        [ev_extract cfg w, ev_query cfg w, ev_snapshot cfg w none, ev_patch cfg w,
          ev_rebuild cfg w] ∧
      (run cfg w (St.init lg backups work)).2.backups = (run_copy cfg w backups work).2) := by
  by_cases hR : Ready cfg w
  swap
  · left
    refine ⟨hR, ?_⟩
    unfold run run_steps
    rcases not_ready_fails cfg w
      ((St.init lg backups work).info ("starting  port patching for " ++ cfg.port_name)) hR with
      ⟨e, he⟩ | ⟨hv, e, he⟩
    · simp only [he]
      simp [St.init, St.info]
    · simp only [hv, he]
      simp [St.init, St.info]
  right
  have hrun : run cfg w (St.init lg backups work) =
      (match (match backup_original cfg w
          ((St.init lg backups work).info ("starting  port patching for " ++ cfg.port_name)) with
        | (Except.error e, st3) => ((Except.error e : Except String Unit), st3)
        | (Except.ok wrksrc, st3) =>
          match apply_patch cfg w wrksrc st3 with
          | (Except.error e, st4) => (Except.error e, st4)
          | (Except.ok _, st4) =>
            if !cfg.dry_run then
              match rebuild_port cfg w st4 with
              | (Except.error e, st5) => (Except.error e, st5)
              | (Except.ok _, st5) => (Except.ok (), st5.info ("successfully patched " ++ cfg.port_name))
            else (Except.ok (), st4.info ("successfully patched " ++ cfg.port_name))) with
      | (Except.error e, st1) => (Except.error ("Operation failed: " ++ e), st1)
      | (Except.ok _, st1) => (Except.ok (), st1)) := by
    unfold run run_steps
    simp only [verify_prerequisites_ok cfg w _ hR, create_backup_dir_ok cfg w _ hR]
  rw [hrun]
  generalize hst : (St.init lg backups work).info ("starting  port patching for " ++ cfg.port_name)
    = st0
  have ht0 : st0.trace = [] := by subst hst; rfl
  have hb0 : st0.backups = backups := by subst hst; rfl
  have hw0 : st0.work = work := by subst hst; rfl
  cases h1 : w.ok Step.extract
  · left
    obtain ⟨⟨e, he⟩, ht, hb⟩ := backup_original_extract_failed cfg w st0 h1
    rcases hx : backup_original cfg w st0 with ⟨r, s⟩
    rw [hx] at he ht hb
    simp only at he ht hb
    subst he
    simp [ht, hb, ht0, hb0, hR]
  right
  cases h2 : w.ok Step.query
  · left
    obtain ⟨⟨e, he⟩, ht, hb⟩ := backup_original_query_failed cfg w st0 h1 h2
    rcases hx : backup_original cfg w st0 with ⟨r, s⟩
    rw [hx] at he ht hb
    simp only at he ht hb
    subst he
    simp [ht, hb, ht0, hb0, hR]
  right
  obtain ⟨he, ht, hb⟩ := backup_original_copy cfg w st0 h1 h2
  rw [hb0, hw0] at he ht hb
  rcases hx : backup_original cfg w st0 with ⟨r, s⟩
  rw [hx] at he ht hb
  simp only at he ht hb
  cases hc : (run_copy cfg w backups work).1 with
  | some msg =>
    left
    rw [hc] at he ht
    simp only at he
    subst he
    simp [ht, hb, ht0, hR]
  | none =>
    right
    rw [hc] at he ht
    simp only at he
    subst he
    simp only [hR, true_and]
    cases hd : cfg.dry_run
    swap
    · left
      obtain ⟨pe, pt, pb⟩ := apply_patch_dry cfg w w.wrksrc s hd
      rcases hy : apply_patch cfg w w.wrksrc s with ⟨r2, s2⟩
      rw [hy] at pe pt pb
      simp only at pe pt pb
      subst pe
      simp [pt, pb, ht, hb, ht0, St.info]
    right
    cases hp : w.ok Step.patch
    · left
      obtain ⟨err, pe, pm, pt, pb⟩ := apply_patch_failed cfg w w.wrksrc s hd hp
      rcases hy : apply_patch cfg w w.wrksrc s with ⟨r2, s2⟩
      rw [hy] at pe pt pb
      simp only at pe pt pb
      subst pe
      refine ⟨rfl, rfl, ⟨err, ?_, pm, ?_⟩, ?_⟩
      · simp
      · simp [pt, ht, ht0, ev_patch, patch_cmd, source_dir]
      · simp [pb, hb]
    right
    obtain ⟨pe, pt, pb⟩ := apply_patch_ok cfg w w.wrksrc s hd hp
    rcases hy : apply_patch cfg w w.wrksrc s with ⟨r2, s2⟩
    rw [hy] at pe pt pb
    simp only at pe pt pb
    subst pe
    obtain ⟨re, rt, rb⟩ := rebuild_port_spec cfg w s2
    rcases hz : rebuild_port cfg w s2 with ⟨r3, s3⟩
    rw [hz] at re rt rb
    simp only at re rt rb
    cases hq : w.ok Step.rebuild
    · left
      rw [hq] at re
      simp only [Bool.false_eq_true, if_false] at re
      subst re
      simp [hz, rt, rb, pt, pb, ht, hb, ht0, ev_patch, patch_cmd, source_dir]
    · right
      rw [hq] at re
      simp only [if_true] at re
      subst re
      simp [hz, rt, rb, pt, pb, ht, hb, ht0, ev_patch, patch_cmd, source_dir, St.info]

/-- The snapshot copy touches no entry of the backup root but the snapshot. -/
theorem snapshot_copy_others (w : World) (name : String) (src : Tree) (bs : List Entry) :
    (snapshot_copy w name src bs).2.filter (fun x => decide (x.name ≠ name)) =
      bs.filter (fun x => decide (x.name ≠ name)) := by
  unfold snapshot_copy
  cases w.copy_fault 0 with
  | some msg => rfl
  | none =>
    cases bs.find? (fun e => decide (e.name = name)) with
    | none => simp
    | some old =>
      simp only
      induction bs with
      | nil => rfl
      | cons b bs ih =>
        by_cases hb : b.name = name
        · simpa [List.filter_cons, hb] using ih
        · simpa [List.filter_cons, hb] using ih

/-- The two errors of a failed restore read differently from the error of a failed
patch. -/
theorem restore_error_ne_patch_failure (m : String)
    (h : m = "No backup found to restore from" ∨ ∃ d, m = "Restore failed during copy: " ++ d) :
    "Operation failed: " ++ m ≠ patch_failure := by
  intro heq
  have hd := congrArg String.data heq
  rcases h with rfl | ⟨d, rfl⟩
  · revert hd
    decide
  · simp [patch_failure, String.data_append] at hd

/-! ## The latest backup -/

theorem mem_orderedInsert_mtime (a : Entry) (l : List Entry) (x : Entry)
    (h : x ∈ l.orderedInsert (fun a b => b.mtime ≤ a.mtime) a) : x = a ∨ x ∈ l := by
  induction l with
  | nil => simpa using h
  | cons b l ih =>
    rw [List.orderedInsert] at h
    split at h
    · simpa using h
    · rcases List.mem_cons.1 h with h | h
      · exact Or.inr (h ▸ List.mem_cons_self _ _)
      · rcases ih h with h | h
        · exact Or.inl h
        · exact Or.inr (List.mem_cons_of_mem _ h)

theorem frontNewest_orderedInsert (a : Entry) (l : List Entry) (h : FrontNewest l) :
    FrontNewest (l.orderedInsert (fun a b => b.mtime ≤ a.mtime) a) := by
  cases l with
  | nil =>
    intro f hf x hx
    simp at hf hx
    subst hf
    subst hx
    exact le_refl _
  | cons b l =>
    intro f hf x hx
    rw [List.orderedInsert] at hf hx
    have hb : ∀ y ∈ b :: l, y.mtime ≤ b.mtime := h b rfl
    by_cases hlt : b.mtime ≤ a.mtime
    · rw [if_pos hlt] at hf hx
      simp only [List.head?_cons, Option.some.injEq] at hf
      subst hf
      rcases List.mem_cons.1 hx with hx | hx
      · rw [hx]
      · exact le_trans (hb x hx) hlt
    · rw [if_neg hlt] at hf hx
      simp only [List.head?_cons, Option.some.injEq] at hf
      subst hf
      rcases List.mem_cons.1 hx with hx | hx
      · rw [hx]
      · rcases mem_orderedInsert_mtime a l x hx with hx | hx
        · rw [hx]
          exact le_of_lt (not_le.1 hlt)
        · exact hb x (List.mem_cons_of_mem _ hx)

theorem frontNewest_sort (l : List Entry) : FrontNewest (sort_by_mtime l) := by
  unfold sort_by_mtime
  induction l with
  | nil =>
    intro f hf
    simp at hf
  | cons a l ih =>
    rw [List.insertionSort]
    exact frontNewest_orderedInsert a _ ih

theorem mem_sort_iff (l : List Entry) (x : Entry) : x ∈ sort_by_mtime l ↔ x ∈ l :=
  (List.perm_insertionSort _ l).mem_iff

/-- The front of the sorted matches exists when there is a match; it is a match and
no match is newer. -/
theorem latest_backup_spec (cfg : Config) (backups : List Entry)
    (h : matching_backups cfg backups ≠ []) :
    ∃ e, latest_backup cfg backups = some e ∧ e ∈ matching_backups cfg backups ∧
      ∀ x ∈ matching_backups cfg backups, x.mtime ≤ e.mtime := by
  unfold latest_backup
  cases hs : sort_by_mtime (matching_backups cfg backups) with
  | nil =>
    exfalso
    obtain ⟨x, hx⟩ := List.exists_mem_of_ne_nil _ h
    have := (mem_sort_iff _ x).2 hx
    rw [hs] at this
    cases this
  | cons e rest =>
    refine ⟨e, rfl, ?_, ?_⟩
    · apply (mem_sort_iff _ e).1
      rw [hs]
      exact List.mem_cons_self _ _
    · intro x hx
      have hf := frontNewest_sort (matching_backups cfg backups)
      rw [hs] at hf
      apply hf e rfl x
      rw [← hs]
      exact (mem_sort_iff _ x).2 hx

/-- The path of an entry ends in its name. -/
theorem entry_path_ends_in_name (cfg : Config) (name : String) :
    name.data <:+ (entry_path cfg name).data := by
  unfold entry_path pathJoin
  split
  · exact List.suffix_refl _
  · split
    · exact List.suffix_refl _
    · rw [String.data_append]
      exact List.suffix_append _ _
    · rw [String.data_append]
      exact List.suffix_append _ _

/-- An entry whose name begins with `{port_name}-original-` passes the filter of
`restore_from_backup`. -/
theorem matching_of_startsWith (cfg : Config) (backups : List Entry) (x : Entry)
    (hx : x ∈ backups) (hp : startsWith x.name (cfg.port_name ++ "-original-") = true) :
    x ∈ matching_backups cfg backups := by
  unfold matching_backups
  rw [List.mem_filter]
  refine ⟨hx, ?_⟩
  unfold contains
  unfold startsWith at hp
  simp only [decide_eq_true_eq] at hp ⊢
  exact List.IsInfix.trans hp.isInfix (entry_path_ends_in_name cfg x.name).isInfix

/-! ## Trees -/

theorem Tree.get?_append (t s : Tree) (p : RelPath) :
    Tree.get? (t ++ s) p = (Tree.get? t p).or (Tree.get? s p) := by
  unfold Tree.get?
  rw [List.find?_append]
  cases List.find? (fun e => decide (e.1 = p)) t <;> simp

theorem Tree.get?_append_of_some (t s : Tree) (p : RelPath) (o : Obj)
    (h : Tree.get? t p = some o) : Tree.get? (t ++ s) p = some o := by
  rw [Tree.get?_append, h]
  rfl

theorem Tree.mem_of_get? (t : Tree) (p : RelPath) (o : Obj) (h : Tree.get? t p = some o) :
    (p, o) ∈ t := by
  unfold Tree.get? at h
  cases hf : List.find? (fun e => decide (e.1 = p)) t with
  | none => rw [hf] at h; cases h
  | some e =>
    rw [hf] at h
    simp only [Option.map_some', Option.some.injEq] at h
    have h1 := List.find?_some hf
    have h2 := List.mem_of_find?_eq_some hf
    simp only [decide_eq_true_eq] at h1
    rcases e with ⟨q, o'⟩
    simp only at h h1
    subst h h1
    exact h2

theorem Tree.get?_of_mem (t : Tree) (p : RelPath) (o : Obj) (h : (p, o) ∈ t) :
    ∃ o', Tree.get? t p = some o' := by
  unfold Tree.get?
  cases hf : List.find? (fun e => decide (e.1 = p)) t with
  | none =>
    have := List.find?_eq_none.1 hf (p, o) h
    simp at this
  | some e => exact ⟨e.2, rfl⟩

theorem ancDirs_of_parent (t : Tree) (p : RelPath) (hc : Closed t)
    (hp : t.parentIsDir p = true) : AncDirs t p := by
  intro k hk0 hkl
  unfold Tree.parentIsDir at hp
  simp only [Bool.or_eq_true, decide_eq_true_eq] at hp
  rcases hp with hp | hp
  · have hlen : p.dropLast.length = 0 := by rw [hp]; rfl
    rw [List.length_dropLast] at hlen
    omega
  · by_cases hk : k = p.length - 1
    · rw [hk, ← List.dropLast_eq_take]
      exact hp
    · have hmem := Tree.mem_of_get? t _ _ hp
      have hanc := (hc _ _ hmem).2 k hk0 (by rw [List.length_dropLast]; omega)
      rw [List.dropLast_eq_take, List.take_take] at hanc
      rw [← hanc]
      congr 2
      omega

theorem closed_append (t : Tree) (p : RelPath) (o : Obj) (hc : Closed t) (hne : p ≠ [])
    (ha : AncDirs t p) : Closed (t ++ [(p, o)]) := by
  intro q o' hq
  rcases List.mem_append.1 hq with hq | hq
  · refine ⟨(hc q o' hq).1, ?_⟩
    intro k hk0 hkl
    exact Tree.get?_append_of_some _ _ _ _ ((hc q o' hq).2 k hk0 hkl)
  · simp only [List.mem_singleton, Prod.mk.injEq] at hq
    obtain ⟨rfl, rfl⟩ := hq
    refine ⟨hne, ?_⟩
    intro k hk0 hkl
    exact Tree.get?_append_of_some _ _ _ _ (ha k hk0 hkl)

theorem create_directories_from_fresh (todo : RelPath) :
    ∀ (done : RelPath) (t : Tree), todo ≠ [] →
      (∀ k, done.length < k → k < (done ++ todo).length →
        t.get? ((done ++ todo).take k) = some Obj.dir) →
      t.get? (done ++ todo) = none →
      create_directories_from done todo t = Except.ok (t ++ [(done ++ todo, Obj.dir)]) := by
  induction todo with
  | nil => intro done t h; exact absurd rfl h
  | cons c rest ih =>
    intro done t _ hanc hnone
    cases rest with
    | nil =>
      unfold create_directories_from mkdir_if_missing
      rw [hnone]
      simp only
      unfold create_directories_from
      rfl
    | cons c2 rest =>
      have hq : t.get? (done ++ [c]) = some Obj.dir := by
        have := hanc (done.length + 1) (by omega) (by simp)
        rw [List.take_append] at this
        simpa using this
      unfold create_directories_from mkdir_if_missing
      rw [hq]
      simp only
      have := ih (done ++ [c]) t (by simp) (by
        intro k hk hkl
        have := hanc k (by simp at hk; omega) (by simpa using hkl)
        simpa using this) (by simpa using hnone)
      simpa using this

theorem create_directories_fresh (t : Tree) (p : RelPath) (hne : p ≠ []) (ha : AncDirs t p)
    (hnone : t.get? p = none) :
    create_directories p t = Except.ok (t ++ [(p, Obj.dir)]) := by
  unfold create_directories
  have := create_directories_from_fresh p [] t hne (by
    intro k hk hkl
    exact ha k (by simpa using hk) (by simpa using hkl)) (by simpa using hnone)
  simpa using this

theorem restore_entry_fresh (w : World) (t : Tree) (p : RelPath) (o : Obj) (hc : Closed t)
    (hne : p ≠ []) (hnone : t.get? p = none) (hp : t.parentIsDir p = true) (r : Tree)
    (h : restore_entry w (p, o) t = Except.ok r) : r = t ++ [(p, o)] := by
  unfold restore_entry at h
  cases hf : w.restore_fault p with
  | some msg => simp [hf] at h
  | none =>
    simp only [hf] at h
    cases o with
    | dir =>
      simp only at h
      rw [create_directories_fresh t p hne (ancDirs_of_parent t p hc hp) hnone] at h
      cases h
      rfl
    | file bytes =>
      simp only at h
      unfold copy_file_overwrite at h
      simp only [hp, Bool.not_true, Bool.false_eq_true, if_false, hnone] at h
      cases h
      rfl

/-- Restoring a well-formed listing on top of its already restored part adds
exactly the rest. -/
theorem restore_entries_wf (w : World) (rest : Tree) :
    ∀ (seen : Tree) (st : St), Closed seen → Tree.wfFrom seen rest = true → st.work = seen →
      (restore_entries w rest st).1 = Except.ok () →
      (restore_entries w rest st).2.work = seen ++ rest := by
  induction rest with
  | nil =>
    intro seen st _ _ hw _
    simp [restore_entries, hw]
  | cons e rest ih =>
    intro seen st hc hwf hw hok
    rcases e with ⟨p, o⟩
    unfold Tree.wfFrom at hwf
    simp only [Bool.and_eq_true, decide_eq_true_eq] at hwf
    obtain ⟨⟨⟨hne, hnone⟩, hp⟩, hrest⟩ := hwf
    unfold restore_entries at hok ⊢
    cases hr : restore_entry w (p, o) st.work with
    | error msg => simp [hr] at hok
    | ok r =>
      rw [hr] at hok
      simp only at hok ⊢
      have hr' : r = seen ++ [(p, o)] := by
        rw [hw] at hr
        exact restore_entry_fresh w seen p o hc hne hnone hp r hr
      have := ih (seen ++ [(p, o)]) { st with work := r }
        (closed_append seen p o hc hne (ancDirs_of_parent seen p hc hp)) hrest hr' hok
      rw [this]
      simp

theorem closed_nil : Closed [] := by
  intro q o h
  cases h

theorem closed_of_wfFrom (rest : Tree) :
    ∀ seen : Tree, Closed seen → Tree.wfFrom seen rest = true → Closed (seen ++ rest) := by
  induction rest with
  | nil =>
    intro seen hc _
    simpa using hc
  | cons e rest ih =>
    intro seen hc hwf
    rcases e with ⟨p, o⟩
    unfold Tree.wfFrom at hwf
    simp only [Bool.and_eq_true, decide_eq_true_eq] at hwf
    obtain ⟨⟨⟨hne, -⟩, hp⟩, hrest⟩ := hwf
    have := ih (seen ++ [(p, o)])
      (closed_append seen p o hc hne (ancDirs_of_parent seen p hc hp)) hrest
    simpa using this

theorem closed_of_wf (t : Tree) (h : t.WF) : Closed t := by
  have := closed_of_wfFrom t [] closed_nil h
  simpa using this

theorem mem_topNames (t : Tree) (n : String) (o : Obj) (h : ([n], o) ∈ t) : n ∈ t.topNames := by
  unfold Tree.topNames
  rw [List.mem_filterMap]
  exact ⟨([n], o), h, rfl⟩

/-- In a closed tree every entry lies below a direct child. -/
theorem head_mem_topNames (t : Tree) (hc : Closed t) (q : RelPath) (o : Obj) (h : (q, o) ∈ t) :
    ∃ n, q.head? = some n ∧ n ∈ t.topNames := by
  obtain ⟨hne, ha⟩ := hc q o h
  cases q with
  | nil => exact absurd rfl hne
  | cons n q' =>
    refine ⟨n, rfl, ?_⟩
    cases q' with
    | nil => exact mem_topNames t n o h
    | cons m q'' =>
      have h1 := ha 1 (by omega) (by simp)
      simp only [List.take_succ_cons, List.take_zero] at h1
      exact mem_topNames t n Obj.dir (Tree.mem_of_get? t _ _ h1)

theorem clear_target_work (w : World) (target : String) (ns : List String) :
    ∀ st : St, (∀ n ∈ ns, w.remove_fault n = none) →
      (clear_target w target ns st).work =
        st.work.filter (fun e => ns.all (fun n => decide (e.1.head? ≠ some n))) := by
  induction ns with
  | nil =>
    intro st _
    simp [clear_target]
  | cons n ns ih =>
    intro st h
    unfold clear_target
    rw [h n (List.mem_cons_self _ _)]
    simp only
    rw [ih _ (fun m hm => h m (List.mem_cons_of_mem _ hm))]
    simp only [Tree.removeAll, List.filter_filter, List.all_cons]
    congr 1
    funext e
    rw [Bool.and_comm]

/-- When every removal succeeds, the first loop of the restore empties a closed
target. -/
theorem clear_target_all (w : World) (target : String) (st : St) (hc : Closed st.work)
    (h : ∀ n ∈ st.work.topNames, w.remove_fault n = none) :
    (clear_target w target st.work.topNames st).work = [] := by
  rw [clear_target_work w target _ st h]
  rw [List.filter_eq_nil_iff]
  intro e he
  obtain ⟨n, hn, hmem⟩ := head_mem_topNames st.work hc e.1 e.2 he
  simp only [List.all_eq_true, decide_eq_true_eq, not_forall]
  exact ⟨n, hmem, fun hne => hne hn⟩

/-! ## Paths and snapshot names -/

theorem pathJoin_eq (p q : String) :
    pathJoin p q =
      if q.data.head? = some '/' then q
      else if p.data.getLast? = none then q
      else if p.data.getLast? = some '/' then p ++ q
      else p ++ "/" ++ q := by
  unfold pathJoin
  split
  · rename_i tail h
    simp [h]
  · rename_i hq
    have hhead : q.data.head? ≠ some '/' := by
      intro hh
      cases hd : q.data with
      | nil => simp [hd] at hh
      | cons c cs =>
        simp only [hd, List.head?_cons, Option.some.injEq] at hh
        subst hh
        exact hq _ hd
    rw [if_neg hhead]
    split
    · rename_i h
      simp [h]
    · rename_i h
      simp [h]
    · rename_i c hc h
      have hne : p.data.getLast? ≠ none := by
        rw [h]
        simp
      have hne2 : p.data.getLast? ≠ some '/' := by
        intro h2
        rw [h] at h2
        exact hc (Option.some.inj h2)
      rw [if_neg hne, if_neg hne2]

theorem String.append_left_cancel (a b c : String) (h : a ++ b = a ++ c) : b = c := by
  have hd := congrArg String.data h
  simp only [String.data_append] at hd
  exact String.ext (List.append_cancel_left hd)

/-- For names with the same first character, different names give different paths
below the same directory. -/
theorem pathJoin_injective (p q1 q2 : String) (hh : q1.data.head? = q2.data.head?)
    (h : pathJoin p q1 = pathJoin p q2) : q1 = q2 := by
  rw [pathJoin_eq, pathJoin_eq, ← hh] at h
  by_cases h1 : q1.data.head? = some '/'
  · simpa [h1] using h
  · rw [if_neg h1, if_neg h1] at h
    by_cases h2 : p.data.getLast? = none
    · simpa [h2] using h
    · rw [if_neg h2, if_neg h2] at h
      by_cases h3 : p.data.getLast? = some '/'
      · rw [if_pos h3, if_pos h3] at h
        exact String.append_left_cancel _ _ _ h
      · rw [if_neg h3, if_neg h3] at h
        exact String.append_left_cancel _ _ _ h

theorem snapshot_name_head (cfg : Config) (c1 c2 : LocalTime) :
    (snapshot_name cfg c1).data.head? = (snapshot_name cfg c2).data.head? := by
  unfold snapshot_name
  simp only [String.data_append]
  cases cfg.port_name.data <;> rfl

/-- Snapshots with different time stamps have different paths. -/
theorem entry_path_snapshot_ne (cfg : Config) (c1 c2 : LocalTime)
    (h : get_timestamp c1 ≠ get_timestamp c2) :
    entry_path cfg (snapshot_name cfg c1) ≠ entry_path cfg (snapshot_name cfg c2) := by
  intro heq
  have := pathJoin_injective _ _ _ (snapshot_name_head cfg c1 c2) heq
  unfold snapshot_name at this
  exact h (String.append_left_cancel _ _ _ this)

theorem snapshot_name_ne (cfg : Config) (c1 c2 : LocalTime)
    (h : get_timestamp c1 ≠ get_timestamp c2) : snapshot_name cfg c1 ≠ snapshot_name cfg c2 := by
  intro heq
  exact entry_path_snapshot_ne cfg c1 c2 h (by rw [heq])

theorem snapshot_name_startsWith (cfg : Config) (c : LocalTime) :
    startsWith (snapshot_name cfg c) (cfg.port_name ++ "-original-") = true := by
  unfold startsWith snapshot_name
  simp only [decide_eq_true_eq, String.data_append]
  exact List.prefix_append _ _

/-! ## Snapshots -/

theorem snapshot_copy_started (w : World) (name : String) (src : Tree) (bs : List Entry)
    (h : (snapshot_copy w name src bs).1 = none) : w.copy_fault 0 = none := by
  unfold snapshot_copy at h
  cases hf : w.copy_fault 0 with
  | none => rfl
  | some msg => simp [hf] at h

/-- After a snapshot copy that got started, the snapshot is listed. -/
theorem snapshot_copy_listed (w : World) (name : String) (src : Tree) (bs : List Entry)
    (h : (snapshot_copy w name src bs).1 = none) :
    ∃ e ∈ (snapshot_copy w name src bs).2, e.name = name := by
  have hf := snapshot_copy_started w name src bs h
  unfold snapshot_copy
  rw [hf]
  simp only
  cases hfind : bs.find? (fun e => decide (e.name = name)) with
  | none =>
    exact ⟨_, List.mem_append_right _ (List.mem_singleton_self _), rfl⟩
  | some old =>
    have hold := List.mem_of_find?_eq_some hfind
    have hname := List.find?_some hfind
    simp only [decide_eq_true_eq] at hname
    refine ⟨_, List.mem_map.2 ⟨old, hold, rfl⟩, ?_⟩
    simp [hname]

/-- A snapshot under a new name is appended to the listing, with the file clock as
its last-modification time. -/
theorem snapshot_copy_fresh (w : World) (name : String) (src : Tree) (bs : List Entry)
    (h : (snapshot_copy w name src bs).1 = none) (hfresh : ∀ x ∈ bs, x.name ≠ name) :
    ∃ t, (snapshot_copy w name src bs).2 =
      bs ++ [{ name := name, mtime := w.file_time, tree := t }] := by
  have hf := snapshot_copy_started w name src bs h
  unfold snapshot_copy
  rw [hf]
  simp only
  have hfind : bs.find? (fun e => decide (e.name = name)) = none := by
    rw [List.find?_eq_none]
    intro x hx
    simpa using hfresh x hx
  rw [hfind]
  exact ⟨_, rfl⟩

theorem snapshot_copy_mem_of_ne (w : World) (name : String) (src : Tree) (bs : List Entry)
    (x : Entry) (hx : x.name ≠ name) :
    x ∈ (snapshot_copy w name src bs).2 ↔ x ∈ bs := by
  have h := snapshot_copy_others w name src bs
  have h1 : x ∈ (snapshot_copy w name src bs).2.filter (fun x => decide (x.name ≠ name)) ↔
      x ∈ bs.filter (fun x => decide (x.name ≠ name)) := by rw [h]
  simpa [List.mem_filter, hx] using h1

/-- What a successful `backup_original` did to the backup root. -/
theorem backup_original_ok (cfg : Config) (w : World) (st : St) (r : String)
    (h : (backup_original cfg w st).1 = Except.ok r) :
    (run_copy cfg w st.backups st.work).1 = none ∧
      (backup_original cfg w st).2.backups = (run_copy cfg w st.backups st.work).2 := by
  cases h1 : w.ok Step.extract with
  | false =>
    obtain ⟨⟨e, he⟩, -, -⟩ := backup_original_extract_failed cfg w st h1
    rw [he] at h
    cases h
  | true =>
    cases h2 : w.ok Step.query with
    | false =>
      obtain ⟨⟨e, he⟩, -, -⟩ := backup_original_query_failed cfg w st h1 h2
      rw [he] at h
      cases h
    | true =>
      obtain ⟨he, -, hb⟩ := backup_original_copy cfg w st h1 h2
      refine ⟨?_, hb⟩
      cases hc : (run_copy cfg w st.backups st.work).1 with
      | none => rfl
      | some msg =>
        rw [hc] at he
        rw [he] at h
        cases h

/-! ## Lists -/

/-- What comes before an element of a list lies in the list without its last
element. -/
theorem mem_dropLast_of_split {α : Type} (l pre post : List α) (e x : α)
    (h : l = pre ++ e :: post) (hx : x ∈ pre) : x ∈ l.dropLast := by
  subst h
  induction pre with
  | nil => cases hx
  | cons a pre ih =>
    cases pre with
    | nil =>
      simp only [List.mem_singleton] at hx
      subst hx
      simp [List.dropLast]
    | cons b pre =>
      rcases List.mem_cons.1 hx with hx | hx
      · subst hx
        simp [List.dropLast]
      · have := ih hx
        simp only [List.cons_append, List.dropLast_cons₂] at this ⊢
        exact List.mem_cons_of_mem _ this

theorem ev_succeeded (w : World) (s : Step) (c : String) (h : w.ok s = true) :
    Event.succeeded (Event.exec s c (w.result s)) = true := by
  obtain ⟨r, hr, hs⟩ := (World.ok_true_iff w s).1 h
  rw [hr]
  simp [Event.succeeded, hs]

/-! ## Trailing line terminators -/

theorem strip_rev_spec (l : List Char) :
    (∃ t, l = t ++ strip_rev l ∧ ∀ c ∈ t, is_eol c) ∧
      ∀ c, (strip_rev l).head? = some c → ¬ is_eol c := by
  induction l with
  | nil =>
    refine ⟨⟨[], rfl, by simp⟩, ?_⟩
    intro c h
    simp [strip_rev] at h
  | cons a l ih =>
    unfold strip_rev
    by_cases ha : a = '\n' ∨ a = '\r'
    · rw [if_pos ha]
      obtain ⟨⟨t, ht, hall⟩, hhead⟩ := ih
      refine ⟨⟨a :: t, by simp [← ht], ?_⟩, hhead⟩
      intro c hc
      rcases List.mem_cons.1 hc with hc | hc
      · rw [hc]; exact ha
      · exact hall c hc
    · rw [if_neg ha]
      refine ⟨⟨[], rfl, by simp⟩, ?_⟩
      intro c hc
      simp only [List.head?_cons, Option.some.injEq] at hc
      rw [← hc]
      exact ha

theorem strip_rev_unique (t r : List Char) (ht : ∀ c ∈ t, is_eol c)
    (hr : ∀ c, r.head? = some c → ¬ is_eol c) : strip_rev (t ++ r) = r := by
  induction t with
  | nil =>
    cases r with
    | nil => rfl
    | cons a r =>
      have : ¬ (a = '\n' ∨ a = '\r') := hr a rfl
      simp only [List.nil_append]
      unfold strip_rev
      rw [if_neg this]
  | cons a t ih =>
    have ha : a = '\n' ∨ a = '\r' := ht a (List.mem_cons_self _ _)
    simp only [List.cons_append]
    unfold strip_rev
    rw [if_pos ha]
    exact ih (fun c hc => ht c (List.mem_cons_of_mem _ hc))

/-- `strip_trailing` removes the trailing line terminators and nothing else. -/
theorem strip_trailing_stripped (s : String) : Stripped s (strip_trailing s) := by
  obtain ⟨⟨t, ht, hall⟩, hhead⟩ := strip_rev_spec s.data.reverse
  unfold Stripped strip_trailing
  refine ⟨⟨t.reverse, ?_, ?_⟩, ?_⟩
  · have := congrArg List.reverse ht
    simpa using this
  · intro c hc
    exact hall c (List.mem_reverse.1 hc)
  · intro c hc
    apply hhead c
    simpa [List.getLast?_reverse] using hc

/-- There is one text only that is `output` without its trailing line
terminators. -/
theorem stripped_unique (output r : String) (h : Stripped output r) :
    r = strip_trailing output := by
  obtain ⟨⟨t, ht, hall⟩, hlast⟩ := h
  unfold strip_trailing
  apply String.ext
  simp only
  rw [ht, List.reverse_append,
    strip_rev_unique t.reverse r.data.reverse (fun c hc => hall c (List.mem_reverse.1 hc))
      (fun c hc => hlast c (by simpa [List.head?_reverse] using hc))]
  simp

/-- `execute_with_output` of propatch.cpp fails exactly when the command could not be
spawned or exited non-zero, and otherwise returns the output without its trailing
line terminators. -/
theorem execute_with_output_spec (step : Step) (command : String) (w : World) (st : St) :
    ((∃ e, (execute_with_output step command w st).1 = Except.error e) ↔ w.ok step = false) ∧
      ∀ r, w.result step = some r → r.status = 0 →
        (execute_with_output step command w st).1 = Except.ok (strip_trailing r.output) := by
  unfold execute_with_output
  simp only [execute_eq]
  unfold World.ok
  cases h : w.result step with
  | none => simp
  | some r =>
    by_cases hs : r.status = 0 <;> simp [hs]

/-- The reading loop of `command_execute` collects the whole text. -/
theorem fgets_chunks_join (size : Nat) (text cur : List Char) :
    (PatchC.fgets_chunks size text cur).flatten = cur.reverse ++ text := by
  induction text generalizing cur with
  | nil =>
    unfold PatchC.fgets_chunks
    by_cases h : cur = []
    · simp [h]
    · simp [h]
  | cons c cs ih =>
    unfold PatchC.fgets_chunks
    split
    · simp [ih]
    · simp [ih]

theorem fgets_chunks_ne_nil (size : Nat) (text cur : List Char) (h : cur ≠ [] ∨ text ≠ []) :
    PatchC.fgets_chunks size text cur ≠ [] := by
  induction text generalizing cur with
  | nil =>
    unfold PatchC.fgets_chunks
    rcases h with h | h
    · simp [h]
    · exact absurd rfl h
  | cons c cs ih =>
    unfold PatchC.fgets_chunks
    split
    · simp
    · exact ih _ (Or.inl (by simp))

theorem foldl_chunks (chunks : List (List Char)) (acc : String) :
    chunks.foldl (fun (output : Option String) chunk =>
      some (output.getD "" ++ String.mk chunk)) (some acc) =
      some (acc ++ String.mk chunks.flatten) := by
  induction chunks generalizing acc with
  | nil =>
    simp only [List.foldl_nil, List.flatten_nil]
    congr 1
    apply String.ext
    simp
  | cons c cs ih =>
    simp only [List.foldl_cons, Option.getD_some, List.flatten_cons]
    rw [ih]
    congr 1
    apply String.ext
    simp

/-- The output `command_execute` captures: a null pointer when the process printed
nothing, the whole text otherwise. -/
theorem read_output_eq (text : String) :
    PatchC.read_output text = if text = "" then none else some text := by
  unfold PatchC.read_output
  by_cases h : text = ""
  · subst h
    rfl
  · rw [if_neg h]
    have hne : text.data ≠ [] := by
      intro hd
      apply h
      apply String.ext
      simpa using hd
    have hj := fgets_chunks_join 128 text.data []
    cases hc : PatchC.fgets_chunks 128 text.data [] with
    | nil => exact absurd hc (fgets_chunks_ne_nil 128 _ _ (Or.inr hne))
    | cons c cs =>
      rw [hc] at hj
      simp only [List.foldl_cons, Option.getD_none]
      rw [foldl_chunks]
      congr 1
      apply String.ext
      simp only [String.data_append]
      simpa using hj

/-- `command_execute_with_output` of patch.c returns the output without its trailing
line terminators when the command was started, exited with status 0 and printed
something; it returns a null pointer when the command could not be started or
exited non-zero. -/
theorem command_execute_with_output_spec (command : String) (lg : Option Logger) :
    (PatchC.command_execute_with_output command none lg).1 = none ∧
      (∀ status text, status ≠ 0 →
        (PatchC.command_execute_with_output command (some (status, text)) lg).1 = none) ∧
      (∀ text, text ≠ "" →
        (PatchC.command_execute_with_output command (some (0, text)) lg).1 =
          some (strip_trailing text)) ∧
      (PatchC.command_execute_with_output command (some (0, "")) lg).1 = none := by
  refine ⟨?_, ?_, ?_, ?_⟩
  · simp [PatchC.command_execute_with_output, PatchC.command_execute]
  · intro status text hs
    simp [PatchC.command_execute_with_output, PatchC.command_execute, hs]
  · intro text ht
    simp [PatchC.command_execute_with_output, PatchC.command_execute, read_output_eq, ht]
  · simp [PatchC.command_execute_with_output, PatchC.command_execute, read_output_eq]

/-- A call of `CommandExecutor::execute` of propatch.cpp leaves the log as it was,
whatever the threshold of the logger. -/
theorem execute_logs_nothing (step : Step) (command : String) (w : World) (st : St) :
    (execute step command w st).2.logger = st.logger := by
  rw [execute_eq]
  cases w.result step <;> rfl

/-! ## The command line -/

theorem scan_cons (arg : String) (rest : List String) :
    scan (arg :: rest) =
      if arg = "--help" ∨ arg = "-h" then Tok.help :: scan rest
      else if arg = "--dry-run" ∨ arg = "-n" then Tok.dry_run :: scan rest
      else if arg = "--verbose" ∨ arg = "-v" then Tok.verbose :: scan rest
      else if arg = "--backup-dir" ∨ arg = "-b" then
        match rest with
        | [] => [Tok.dangling]
        | dir :: rest1 => Tok.backup dir :: scan rest1
      else if is_dashed arg then Tok.unknown arg :: scan rest
      else Tok.positional arg :: scan rest := by
  rw [scan.eq_def]

theorem parse_loop_cons (arg : String) (rest : List String) (a : CLIArgs) :
    parse_loop (arg :: rest) a =
      if arg = "--help" ∨ arg = "-h" then parse_loop rest { a with help := true }
      else if arg = "--dry-run" ∨ arg = "-n" then parse_loop rest { a with dry_run := true }
      else if arg = "--verbose" ∨ arg = "-v" then parse_loop rest { a with verbose := true }
      else if arg = "--backup-dir" ∨ arg = "-b" then
        match rest with
        | [] => Except.error "Missing backup directory"
        | dir :: rest1 => parse_loop rest1 { a with backup_dir := dir }
      else if !is_dashed arg then
        if a.port_name = "" then parse_loop rest { a with port_name := arg }
        else if a.patch_file = "" then parse_loop rest { a with patch_file := arg }
        else parse_loop rest a
      else Except.error ("Unknown argument: " ++ arg) := by
  rw [parse_loop.eq_def]

theorem parse_loop_bad (args : List String) :
    ∀ a : CLIArgs, (scan args).any Tok.isBad = true → ∃ e, parse_loop args a = Except.error e := by
  induction args using scan.induct with
  | case1 => intro a h; simp [scan] at h
  | case2 arg rest harg ih =>
    intro a h
    rw [scan_cons, if_pos harg] at h
    rw [parse_loop_cons, if_pos harg]
    exact ih _ (by simpa [Tok.isBad] using h)
  | case3 arg rest h1 harg ih =>
    intro a h
    rw [scan_cons, if_neg h1, if_pos harg] at h
    rw [parse_loop_cons, if_neg h1, if_pos harg]
    exact ih _ (by simpa [Tok.isBad] using h)
  | case4 arg rest h1 h2 harg ih =>
    intro a h
    rw [scan_cons, if_neg h1, if_neg h2, if_pos harg] at h
    rw [parse_loop_cons, if_neg h1, if_neg h2, if_pos harg]
    exact ih _ (by simpa [Tok.isBad] using h)
  | case5 arg h1 h2 h3 harg =>
    intro a _
    rw [parse_loop_cons, if_neg h1, if_neg h2, if_neg h3, if_pos harg]
    exact ⟨_, rfl⟩
  | case6 arg h1 h2 h3 harg dir rest1 ih =>
    intro a h
    rw [scan_cons, if_neg h1, if_neg h2, if_neg h3, if_pos harg] at h
    rw [parse_loop_cons, if_neg h1, if_neg h2, if_neg h3, if_pos harg]
    exact ih _ (by simpa [Tok.isBad] using h)
  | case7 arg rest h1 h2 h3 h4 harg ih =>
    intro a _
    rw [parse_loop_cons, if_neg h1, if_neg h2, if_neg h3, if_neg h4]
    simp [harg]
  | case8 arg rest h1 h2 h3 h4 harg ih =>
    intro a h
    rw [scan_cons, if_neg h1, if_neg h2, if_neg h3, if_neg h4, if_neg harg] at h
    have hd : is_dashed arg = false := by simpa using harg
    rw [parse_loop_cons, if_neg h1, if_neg h2, if_neg h3, if_neg h4]
    simp only [hd, Bool.not_false, if_true]
    have h' : (scan rest).any Tok.isBad = true := by simpa [Tok.isBad] using h
    split
    · exact ih _ h'
    · split
      · exact ih _ h'
      · exact ih _ h'

theorem parse_loop_good (args : List String) :
    ∀ a : CLIArgs, (a.port_name = "" → a.patch_file = "") →
      (scan args).any Tok.isBad = false →
      ∃ a', parse_loop args a = Except.ok a' ∧
        (a'.help = true ↔ a.help = true ∨ Tok.help ∈ scan args) ∧
        a'.backup_dir = (backup_choice (scan args)).getD a.backup_dir ∧
        (a'.port_name = "" ↔ a.port_name = "" ∧ named (scan args) = []) ∧
        (a'.patch_file = "" ↔
          a.patch_file = "" ∧ (named (scan args)).length < (if a.port_name = "" then 2 else 1)) := by
  induction args using scan.induct with
  | case1 =>
    intro a _ _
    refine ⟨a, rfl, by simp [scan], by simp [scan, backup_choice], by simp [scan, named], ?_⟩
    simp only [scan, named, List.length_nil]
    split <;> simp
  | case2 arg rest harg ih =>
    intro a hinv h
    rw [scan_cons, if_pos harg] at h ⊢
    rw [parse_loop_cons, if_pos harg]
    obtain ⟨a', h0, h1, h2, h3, h4⟩ := ih { a with help := true } hinv
      (by simpa [Tok.isBad] using h)
    exact ⟨a', h0, by simp [h1], by simpa [backup_choice] using h2,
      by simpa [named] using h3, by simpa [named] using h4⟩
  | case3 arg rest h1 harg ih =>
    intro a hinv h
    rw [scan_cons, if_neg h1, if_pos harg] at h ⊢
    rw [parse_loop_cons, if_neg h1, if_pos harg]
    obtain ⟨a', h0, k1, k2, k3, k4⟩ := ih { a with dry_run := true } hinv
      (by simpa [Tok.isBad] using h)
    exact ⟨a', h0, by simpa using k1, by simpa [backup_choice] using k2,
      by simpa [named] using k3, by simpa [named] using k4⟩
  | case4 arg rest h1 h2 harg ih =>
    intro a hinv h
    rw [scan_cons, if_neg h1, if_neg h2, if_pos harg] at h ⊢
    rw [parse_loop_cons, if_neg h1, if_neg h2, if_pos harg]
    obtain ⟨a', h0, k1, k2, k3, k4⟩ := ih { a with verbose := true } hinv
      (by simpa [Tok.isBad] using h)
    exact ⟨a', h0, by simpa using k1, by simpa [backup_choice] using k2,
      by simpa [named] using k3, by simpa [named] using k4⟩
  | case5 arg h1 h2 h3 harg =>
    intro a _ h
    rw [scan_cons, if_neg h1, if_neg h2, if_neg h3, if_pos harg] at h
    simp [Tok.isBad] at h
  | case6 arg h1 h2 h3 harg dir rest1 ih =>
    intro a hinv h
    rw [scan_cons, if_neg h1, if_neg h2, if_neg h3, if_pos harg] at h ⊢
    rw [parse_loop_cons, if_neg h1, if_neg h2, if_neg h3, if_pos harg]
    obtain ⟨a', h0, k1, k2, k3, k4⟩ := ih { a with backup_dir := dir } hinv
      (by simpa [Tok.isBad] using h)
    refine ⟨a', h0, by simpa using k1, ?_, by simpa [named] using k3, by simpa [named] using k4⟩
    simp only [backup_choice]
    rw [k2]
    cases backup_choice (scan rest1) <;> rfl
  | case7 arg rest h1 h2 h3 h4 harg ih =>
    intro a _ h
    rw [scan_cons, if_neg h1, if_neg h2, if_neg h3, if_neg h4, if_pos harg] at h
    simp [Tok.isBad] at h
  | case8 arg rest h1 h2 h3 h4 harg ih =>
    intro a hinv h
    rw [scan_cons, if_neg h1, if_neg h2, if_neg h3, if_neg h4, if_neg harg] at h ⊢
    have hd : is_dashed arg = false := by simpa using harg
    rw [parse_loop_cons, if_neg h1, if_neg h2, if_neg h3, if_neg h4]
    simp only [hd, Bool.not_false, if_true]
    have h' : (scan rest).any Tok.isBad = false := by simpa [Tok.isBad] using h
    by_cases hp : a.port_name = ""
    · rw [if_pos hp]
      have hf := hinv hp
      by_cases ha : arg = ""
      · obtain ⟨a', h0, k1, k2, k3, k4⟩ := ih { a with port_name := arg }
          (by intro _; exact hf) h'
        refine ⟨a', h0, by simpa using k1, by simpa [backup_choice] using k2, ?_, ?_⟩
        · simpa [named, ha, hp] using k3
        · simpa [named, ha, hp] using k4
      · obtain ⟨a', h0, k1, k2, k3, k4⟩ := ih { a with port_name := arg }
          (by intro h; exact absurd h ha) h'
        refine ⟨a', h0, by simpa using k1, by simpa [backup_choice] using k2, ?_, ?_⟩
        · simpa [named, ha, hp] using k3
        · have hlen : (named (scan rest)).length + 1 < 2 ↔ named (scan rest) = [] := by
            rw [← List.length_eq_zero]
            omega
          simpa [named, ha, hp, hf, hlen] using k4
    · rw [if_neg hp]
      by_cases hf : a.patch_file = ""
      · rw [if_pos hf]
        obtain ⟨a', h0, k1, k2, k3, k4⟩ := ih { a with patch_file := arg }
          (by intro h; exact absurd h hp) h'
        refine ⟨a', h0, by simpa using k1, by simpa [backup_choice] using k2, ?_, ?_⟩
        · simpa [named, hp] using k3
        · by_cases ha : arg = ""
          · simpa [named, ha, hp, hf] using k4
          · simpa [named, ha, hp, hf] using k4
      · rw [if_neg hf]
        obtain ⟨a', h0, k1, k2, k3, k4⟩ := ih a hinv h'
        refine ⟨a', h0, by simpa using k1, by simpa [backup_choice] using k2, ?_, ?_⟩
        · simpa [named, hp] using k3
        · simpa [named, hp, hf] using k4

theorem named_length_le (toks : List Tok) : (named toks).length ≤ (positionals toks).length := by
  induction toks with
  | nil => simp [named, positionals]
  | cons t toks ih =>
    cases t <;> simp only [named, positionals] <;> try exact ih
    split
    · simp only [List.length_cons]
      omega
    · simp only [List.length_cons]
      omega

/-- What `parse_args` returns, by the reading of the arguments: an error for a bad
argument; otherwise success with `help` set when a help flag is read; otherwise an
error when fewer than two non-empty positionals are read, and success if not. The
backup directory is the value of the last backup option, or the default. -/
theorem parse_args_spec (argv : List String) :
    ((scan (argv.drop 1)).any Tok.isBad = true → ∃ e, parse_args argv = Except.error e) ∧
      ((scan (argv.drop 1)).any Tok.isBad = false → Tok.help ∈ scan (argv.drop 1) →
        ∃ a, parse_args argv = Except.ok a ∧ a.help = true) ∧
      ((scan (argv.drop 1)).any Tok.isBad = false → Tok.help ∉ scan (argv.drop 1) →
        (named (scan (argv.drop 1))).length < 2 → ∃ e, parse_args argv = Except.error e) ∧
      ((scan (argv.drop 1)).any Tok.isBad = false → Tok.help ∉ scan (argv.drop 1) →
        2 ≤ (named (scan (argv.drop 1))).length →
        ∃ a, parse_args argv = Except.ok a ∧ a.help = false) ∧
      ∀ a, parse_args argv = Except.ok a →
        a.backup_dir = (backup_choice (scan (argv.drop 1))).getD "/usr/local/etc/patches" := by
  unfold parse_args
  cases hb : (scan (argv.drop 1)).any Tok.isBad with
  | true =>
    obtain ⟨e, he⟩ := parse_loop_bad (argv.drop 1) {} hb
    rw [he]
    simp
  | false =>
    obtain ⟨a', h0, k1, k2, k3, k4⟩ := parse_loop_good (argv.drop 1) {} (fun _ => rfl) hb
    rw [h0]
    simp only [Bool.false_eq_true, false_or, true_and, if_true] at k1 k3 k4
    refine ⟨by simp, ?_, ?_, ?_, ?_⟩
    · intro _ hh
      have : a'.help = true := k1.2 hh
      simp [this]
    · intro _ hh hn
      have hhelp : a'.help = false := by
        cases hx : a'.help with
        | false => rfl
        | true => exact absurd (k1.1 hx) hh
      simp only [hhelp, Bool.false_eq_true, if_false]
      by_cases hp : a'.port_name = ""
      · simp [hp]
      · have hf : a'.patch_file = "" := k4.2 hn
        simp [hp, hf]
    · intro _ hh hn
      have hhelp : a'.help = false := by
        cases hx : a'.help with
        | false => rfl
        | true => exact absurd (k1.1 hx) hh
      have hp : a'.port_name ≠ "" := by
        intro hp
        have := k3.1 hp
        rw [this] at hn
        simp at hn
      have hf : a'.patch_file ≠ "" := by
        intro hf
        have := k4.1 hf
        omega
      simp [hhelp, hp, hf]
    · intro a ha
      have : a = a' := by
        by_cases hx : a'.help = true
        · simp only [hx, if_true, Except.ok.injEq] at ha
          exact ha.symm
        · simp only [hx, Bool.false_eq_true, if_false] at ha
          by_cases hp : a'.port_name = ""
          · simp [hp] at ha
          · by_cases hf : a'.patch_file = ""
            · simp [hp, hf] at ha
            · simp only [hp, hf, if_false, Except.ok.injEq] at ha
              exact ha.symm
      rw [this, k2]

/-- The two early exits of `main`: a parse error gives exit code 1, help gives exit
code 0, and neither constructs the patcher. -/
theorem main_early (argv : List String) (w : World) (backups : List Entry) (work : Tree) :
    ((∃ e, parse_args argv = Except.error e) →
        (main argv w backups work).exit_code = 1 ∧ (main argv w backups work).ran = none) ∧
      (∀ a, parse_args argv = Except.ok a → a.help = true →
        (main argv w backups work).exit_code = 0 ∧ (main argv w backups work).ran = none) := by
  unfold main
  refine ⟨?_, ?_⟩
  · rintro ⟨e, he⟩
    rw [he]
    exact ⟨rfl, rfl⟩
  · intro a ha hh
    rw [ha]
    simp [hh]

/-! ## mkdir -/

theorem keeps_refl (t : Tree) : Keeps t t := fun _ _ h => h

theorem keeps_trans (a b c : Tree) (h1 : Keeps a b) (h2 : Keeps b c) : Keeps a c :=
  fun q x h => h2 q x (h1 q x h)

theorem keeps_append (t s : Tree) : Keeps t (t ++ s) :=
  fun q x h => Tree.get?_append_of_some t s q x h

theorem get?_append_new (t : Tree) (q : RelPath) (o : Obj) (h : Tree.get? t q = none) :
    Tree.get? (t ++ [(q, o)]) q = some o := by
  rw [Tree.get?_append, h]
  simp [Tree.get?]

theorem grown_refl (t : Tree) : Grown t t := fun _ _ h => Or.inl h

theorem grown_trans (a b c : Tree) (h1 : Grown a b) (h2 : Grown b c) : Grown a c := by
  intro q x h
  rcases h2 q x h with h | h
  · exact h1 q x h
  · exact Or.inr h

theorem grown_append_dir (t : Tree) (p : RelPath) : Grown t (t ++ [(p, Obj.dir)]) := by
  intro q x h
  rw [Tree.get?_append] at h
  cases hq : Tree.get? t q with
  | some o =>
    rw [hq] at h
    left
    simpa using h
  | none =>
    rw [hq] at h
    right
    have h1 : Tree.get? [(p, Obj.dir)] q = some x := by simpa using h
    unfold Tree.get? at h1
    by_cases hpq : p = q
    · simp [List.find?, hpq] at h1
      exact h1.symm
    · simp [List.find?, hpq] at h1

open PatchC in
theorem resolve_nil (t : Tree) (cur : RelPath) : resolve t cur [] = Except.ok cur := by
  rw [resolve]

open PatchC in
theorem resolve_cons (t : Tree) (cur : RelPath) (n : String) (rest : List String) :
    resolve t cur (n :: rest) =
      if n = "." then resolve t cur rest
      else if n = ".." then resolve t cur.dropLast rest
      else
        match t.get? (cur ++ [n]) with
        | some Obj.dir => resolve t (cur ++ [n]) rest
        | some (Obj.file _) => Except.error Errno.ENOTDIR
        | none => Except.error Errno.ENOENT := by
  rw [resolve]

open PatchC in
/-- A resolution that succeeds succeeds the same way in every tree that kept the
entries. -/
theorem resolve_keeps (t t1 : Tree) (h : Keeps t t1) (ns : List String) :
    ∀ (cur q : RelPath), resolve t cur ns = Except.ok q → resolve t1 cur ns = Except.ok q := by
  induction ns with
  | nil =>
    intro cur q hr
    rw [resolve_nil] at hr ⊢
    exact hr
  | cons n rest ih =>
    intro cur q hr
    rw [resolve_cons] at hr ⊢
    by_cases h1 : n = "."
    · rw [if_pos h1] at hr ⊢
      exact ih _ _ hr
    · rw [if_neg h1] at hr ⊢
      by_cases h2 : n = ".."
      · rw [if_pos h2] at hr ⊢
        exact ih _ _ hr
      · rw [if_neg h2] at hr ⊢
        cases hg : Tree.get? t (cur ++ [n]) with
        | none => rw [hg] at hr; cases hr
        | some o =>
          cases o with
          | file b => rw [hg] at hr; cases hr
          | dir =>
            rw [hg] at hr
            rw [h _ _ hg]
            exact ih _ _ hr

open PatchC in
/-- Without the names `.` and `..` a resolution leads to the names themselves. -/
theorem resolve_plain (t : Tree) (ns : List String) :
    ∀ (cur q : RelPath), "." ∉ ns → ".." ∉ ns → resolve t cur ns = Except.ok q → q = cur ++ ns := by
  induction ns with
  | nil =>
    intro cur q _ _ hr
    rw [resolve_nil] at hr
    cases hr
    simp
  | cons n rest ih =>
    intro cur q h1 h2 hr
    rw [resolve_cons] at hr
    have n1 : n ≠ "." := fun e => h1 (by rw [e]; exact List.mem_cons_self _ _)
    have n2 : n ≠ ".." := fun e => h2 (by rw [e]; exact List.mem_cons_self _ _)
    rw [if_neg n1, if_neg n2] at hr
    cases hg : Tree.get? t (cur ++ [n]) with
    | none => rw [hg] at hr; cases hr
    | some o =>
      cases o with
      | file b => rw [hg] at hr; cases hr
      | dir =>
        rw [hg] at hr
        have := ih (cur ++ [n]) q (fun h => h1 (List.mem_cons_of_mem _ h))
          (fun h => h2 (List.mem_cons_of_mem _ h)) hr
        rw [this]
        simp

open PatchC in
/-- The three outcomes of `target`, by the resolution of the names before the
last. -/
theorem target_cases (t : Tree) (path : String) :
    (path_names path = [] ∧ target t path = Except.ok none) ∨
      (∃ last, (path_names path).getLast? = some last ∧
        ((∃ e, resolve t [] (path_names path).dropLast = Except.error e ∧
            target t path = Except.error e) ∨
          (∃ cur, resolve t [] (path_names path).dropLast = Except.ok cur ∧
            ((last = "." ∨ last = "..") ∧ target t path = Except.ok none ∨
              (last ≠ "." ∧ last ≠ ".." ∧ target t path = Except.ok (some (cur ++ [last]))))))) := by
  unfold target
  cases hl : (path_names path).getLast? with
  | none =>
    left
    exact ⟨List.getLast?_eq_none_iff.mp hl, rfl⟩
  | some last =>
    right
    refine ⟨last, rfl, ?_⟩
    cases hr : resolve t [] (path_names path).dropLast with
    | error e => exact Or.inl ⟨e, rfl, rfl⟩
    | ok cur =>
      right
      refine ⟨cur, rfl, ?_⟩
      by_cases hs : last = "." ∨ last = ".."
      · left
        exact ⟨hs, by simp only [if_pos hs]⟩
      · right
        refine ⟨fun h => hs (Or.inl h), fun h => hs (Or.inr h), by simp only [if_neg hs]⟩

open PatchC in
/-- A resolution never fails with `EEXIST`. -/
theorem resolve_ne_eexist (t : Tree) (ns : List String) :
    ∀ c : RelPath, resolve t c ns ≠ Except.error Errno.EEXIST := by
  induction ns with
  | nil => intro c; rw [resolve_nil]; intro hh; cases hh
  | cons n rest ih =>
    intro c
    rw [resolve_cons]
    split
    · exact ih _
    · split
      · exact ih _
      · split
        · exact ih _
        · intro hh; cases hh
        · intro hh; cases hh

open PatchC in
theorem target_ne_eexist (t : Tree) (path : String) :
    target t path ≠ Except.error Errno.EEXIST := by
  intro hte
  rcases target_cases t path with ⟨-, h0⟩ | ⟨last, -, ⟨e, hr, h1⟩ | ⟨cur, -, ⟨-, h1⟩ | ⟨-, -, h1⟩⟩⟩
  · rw [h0] at hte
    cases hte
  · rw [h1] at hte
    cases hte
    exact resolve_ne_eexist _ _ _ hr
  · rw [h1] at hte
    cases hte
  · rw [h1] at hte
    cases hte

open PatchC in
theorem target_keeps (t t1 : Tree) (h : Keeps t t1) (path : String) (r : Option RelPath)
    (ht : target t path = Except.ok r) : target t1 path = Except.ok r := by
  unfold target at ht ⊢
  cases hl : (path_names path).getLast? with
  | none => rw [hl] at ht; exact ht
  | some last =>
    rw [hl] at ht
    simp only at ht ⊢
    cases hr : resolve t [] (path_names path).dropLast with
    | error e => rw [hr] at ht; cases ht
    | ok cur =>
      rw [hr] at ht
      rw [resolve_keeps t t1 h _ _ _ hr]
      exact ht

open PatchC in
/-- The outcomes of `mkdir`. -/
theorem mkdir_cases (fault : RelPath → Option Errno) (path : String) (t : Tree) :
    (path = "" ∧ mkdir fault path t = (some Errno.ENOENT, t)) ∨
      (path ≠ "" ∧ ∃ e, fault (path_names path) = some e ∧ mkdir fault path t = (some e, t)) ∨
      (path ≠ "" ∧ fault (path_names path) = none ∧
        ((∃ e, target t path = Except.error e ∧ mkdir fault path t = (some e, t)) ∨
          (target t path = Except.ok none ∧ mkdir fault path t = (some Errno.EEXIST, t)) ∨
          (∃ q x, target t path = Except.ok (some q) ∧ Tree.get? t q = some x ∧
            mkdir fault path t = (some Errno.EEXIST, t)) ∨
          (∃ q, target t path = Except.ok (some q) ∧ Tree.get? t q = none ∧
            mkdir fault path t = (none, t ++ [(q, Obj.dir)])))) := by
  unfold mkdir
  by_cases hp : path = ""
  · left
    exact ⟨hp, by rw [if_pos hp]⟩
  · right
    rw [if_neg hp]
    cases hf : fault (path_names path) with
    | some e => exact Or.inl ⟨hp, e, rfl, rfl⟩
    | none =>
      right
      refine ⟨hp, rfl, ?_⟩
      cases ht : target t path with
      | error e => exact Or.inl ⟨e, rfl, rfl⟩
      | ok r =>
        right
        cases r with
        | none => exact Or.inl ⟨rfl, rfl⟩
        | some q =>
          right
          cases hg : Tree.get? t q with
          | some x => exact Or.inl ⟨q, x, rfl, hg, by simp only [hg]⟩
          | none => exact Or.inr ⟨q, rfl, hg, by simp only [hg]⟩

open PatchC in
/-- `mkdir` keeps every entry. -/
theorem mkdir_keeps (fault : RelPath → Option Errno) (path : String) (t : Tree) :
    Keeps t (mkdir fault path t).2 := by
  rcases mkdir_cases fault path t with ⟨-, h⟩ | ⟨-, e, -, h⟩ | ⟨-, -, ⟨e, -, h⟩ | ⟨-, h⟩ |
    ⟨q, x, -, -, h⟩ | ⟨q, -, -, h⟩⟩ <;> rw [h]
  · exact keeps_refl t
  · exact keeps_refl t
  · exact keeps_refl t
  · exact keeps_refl t
  · exact keeps_refl t
  · exact keeps_append _ _

open PatchC in
/-- What `mkdir` adds to the tree is a directory. -/
theorem mkdir_grown (fault : RelPath → Option Errno) (path : String) (t : Tree) :
    Grown t (mkdir fault path t).2 := by
  rcases mkdir_cases fault path t with ⟨-, h⟩ | ⟨-, e, -, h⟩ | ⟨-, -, ⟨e, -, h⟩ | ⟨-, h⟩ |
    ⟨q, x, -, -, h⟩ | ⟨q, -, -, h⟩⟩ <;> rw [h]
  · exact grown_refl t
  · exact grown_refl t
  · exact grown_refl t
  · exact grown_refl t
  · exact grown_refl t
  · exact grown_append_dir _ _

open PatchC in
theorem mkdir_step_true (fault : RelPath → Option Errno) (path : String) (st : DirSt) :
    ((mkdir_step fault path st).1 = true ↔ Accepted (mkdir fault path st.tree).1) ∧
      (mkdir_step fault path st).2.tree = (mkdir fault path st.tree).2 ∧
      (mkdir_step fault path st).2.calls = st.calls ++ [(path, (mkdir fault path st.tree).1)] := by
  unfold mkdir_step Accepted
  rcases mkdir fault path st.tree with ⟨e, t⟩
  cases e with
  | none => simp
  | some e => cases e <;> simp

/-! ## Digits and order -/

theorem toDigitsCore_acc (f : Nat) :
    ∀ (n : Nat) (ds : List Char),
      Nat.toDigitsCore 10 f n ds = Nat.toDigitsCore 10 f n [] ++ ds := by
  induction f with
  | zero => intro n ds; simp [Nat.toDigitsCore]
  | succ f ih =>
    intro n ds
    simp only [Nat.toDigitsCore]
    split
    · simp
    · rw [ih (n / 10) (Nat.digitChar (n % 10) :: ds), ih (n / 10) [Nat.digitChar (n % 10)]]
      simp

theorem digitsW_zero (w : Nat) : digitsW w 0 = List.replicate w '0' := by
  induction w with
  | zero => rfl
  | succ w ih =>
    simp only [digitsW, Nat.zero_div, Nat.zero_mod, ih]
    rw [List.replicate_succ']
    rfl

theorem digitsW_length (w n : Nat) : (digitsW w n).length = w := by
  induction w generalizing n with
  | zero => rfl
  | succ w ih => simp [digitsW, ih]

/-- Padding the decimal digits of a number below `10 ^ w` gives its `w` digits. -/
theorem pad_toDigitsCore (w : Nat) :
    ∀ (n f : Nat), n < 10 ^ (w + 1) → w + 1 ≤ f →
      List.replicate (w + 1 - (Nat.toDigitsCore 10 f n []).length) '0' ++
        Nat.toDigitsCore 10 f n [] = digitsW (w + 1) n := by
  induction w with
  | zero =>
    intro n f hn hf
    obtain ⟨f, rfl⟩ : ∃ g, f = g + 1 := ⟨f - 1, by omega⟩
    have h0 : n / 10 = 0 := by omega
    simp [Nat.toDigitsCore, h0, digitsW]
  | succ w ih =>
    intro n f hn hf
    obtain ⟨f, rfl⟩ : ∃ g, f = g + 1 := ⟨f - 1, by omega⟩
    simp only [Nat.toDigitsCore]
    by_cases h0 : n / 10 = 0
    · rw [if_pos h0]
      simp only [List.length_singleton, digitsW, h0, Nat.zero_div, Nat.zero_mod]
      have := digitsW_zero w
      rw [this]
      have e : w + 1 + 1 - 1 = w + 1 := by omega
      rw [e, List.replicate_succ']
      simp
      rfl
    · rw [if_neg h0, toDigitsCore_acc]
      have hlt : n / 10 < 10 ^ (w + 1) := by
        rw [Nat.div_lt_iff_lt_mul (by omega)]
        rw [Nat.pow_succ] at hn
        exact hn
      have := ih (n / 10) f hlt (by omega)
      simp only [List.length_append, List.length_singleton]
      have e : w + 1 + 1 - ((Nat.toDigitsCore 10 f (n / 10) []).length + 1) =
          w + 1 - (Nat.toDigitsCore 10 f (n / 10) []).length := by omega
      rw [e, ← List.append_assoc, this]
      rfl

theorem padNat_eq (w n : Nat) (hn : n < 10 ^ (w + 1)) :
    padNat (w + 1) n = String.mk (digitsW (w + 1) n) := by
  unfold padNat Nat.toDigits
  simp only
  have hf : w + 1 ≤ n + 1 ∨ n + 1 < w + 1 := by omega
  rcases hf with hf | hf
  · rw [pad_toDigitsCore w n (n + 1) hn hf]
  · -- fewer units of fuel than digits: the number is small
    have hsmall : n < w := by omega
    have key : ∀ (m f : Nat), m < f → m < 10 ^ (w + 1) →
        List.replicate (w + 1 - (Nat.toDigitsCore 10 f m []).length) '0' ++
          Nat.toDigitsCore 10 f m [] = digitsW (w + 1) m := by
      intro m f hmf hm
      have h1 := pad_toDigitsCore w m (f + (w + 1)) hm (by omega)
      have hfuel : ∀ (g k x : Nat), x < g → Nat.toDigitsCore 10 (g + k) x [] =
          Nat.toDigitsCore 10 g x [] := by
        intro g
        induction g with
        | zero => intro k x hx; omega
        | succ g ihg =>
          intro k x hx
          have e : g + 1 + k = (g + k) + 1 := by omega
          rw [e]
          simp only [Nat.toDigitsCore]
          by_cases h0 : x / 10 = 0
          · simp [h0]
          · rw [if_neg h0, if_neg h0, toDigitsCore_acc, toDigitsCore_acc g]
            have hx' : x / 10 < g := by omega
            rw [ihg k (x / 10) hx']
      rw [hfuel f (w + 1) m hmf] at h1
      exact h1
    rw [key n (n + 1) (by omega) hn]

theorem digitChar_order : ∀ x < 10, ∀ y < 10,
    (Nat.digitChar x < Nat.digitChar y ↔ x < y) ∧
      (Nat.digitChar x = Nat.digitChar y ↔ x = y) := by
  decide

theorem lex_lt_cons (a b : Char) (as bs : List Char) :
    ReaptchSt.lex_lt (a :: as) (b :: bs) =
      (decide (a < b) || (decide (a = b) && ReaptchSt.lex_lt as bs)) := by
  rw [ReaptchSt.lex_lt]

theorem lex_lt_irrefl (a : List Char) : ReaptchSt.lex_lt a a = false := by
  induction a with
  | nil => rfl
  | cons x xs ih => rw [lex_lt_cons, ih]; simp

theorem lex_lt_trans : ∀ (a b c : List Char),
    ReaptchSt.lex_lt a b = true → ReaptchSt.lex_lt b c = true → ReaptchSt.lex_lt a c = true := by
  intro a
  induction a with
  | nil =>
    intro b c h1 h2
    cases b with
    | nil => simp [ReaptchSt.lex_lt] at h1
    | cons y ys =>
      cases c with
      | nil => simp [ReaptchSt.lex_lt] at h2
      | cons z zs => simp [ReaptchSt.lex_lt]
  | cons x xs ih =>
    intro b c h1 h2
    cases b with
    | nil => simp [ReaptchSt.lex_lt] at h1
    | cons y ys =>
      cases c with
      | nil => simp [ReaptchSt.lex_lt] at h2
      | cons z zs =>
        rw [lex_lt_cons] at h1 h2 ⊢
        simp only [Bool.or_eq_true, Bool.and_eq_true, decide_eq_true_eq] at h1 h2 ⊢
        rcases h1 with h1 | ⟨rfl, h1⟩
        · rcases h2 with h2 | ⟨rfl, h2⟩
          · exact Or.inl (lt_trans h1 h2)
          · exact Or.inl h1
        · rcases h2 with h2 | ⟨rfl, h2⟩
          · exact Or.inl h2
          · exact Or.inr ⟨rfl, ih ys zs h1 h2⟩

theorem lex_lt_total : ∀ (a b : List Char),
    ReaptchSt.lex_lt a b = false → ReaptchSt.lex_lt b a = false → a = b := by
  intro a
  induction a with
  | nil =>
    intro b h1 h2
    cases b with
    | nil => rfl
    | cons y ys => simp [ReaptchSt.lex_lt] at h1
  | cons x xs ih =>
    intro b h1 h2
    cases b with
    | nil => simp [ReaptchSt.lex_lt] at h2
    | cons y ys =>
      rw [lex_lt_cons] at h1 h2
      simp only [Bool.or_eq_false_iff, Bool.and_eq_false_iff, decide_eq_false_iff_not] at h1 h2
      have hxy : x = y := le_antisymm (not_lt.mp h2.1) (not_lt.mp h1.1)
      subst hxy
      have e1 : ReaptchSt.lex_lt xs ys = false := by
        rcases h1.2 with h | h
        · exact absurd rfl h
        · exact h
      have e2 : ReaptchSt.lex_lt ys xs = false := by
        rcases h2.2 with h | h
        · exact absurd rfl h
        · exact h
      rw [ih ys e1 e2]

/-- "Not after" is transitive. -/
theorem lex_le_trans (a b c : List Char)
    (h1 : ReaptchSt.lex_lt b a = false) (h2 : ReaptchSt.lex_lt c b = false) :
    ReaptchSt.lex_lt c a = false := by
  cases h : ReaptchSt.lex_lt c a with
  | false => rfl
  | true =>
    exfalso
    cases hab : ReaptchSt.lex_lt a b with
    | true =>
      have := lex_lt_trans c a b h hab
      rw [h2] at this
      cases this
    | false =>
      have e := lex_lt_total a b hab h1
      subst e
      rw [h2] at h
      cases h

theorem lex_lt_same_front (p a b : List Char) :
    ReaptchSt.lex_lt (p ++ a) (p ++ b) = ReaptchSt.lex_lt a b := by
  induction p with
  | nil => rfl
  | cons x xs ih =>
    rw [List.cons_append, List.cons_append, lex_lt_cons, ih]
    simp

/-- Two blocks of `w` digits in front of two texts: the numbers decide, then the
texts. -/
theorem lex_lt_digits (w : Nat) : ∀ (a b : Nat) (r s : List Char),
    a < 10 ^ w → b < 10 ^ w →
      ReaptchSt.lex_lt (digitsW w a ++ r) (digitsW w b ++ s) =
        (decide (a < b) || (decide (a = b) && ReaptchSt.lex_lt r s)) := by
  induction w with
  | zero =>
    intro a b r s ha hb
    have ea : a = 0 := by simpa using ha
    have eb : b = 0 := by simpa using hb
    subst ea; subst eb
    simp [digitsW]
  | succ w ih =>
    intro a b r s ha hb
    have ha1 : a / 10 < 10 ^ w := by
      rw [Nat.div_lt_iff_lt_mul (by omega)]
      rw [Nat.pow_succ] at ha
      exact ha
    have hb1 : b / 10 < 10 ^ w := by
      rw [Nat.div_lt_iff_lt_mul (by omega)]
      rw [Nat.pow_succ] at hb
      exact hb
    simp only [digitsW, List.append_assoc, List.singleton_append]
    rw [ih (a / 10) (b / 10) _ _ ha1 hb1, lex_lt_cons]
    have hd := digitChar_order (a % 10) (Nat.mod_lt _ (by omega)) (b % 10)
      (Nat.mod_lt _ (by omega))
    cases hrs : ReaptchSt.lex_lt r s
    · simp only [Bool.and_false, Bool.or_false]
      rw [Bool.eq_iff_iff]
      simp only [Bool.or_eq_true, Bool.and_eq_true, decide_eq_true_eq, hd.1]
      omega
    · simp only [Bool.and_true]
      rw [Bool.eq_iff_iff]
      simp only [Bool.or_eq_true, Bool.and_eq_true, decide_eq_true_eq, hd.1, hd.2]
      omega

/-! ## The time stamp -/

theorem get_timestamp_data (t : LocalTime) (h : InRange t) :
    (get_timestamp t).data =
      digitsW 4 t.year ++ (digitsW 2 t.month ++ (digitsW 2 t.day ++ ('-' ::
        (digitsW 2 t.hour ++ (digitsW 2 t.minute ++ (digitsW 2 t.second ++
          t.subsec.data)))))) := by
  obtain ⟨_, h2, _, h4, _, h6, h7, h8, h9⟩ := h
  unfold get_timestamp
  rw [padNat_eq 3 t.year (by norm_num; omega), padNat_eq 1 t.month (by norm_num; omega),
    padNat_eq 1 t.day (by norm_num; omega), padNat_eq 1 t.hour (by norm_num; omega),
    padNat_eq 1 t.minute (by norm_num; omega), padNat_eq 1 t.second (by norm_num; omega)]
  simp only [String.data_append, List.append_assoc]
  rfl

theorem st_get_timestamp_data (t : LocalTime) (h : InRange t) :
    (ReaptchSt.get_timestamp t).data =
      digitsW 4 t.year ++ (digitsW 2 t.month ++ (digitsW 2 t.day ++ ('-' ::
        (digitsW 2 t.hour ++ (digitsW 2 t.minute ++ (digitsW 2 t.second ++ [])))))) := by
  unfold ReaptchSt.get_timestamp
  exact get_timestamp_data { t with subsec := "" } h

/-- The order of two time stamps of propatch.cpp: the fields decide, then what `%S`
prints after the whole seconds. -/
theorem get_timestamp_lt (a b : LocalTime) (ha : InRange a) (hb : InRange b) :
    ReaptchSt.str_lt (get_timestamp a) (get_timestamp b) = true ↔
      earlier a b ∨ (a.year = b.year ∧ a.month = b.month ∧ a.day = b.day ∧ a.hour = b.hour ∧
        a.minute = b.minute ∧ a.second = b.second ∧
          ReaptchSt.str_lt a.subsec b.subsec = true) := by
  unfold ReaptchSt.str_lt
  rw [get_timestamp_data a ha, get_timestamp_data b hb]
  obtain ⟨_, a2, _, a4, _, a6, a7, a8, a9⟩ := ha
  obtain ⟨_, b2, _, b4, _, b6, b7, b8, b9⟩ := hb
  rw [lex_lt_digits 4 _ _ _ _ (by norm_num; omega) (by norm_num; omega),
    lex_lt_digits 2 _ _ _ _ (by norm_num; omega) (by norm_num; omega),
    lex_lt_digits 2 _ _ _ _ (by norm_num; omega) (by norm_num; omega),
    lex_lt_cons,
    lex_lt_digits 2 _ _ _ _ (by norm_num; omega) (by norm_num; omega),
    lex_lt_digits 2 _ _ _ _ (by norm_num; omega) (by norm_num; omega),
    lex_lt_digits 2 _ _ _ _ (by norm_num; omega) (by norm_num; omega)]
  unfold earlier
  simp only [Bool.or_eq_true, Bool.and_eq_true, decide_eq_true_eq, lt_self_iff_false,
    false_or, true_and]
  tauto

theorem st_get_timestamp_lt (a b : LocalTime) (ha : InRange a) (hb : InRange b) :
    ReaptchSt.str_lt (ReaptchSt.get_timestamp a) (ReaptchSt.get_timestamp b) = true ↔
      earlier a b := by
  unfold ReaptchSt.get_timestamp
  have ha1 : InRange { a with subsec := "" } := ha
  have hb1 : InRange { b with subsec := "" } := hb
  rw [get_timestamp_lt _ _ ha1 hb1]
  have e : ReaptchSt.str_lt "" "" = false := rfl
  have e1 : earlier { a with subsec := "" } { b with subsec := "" } ↔ earlier a b := Iff.rfl
  rw [e1]
  simp only [e]
  simp

theorem st_get_timestamp_length (t : LocalTime) (h : InRange t) :
    (ReaptchSt.get_timestamp t).length = 15 := by
  have e : (ReaptchSt.get_timestamp t).length = (ReaptchSt.get_timestamp t).data.length := rfl
  rw [e, st_get_timestamp_data t h]
  simp [digitsW_length]

theorem st_snapshot_name_lt (port : String) (a b : LocalTime) :
    ReaptchSt.str_lt (st_snapshot_name port a) (st_snapshot_name port b) =
      ReaptchSt.str_lt (ReaptchSt.get_timestamp a) (ReaptchSt.get_timestamp b) := by
  unfold ReaptchSt.str_lt st_snapshot_name
  simp only [String.data_append]
  rw [lex_lt_same_front]

/-- Sorting ascending and taking the last element gives an element none of the
others comes after. -/
theorem st_latest_backup_greatest (names : List String) (hne : names ≠ []) :
    ∃ x ∈ names, ReaptchSt.latest_backup names = some x ∧
      ∀ y ∈ names, ReaptchSt.str_lt x y = false := by
  let r : String → String → Prop := fun a b => ReaptchSt.str_lt b a = false
  haveI : IsTotal String r := ⟨by
    intro a b
    show ReaptchSt.str_lt b a = false ∨ ReaptchSt.str_lt a b = false
    cases h1 : ReaptchSt.str_lt b a with
    | false => exact Or.inl rfl
    | true =>
      right
      cases h2 : ReaptchSt.str_lt a b with
      | false => rfl
      | true =>
        have := lex_lt_trans _ _ _ h1 h2
        rw [lex_lt_irrefl] at this
        cases this⟩
  haveI : IsTrans String r := ⟨by
    intro a b c h1 h2
    exact lex_le_trans a.data b.data c.data h1 h2⟩
  have hs : (names.insertionSort r).Sorted r := List.sorted_insertionSort r names
  have hp : (names.insertionSort r).Perm names := List.perm_insertionSort r names
  have hne2 : names.insertionSort r ≠ [] := by
    intro h
    rw [h] at hp
    exact hne hp.symm.eq_nil
  obtain ⟨x, hx⟩ : ∃ x, (names.insertionSort r).getLast? = some x := by
    cases h : (names.insertionSort r).getLast? with
    | none => exact absurd (List.getLast?_eq_none_iff.mp h) hne2
    | some x => exact ⟨x, rfl⟩
  obtain ⟨ini, hini⟩ := List.getLast?_eq_some_iff.mp hx
  refine ⟨x, hp.subset (by rw [hini]; simp), hx, ?_⟩
  intro y hy
  have hy2 : y ∈ names.insertionSort r := hp.symm.subset hy
  rw [hini] at hy2 hs
  rcases List.mem_append.mp hy2 with h | h
  · have := (List.pairwise_append.mp hs).2.2 y h x (by simp)
    exact this
  · have e : y = x := by simpa using h
    subst e
    exact lex_lt_irrefl _

/-! ## The calls of create_directory_recursive -/

theorem cuts_after_nil (done : List Char) : cuts_after done [] = [] := rfl

theorem cuts_after_cons (done : List Char) (c : Char) (rest : List Char) :
    cuts_after done (c :: rest) =
      if c = '/' then String.mk done :: cuts_after (done ++ [c]) rest
      else cuts_after (done ++ [c]) rest := by
  unfold cuts_after
  rw [List.length_cons, List.range_succ_eq_map, List.filter_cons, List.filter_map]
  have e : (fun j => String.mk (done ++ List.take j (c :: rest))) ∘ Nat.succ =
      fun j => String.mk (done ++ [c] ++ List.take j rest) := by
    funext j
    simp
  have e2 : ((fun j => decide ((c :: rest)[j]? = some '/')) ∘ Nat.succ) =
      fun j => decide (rest[j]? = some '/') := by
    funext j
    simp
  rw [e2]
  by_cases hc : c = '/'
  · rw [if_pos hc, if_pos (by simp [hc]), List.map_cons, List.map_map, e]
    simp
  · rw [if_neg hc, if_neg (by simp [hc]), List.map_map, e]

open PatchC in
theorem cut_points_eq (path : String) :
    cut_points path =
      cuts_after (skip_leading_slash path.data).1 (skip_leading_slash path.data).2 ++ [path] := by
  unfold cut_points
  congr 1
  rcases path with ⟨data⟩
  simp only
  cases data with
  | nil => rfl
  | cons c cs =>
    by_cases hc : c = '/'
    · subst hc
      have hs : skip_leading_slash ('/' :: cs) = (['/'], cs) := rfl
      rw [hs]
      show _ = cuts_after ['/'] cs
      unfold cuts_after
      rw [List.length_cons, List.range_succ_eq_map, List.filter_cons, List.filter_map,
        if_neg (by simp), List.map_map]
      have e1 : ((fun i => decide (0 < i) && decide (('/' :: cs)[i]? = some '/')) ∘ Nat.succ) =
          fun j => decide (cs[j]? = some '/') := by
        funext j
        simp
      have e2 : ((fun i => String.mk (List.take i ('/' :: cs))) ∘ Nat.succ) =
          fun j => String.mk (['/'] ++ List.take j cs) := by
        funext j
        simp
      rw [e1, e2]
    · have hs : skip_leading_slash (c :: cs) = ([], c :: cs) := by
        unfold skip_leading_slash
        split
        · rename_i h
          cases h
          exact absurd rfl hc
        · rfl
      rw [hs]
      show _ = cuts_after [] (c :: cs)
      unfold cuts_after
      have e2 : (fun j => String.mk ([] ++ List.take j (c :: cs))) =
          fun i => String.mk (List.take i (c :: cs)) := by
        funext j
        simp
      rw [e2]
      congr 1
      apply List.filter_congr
      intro i _
      cases i with
      | zero => simp [hc]
      | succ j => simp

theorem mkdir_each_nil (fault : RelPath → Option PatchC.Errno) (st : PatchC.DirSt) :
    mkdir_each fault [] st = (true, st) := by
  rw [mkdir_each]

theorem mkdir_each_cons (fault : RelPath → Option PatchC.Errno) (p : String) (ps : List String)
    (st : PatchC.DirSt) :
    mkdir_each fault (p :: ps) st =
      if (PatchC.mkdir_step fault p st).1 then
        mkdir_each fault ps (PatchC.mkdir_step fault p st).2
      else (false, (PatchC.mkdir_step fault p st).2) := by
  rw [mkdir_each]

theorem mkdir_each_append (fault : RelPath → Option PatchC.Errno) (a b : List String) :
    ∀ st : PatchC.DirSt, mkdir_each fault (a ++ b) st =
      if (mkdir_each fault a st).1 then mkdir_each fault b (mkdir_each fault a st).2
      else (false, (mkdir_each fault a st).2) := by
  induction a with
  | nil =>
    intro st
    rw [List.nil_append, mkdir_each_nil]
    rfl
  | cons p ps ih =>
    intro st
    rw [List.cons_append, mkdir_each_cons, mkdir_each_cons]
    cases h : (PatchC.mkdir_step fault p st).1 with
    | false => rfl
    | true => exact ih _

open PatchC in
/-- The loop of `create_directory_recursive` calls `mkdir` on the text before every
`/` it passes. -/
theorem create_loop_eq (fault : RelPath → Option Errno) (rest : List Char) :
    ∀ (done : List Char) (st : DirSt),
      create_loop fault done rest st = mkdir_each fault (cuts_after done rest) st := by
  induction rest with
  | nil =>
    intro done st
    rw [cuts_after_nil, mkdir_each_nil]
    rfl
  | cons c rest ih =>
    intro done st
    rw [cuts_after_cons]
    unfold create_loop
    by_cases hc : c = '/'
    · rw [if_pos hc, if_pos hc, mkdir_each_cons]
      rcases hm : mkdir_step fault (String.mk done) st with ⟨b1, s1⟩
      cases b1 with
      | false => rfl
      | true => exact ih _ _
    · rw [if_neg hc, if_neg hc]
      exact ih _ _

open PatchC in
/-- `create_directory_recursive` calls `mkdir` on the cut points of the path in
order, up to the first call that fails with an error other than `EEXIST`. -/
theorem create_directory_recursive_eq (fault : RelPath → Option Errno) (path : String)
    (st : DirSt) :
    create_directory_recursive fault path st =
      (if (mkdir_each fault (cut_points path) st).1 then 0 else -1,
        (mkdir_each fault (cut_points path) st).2) := by
  unfold create_directory_recursive
  simp only
  rw [cut_points_eq, mkdir_each_append, create_loop_eq]
  rcases hm : mkdir_each fault (cuts_after (skip_leading_slash path.data).1
    (skip_leading_slash path.data).2) st with ⟨b1, s1⟩
  cases b1 with
  | false => rfl
  | true =>
    simp only
    rw [mkdir_each_cons, mkdir_each_nil]
    rcases hm2 : mkdir_step fault path s1 with ⟨b2, s2⟩
    cases b2 with
    | false => rfl
    | true => rfl

theorem mkdir_each_keeps (fault : RelPath → Option PatchC.Errno) (ps : List String) :
    ∀ st : PatchC.DirSt, Keeps st.tree (mkdir_each fault ps st).2.tree ∧
      Grown st.tree (mkdir_each fault ps st).2.tree := by
  induction ps with
  | nil =>
    intro st
    rw [mkdir_each_nil]
    exact ⟨keeps_refl _, grown_refl _⟩
  | cons p ps ih =>
    intro st
    rw [mkdir_each_cons]
    obtain ⟨-, m2, -⟩ := mkdir_step_true fault p st
    have hk : Keeps st.tree (PatchC.mkdir_step fault p st).2.tree := by
      rw [m2]
      exact mkdir_keeps _ _ _
    have hg : Grown st.tree (PatchC.mkdir_step fault p st).2.tree := by
      rw [m2]
      exact mkdir_grown _ _ _
    cases hb1 : (PatchC.mkdir_step fault p st).1 with
    | false => exact ⟨hk, hg⟩
    | true =>
      exact ⟨keeps_trans _ _ _ hk (ih _).1, grown_trans _ _ _ hg (ih _).2⟩

open PatchC in
/-- After an accepted `mkdir`, when the system reports `EEXIST` only for what exists:
the path is a directory, or it leads to a regular file that was there before the
call, and nothing changed. -/
theorem mkdir_accepted_entry (fault : RelPath → Option Errno) (path : String) (t : Tree)
    (hf : ∀ q, fault q ≠ some Errno.EEXIST) (ha : Accepted (mkdir fault path t).1) :
    directory_exists path (mkdir fault path t).2 = true ∨
      ∃ q b, target t path = Except.ok (some q) ∧
        ("." ∉ path_names path → ".." ∉ path_names path → q = path_names path) ∧
        Tree.get? t q = some (Obj.file b) ∧ (mkdir fault path t).2 = t := by
  rcases mkdir_cases fault path t with ⟨-, hm⟩ | ⟨-, e, hfe, hm⟩ |
    ⟨hp, -, ⟨e, hte, hm⟩ | ⟨ht, hm⟩ | ⟨q, x, ht, hg, hm⟩ | ⟨q, ht, hg, hm⟩⟩
  · rw [hm] at ha
    rcases ha with ha | ha <;> cases ha
  · rw [hm] at ha
    rcases ha with ha | ha
    · cases ha
    · simp only at ha
      rw [ha] at hfe
      exact absurd hfe (hf _)
  · rw [hm] at ha
    rcases ha with ha | ha
    · cases ha
    · simp only at ha
      cases ha
      exact absurd hte (target_ne_eexist _ _)
  · left
    rw [hm]
    unfold directory_exists
    rw [if_neg hp, ht]
  · rw [hm]
    cases x with
    | dir =>
      left
      unfold directory_exists
      rw [if_neg hp, ht]
      simp [hg]
    | file b =>
      right
      refine ⟨q, b, ht, ?_, hg, rfl⟩
      intro n1 n2
      rcases target_cases t path with ⟨-, h0⟩ | ⟨last, hl, ⟨e, hr, h1⟩ | ⟨cur, hr, ⟨-, h1⟩ |
        ⟨-, -, h1⟩⟩⟩
      · rw [h0] at ht
        cases ht
      · rw [h1] at ht
        cases ht
      · rw [h1] at ht
        cases ht
      · rw [h1] at ht
        cases ht
        have hn : path_names path = (path_names path).dropLast ++ [last] :=
          (List.dropLast_append_getLast? last hl).symm
        have hc := resolve_plain t _ [] cur
          (fun h => n1 (List.mem_of_mem_dropLast h)) (fun h => n2 (List.mem_of_mem_dropLast h)) hr
        rw [hc, List.nil_append]
        exact hn.symm
  · left
    rw [hm]
    unfold directory_exists
    rw [if_neg hp, target_keeps _ _ (keeps_append t _) path _ ht]
    simp [get?_append_new t q Obj.dir hg]

open PatchC in
/-- When `create_directory_recursive` returns 0 and the system reports `EEXIST` only
for what exists, the path is a directory afterwards, unless it leads to a regular
file that was there before the call; then it still does. -/
theorem create_directory_recursive_entry (fault : RelPath → Option Errno) (path : String)
    (st : DirSt) (hf : ∀ q, fault q ≠ some Errno.EEXIST)
    (h : (create_directory_recursive fault path st).1 = 0) :
    directory_exists path (create_directory_recursive fault path st).2.tree = true ∨
      ∃ q b, target (create_directory_recursive fault path st).2.tree path =
          Except.ok (some q) ∧
        ("." ∉ path_names path → ".." ∉ path_names path → q = path_names path) ∧
        Tree.get? st.tree q = some (Obj.file b) ∧
        Tree.get? (create_directory_recursive fault path st).2.tree q = some (Obj.file b) := by
  rw [create_directory_recursive_eq] at h ⊢
  simp only at h ⊢
  rw [cut_points_eq, mkdir_each_append] at h ⊢
  cases hb : (mkdir_each fault (cuts_after (skip_leading_slash path.data).1
      (skip_leading_slash path.data).2) st).1 with
  | false =>
    rw [hb] at h
    simp at h
  | true =>
    rw [hb] at h
    simp only [if_true] at h ⊢
    rw [mkdir_each_cons, mkdir_each_nil] at h ⊢
    obtain ⟨m1, m2, -⟩ := mkdir_step_true fault path (mkdir_each fault
      (cuts_after (skip_leading_slash path.data).1 (skip_leading_slash path.data).2) st).2
    cases hb2 : (mkdir_step fault path (mkdir_each fault
        (cuts_after (skip_leading_slash path.data).1 (skip_leading_slash path.data).2) st).2).1 with
    | false =>
      rw [hb2] at h
      simp at h
    | true =>
      rw [hb2] at m1
      simp only [if_true]
      rw [m2]
      have hg := (mkdir_each_keeps fault (cuts_after (skip_leading_slash path.data).1
        (skip_leading_slash path.data).2) st).2
      rcases mkdir_accepted_entry fault path _ hf (m1.1 rfl) with hd | ⟨q, b, h1, h2, h3, h4⟩
      · exact Or.inl hd
      · right
        rw [h4]
        refine ⟨q, b, h1, h2, ?_, h3⟩
        rcases hg q _ h3 with h5 | h5
        · exact h5
        · cases h5

/-! ## The workflow -/

/-- C1: when the port directory `{ports_dir}/x11/{port_name}` or the patch file does
not exist, `run` returns a failure and has executed no external command: the
recording of the run is empty. -/
theorem C1_missing_prerequisite_runs_nothing (cfg : Config) (w : World) (lg : Logger)
    (backups : List Entry) (work : Tree)
    (h : w.fs_exists (port_dir cfg) = false ∨ w.fs_exists cfg.patch_file = false) :
    (∃ e, (run cfg w (St.init lg backups work)).1 = Except.error e) ∧
      (run cfg w (St.init lg backups work)).2.trace = [] := by
  have hR : ¬ Ready cfg w := by
    intro hr
    rcases h with h | h
    · rw [hr.1] at h; cases h
    · rw [hr.2.1] at h; cases h
  rcases run_cases cfg w lg backups work with c | c | c | c | c | c | c | c
  · exact ⟨c.2.1, c.2.2.1⟩
  all_goals exact absurd c.1 hR

/-- C1 at a world in which neither the port directory nor the patch file exists. -/
theorem C1_missing_prerequisite_runs_nothing_witness :
    (emptyWorld.fs_exists (port_dir demoCfg) = false ∨
        emptyWorld.fs_exists demoCfg.patch_file = false) ∧
      (∃ e, (run demoCfg emptyWorld (St.init demoLogger [] [])).1 = Except.error e) ∧
      (run demoCfg emptyWorld (St.init demoLogger [] [])).2.trace = [] :=
  ⟨Or.inl rfl, C1_missing_prerequisite_runs_nothing demoCfg emptyWorld demoLogger [] []
    (Or.inl rfl)⟩

/-- C2: in every run, a patch command in the recording comes after a snapshot copy of
the resolved source directory into the backup root that reported no error, and it
is the patch command for that same directory; and when the extract command, the
`WRKSRC` query or the copy fails, no patch command is executed. -/
theorem C2_patch_only_after_snapshot (cfg : Config) (w : World) (lg : Logger)
    (backups : List Entry) (work : Tree) :
    (∀ pre post cmd res,
        (run cfg w (St.init lg backups work)).2.trace = pre ++ Event.exec Step.patch cmd res :: post →
        Event.snapshot (source_dir cfg w) (entry_path cfg (snapshot_name cfg w.clock)) none ∈ pre ∧
          cmd = "cd " ++ source_dir cfg w ++ " && patch -p1 < " ++ cfg.patch_file) ∧
      ((w.ok Step.extract = false ∨ w.ok Step.query = false ∨
          ∃ src dst msg, Event.snapshot src dst (some msg) ∈
            (run cfg w (St.init lg backups work)).2.trace) →
        ∀ cmd res, Event.exec Step.patch cmd res ∉ (run cfg w (St.init lg backups work)).2.trace) := by
  rcases run_cases cfg w lg backups work with c | c | c | c | c | c | c | c
  · obtain ⟨-, -, ht, -⟩ := c
    rw [ht]
    refine ⟨?_, ?_⟩
    · intro pre post cmd res h
      rcases pre with _ | ⟨a, pre⟩ <;> simp at h
    · simp
  · obtain ⟨-, -, -, ht, -⟩ := c
    rw [ht]
    refine ⟨?_, ?_⟩
    · intro pre post cmd res h
      rcases pre with _ | ⟨p0, _ | ⟨p1, pre⟩⟩ <;> simp [ev_extract] at h
    · simp [ev_extract]
  · obtain ⟨-, -, -, -, ht, -⟩ := c
    rw [ht]
    refine ⟨?_, ?_⟩
    · intro pre post cmd res h
      rcases pre with _ | ⟨p0, _ | ⟨p1, _ | ⟨p2, pre⟩⟩⟩ <;> simp [ev_extract, ev_query] at h
    · simp [ev_extract, ev_query]
  · obtain ⟨-, -, -, ⟨msg, -, -, ht⟩, -⟩ := c
    rw [ht]
    refine ⟨?_, ?_⟩
    · intro pre post cmd res h
      rcases pre with _ | ⟨p0, _ | ⟨p1, _ | ⟨p2, _ | ⟨p3, pre⟩⟩⟩⟩ <;>
        simp [ev_extract, ev_query, ev_snapshot] at h
    · simp [ev_extract, ev_query, ev_snapshot]
  · obtain ⟨-, -, -, -, -, -, ht, -⟩ := c
    rw [ht]
    refine ⟨?_, ?_⟩
    · intro pre post cmd res h
      rcases pre with _ | ⟨p0, _ | ⟨p1, _ | ⟨p2, _ | ⟨p3, pre⟩⟩⟩⟩ <;>
        simp [ev_extract, ev_query, ev_snapshot] at h
    · simp [ev_extract, ev_query, ev_snapshot]
  · obtain ⟨-, h1, h2, -, -, -, ⟨err, -, -, ht⟩, -⟩ := c
    rw [ht]
    refine ⟨?_, ?_⟩
    · intro pre post cmd res h
      rcases pre with _ | ⟨p0, _ | ⟨p1, _ | ⟨p2, _ | ⟨p3, _ | ⟨p4, _ | ⟨p5, pre⟩⟩⟩⟩⟩⟩ <;>
        simp [ev_extract, ev_query, ev_snapshot, ev_patch] at h
      obtain ⟨rfl, rfl, rfl, hcmd, -⟩ := h
      exact ⟨by simp [ev_snapshot], hcmd.1.symm⟩
    · simp [ev_extract, ev_query, ev_snapshot, ev_patch, h1, h2]
  · obtain ⟨-, h1, h2, -, -, -, -, -, ht, -⟩ := c
    rw [ht]
    refine ⟨?_, ?_⟩
    · intro pre post cmd res h
      rcases pre with _ | ⟨p0, _ | ⟨p1, _ | ⟨p2, _ | ⟨p3, _ | ⟨p4, _ | ⟨p5, pre⟩⟩⟩⟩⟩⟩ <;>
        simp [ev_extract, ev_query, ev_snapshot, ev_patch, ev_rebuild] at h
      obtain ⟨rfl, rfl, rfl, hcmd, -⟩ := h
      exact ⟨by simp [ev_snapshot], hcmd.1.symm⟩
    · simp [ev_extract, ev_query, ev_snapshot, ev_patch, ev_rebuild, h1, h2]
  · obtain ⟨-, h1, h2, -, -, -, -, -, ht, -⟩ := c
    rw [ht]
    refine ⟨?_, ?_⟩
    · intro pre post cmd res h
      rcases pre with _ | ⟨p0, _ | ⟨p1, _ | ⟨p2, _ | ⟨p3, _ | ⟨p4, _ | ⟨p5, pre⟩⟩⟩⟩⟩⟩ <;>
        simp [ev_extract, ev_query, ev_snapshot, ev_patch, ev_rebuild] at h
      obtain ⟨rfl, rfl, rfl, hcmd, -⟩ := h
      exact ⟨by simp [ev_snapshot], hcmd.1.symm⟩
    · simp [ev_extract, ev_query, ev_snapshot, ev_patch, ev_rebuild, h1, h2]

/-- C2 at a run in which every command succeeds: the patch command comes fourth,
after the snapshot. -/
theorem C2_patch_only_after_snapshot_witness :
    (run demoCfg demoWorld (St.init demoLogger [] [])).2.trace =
        [ev_extract demoCfg demoWorld, ev_query demoCfg demoWorld,
          ev_snapshot demoCfg demoWorld none] ++
        Event.exec Step.patch
          "cd /usr/ports/x11/demo/work/demo-1.0 && patch -p1 < /tmp/fix.diff"
          (some { status := 0, output := "" }) :: [ev_rebuild demoCfg demoWorld] ∧
      Event.snapshot (source_dir demoCfg demoWorld)
          (entry_path demoCfg (snapshot_name demoCfg demoWorld.clock)) none ∈
        [ev_extract demoCfg demoWorld, ev_query demoCfg demoWorld,
          ev_snapshot demoCfg demoWorld none] :=
  ⟨rfl, ((C2_patch_only_after_snapshot demoCfg demoWorld demoLogger [] []).1
    [ev_extract demoCfg demoWorld, ev_query demoCfg demoWorld, ev_snapshot demoCfg demoWorld none]
    [ev_rebuild demoCfg demoWorld]
    "cd /usr/ports/x11/demo/work/demo-1.0 && patch -p1 < /tmp/fix.diff"
    (some { status := 0, output := "" }) rfl).1⟩

/-- C3: a run in simulation mode executes neither the patch command nor the rebuild
command and never restores: its recording is a prefix of extract, `WRKSRC` query,
snapshot copy; and every entry of the backup root other than the snapshot of
`backup_original` is left as it was. -/
theorem C3_dry_run_only_snapshots (cfg : Config) (w : World) (lg : Logger)
    (backups : List Entry) (work : Tree) (hd : cfg.dry_run = true) :
    (run cfg w (St.init lg backups work)).2.trace <+:
        [ev_extract cfg w, ev_query cfg w, ev_snapshot cfg w (run_copy cfg w backups work).1] ∧
      (∀ e ∈ (run cfg w (St.init lg backups work)).2.trace,
        Event.isExec Step.patch e = false ∧ Event.isExec Step.rebuild e = false ∧
          Event.isRestore e = false) ∧
      (run cfg w (St.init lg backups work)).2.backups.filter
          (fun x => decide (x.name ≠ snapshot_name cfg w.clock)) =
        backups.filter (fun x => decide (x.name ≠ snapshot_name cfg w.clock)) := by
  have hothers := snapshot_copy_others w (snapshot_name cfg w.clock) (work_at_snapshot w work)
    backups
  rcases run_cases cfg w lg backups work with c | c | c | c | c | c | c | c
  · obtain ⟨-, -, ht, hb⟩ := c
    rw [ht, hb]
    exact ⟨⟨_, rfl⟩, by simp, rfl⟩
  · obtain ⟨-, -, -, ht, hb⟩ := c
    rw [ht, hb]
    exact ⟨⟨_, rfl⟩, by simp [ev_extract, Event.isExec, Event.isRestore], rfl⟩
  · obtain ⟨-, -, -, -, ht, hb⟩ := c
    rw [ht, hb]
    exact ⟨⟨_, rfl⟩, by simp [ev_extract, ev_query, Event.isExec, Event.isRestore], rfl⟩
  · obtain ⟨-, -, -, ⟨msg, hc, -, ht⟩, hb⟩ := c
    rw [ht, hb, hc]
    exact ⟨⟨[], rfl⟩,
      by simp [ev_extract, ev_query, ev_snapshot, Event.isExec, Event.isRestore], hothers⟩
  · obtain ⟨-, -, -, hc, -, -, ht, hb⟩ := c
    rw [ht, hb, hc]
    exact ⟨⟨[], rfl⟩,
      by simp [ev_extract, ev_query, ev_snapshot, Event.isExec, Event.isRestore], hothers⟩
  · rw [hd] at c
    exact absurd c.2.2.2.2.1 (by simp)
  · rw [hd] at c
    exact absurd c.2.2.2.2.1 (by simp)
  · rw [hd] at c
    exact absurd c.2.2.2.2.1 (by simp)

/-- C3 at the simulation of a run in which every command would succeed. -/
theorem C3_dry_run_only_snapshots_witness :
    ({ demoCfg with dry_run := true } : Config).dry_run = true ∧
      (run { demoCfg with dry_run := true } demoWorld (St.init demoLogger [] [])).2.trace <+:
        [ev_extract { demoCfg with dry_run := true } demoWorld,
          ev_query { demoCfg with dry_run := true } demoWorld,
          ev_snapshot { demoCfg with dry_run := true } demoWorld
            (run_copy { demoCfg with dry_run := true } demoWorld [] []).1] :=
  ⟨rfl, (C3_dry_run_only_snapshots { demoCfg with dry_run := true } demoWorld demoLogger [] []
    rfl).1⟩

/-- C4: in a run that is not a simulation and reaches the patch step,
`restore_from_backup` is called exactly once, on the resolved source directory,
when the patch command cannot be spawned or exits non-zero; it is not called when
the patch command exits with status 0, whatever the rebuild does. -/
theorem C4_restore_exactly_once (cfg : Config) (w : World) (lg : Logger)
    (backups : List Entry) (work : Tree) (hd : cfg.dry_run = false)
    (hreach : ∃ cmd res,
      Event.exec Step.patch cmd res ∈ (run cfg w (St.init lg backups work)).2.trace) :
    (w.ok Step.patch = false → ∃ err,
        (run cfg w (St.init lg backups work)).2.trace.filter Event.isRestore =
          [Event.restore (source_dir cfg w) err]) ∧
      (w.ok Step.patch = true →
        (run cfg w (St.init lg backups work)).2.trace.filter Event.isRestore = []) := by
  obtain ⟨cmd, res, hmem⟩ := hreach
  rcases run_cases cfg w lg backups work with c | c | c | c | c | c | c | c
  · rw [c.2.2.1] at hmem
    simp at hmem
  · rw [c.2.2.2.1] at hmem
    simp [ev_extract] at hmem
  · rw [c.2.2.2.2.1] at hmem
    simp [ev_extract, ev_query] at hmem
  · obtain ⟨-, -, -, ⟨msg, -, -, ht⟩, -⟩ := c
    rw [ht] at hmem
    simp [ev_extract, ev_query, ev_snapshot] at hmem
  · rw [hd] at c
    exact absurd c.2.2.2.2.1 (by simp)
  · obtain ⟨-, -, -, -, -, hp, ⟨err, -, -, ht⟩, -⟩ := c
    rw [ht, hp]
    refine ⟨fun _ => ⟨err, ?_⟩, fun h => by cases h⟩
    simp [ev_extract, ev_query, ev_snapshot, ev_patch, List.filter_cons, Event.isRestore]
  · obtain ⟨-, -, -, -, -, hp, -, -, ht, -⟩ := c
    rw [ht, hp]
    refine ⟨fun h => (by cases h), fun _ => ?_⟩
    simp [ev_extract, ev_query, ev_snapshot, ev_patch, ev_rebuild, List.filter_cons,
      Event.isRestore]
  · obtain ⟨-, -, -, -, -, hp, -, -, ht, -⟩ := c
    rw [ht, hp]
    refine ⟨fun h => (by cases h), fun _ => ?_⟩
    simp [ev_extract, ev_query, ev_snapshot, ev_patch, ev_rebuild, List.filter_cons,
      Event.isRestore]

/-- C4 at a run whose patch command exits non-zero. -/
theorem C4_restore_exactly_once_witness :
    demoCfg.dry_run = false ∧
      (badPatchWorld.ok Step.patch = false → ∃ err,
        (run demoCfg badPatchWorld (St.init demoLogger [] [])).2.trace.filter Event.isRestore =
          [Event.restore (source_dir demoCfg badPatchWorld) err]) :=
  ⟨rfl, (C4_restore_exactly_once demoCfg badPatchWorld demoLogger [] [] rfl
    ⟨"cd /usr/ports/x11/demo/work/demo-1.0 && patch -p1 < /tmp/fix.diff",
      some { status := 256, output := "1 out of 1 hunk FAILED" }, by decide⟩).1⟩

/-- C5: a run that is not a simulation and whose patch command fails (it exits
non-zero or cannot be spawned) never returns success. Its one restore decides the
error: when the restore went through, the error is the patch-application failure;
when the restore threw (no backup found, or a copy step failed), the error carries
the restore's message, which differs from the patch-application failure. -/
theorem C5_patch_failure_reported (cfg : Config) (w : World) (lg : Logger)
    (backups : List Entry) (work : Tree) (hd : cfg.dry_run = false)
    (hreach : ∃ cmd res,
      Event.exec Step.patch cmd res ∈ (run cfg w (St.init lg backups work)).2.trace)
    (hp : w.ok Step.patch = false) :
    (∃ e, (run cfg w (St.init lg backups work)).1 = Except.error e) ∧
      ∃ err, (run cfg w (St.init lg backups work)).2.trace.filter Event.isRestore =
          [Event.restore (source_dir cfg w) err] ∧
        (err = none → (run cfg w (St.init lg backups work)).1 = Except.error patch_failure) ∧
        (∀ m, err = some m →
          (run cfg w (St.init lg backups work)).1 = Except.error ("Operation failed: " ++ m) ∧
          (m = "No backup found to restore from" ∨
            ∃ d, m = "Restore failed during copy: " ++ d) ∧
          "Operation failed: " ++ m ≠ patch_failure) := by
  obtain ⟨cmd, res, hmem⟩ := hreach
  rcases run_cases cfg w lg backups work with c | c | c | c | c | c | c | c
  · rw [c.2.2.1] at hmem
    simp at hmem
  · rw [c.2.2.2.1] at hmem
    simp [ev_extract] at hmem
  · rw [c.2.2.2.2.1] at hmem
    simp [ev_extract, ev_query] at hmem
  · obtain ⟨-, -, -, ⟨msg, -, -, ht⟩, -⟩ := c
    rw [ht] at hmem
    simp [ev_extract, ev_query, ev_snapshot] at hmem
  · rw [hd] at c
    exact absurd c.2.2.2.2.1 (by simp)
  · obtain ⟨-, -, -, -, -, -, ⟨err, he, hm, ht⟩, -⟩ := c
    refine ⟨⟨_, he⟩, err, ?_, ?_, ?_⟩
    · rw [ht]
      simp [ev_extract, ev_query, ev_snapshot, ev_patch, List.filter_cons, Event.isRestore]
    · intro hnone
      rw [he, hnone]
      rfl
    · intro m hsome
      rw [he, hsome]
      exact ⟨rfl, hm m hsome, restore_error_ne_patch_failure m (hm m hsome)⟩
  · rw [hp] at c
    exact absurd c.2.2.2.2.2.1 (by simp)
  · rw [hp] at c
    exact absurd c.2.2.2.2.2.1 (by simp)

/-- C5 at a run whose patch command exits non-zero. -/
theorem C5_patch_failure_reported_witness :
    demoCfg.dry_run = false ∧ badPatchWorld.ok Step.patch = false ∧
      ∃ e, (run demoCfg badPatchWorld (St.init demoLogger [] [])).1 = Except.error e :=
  ⟨rfl, rfl, (C5_patch_failure_reported demoCfg badPatchWorld demoLogger [] [] rfl
    ⟨"cd /usr/ports/x11/demo/work/demo-1.0 && patch -p1 < /tmp/fix.diff",
      some { status := 256, output := "1 out of 1 hunk FAILED" }, by decide⟩ rfl).1⟩

/-- C6: `run` returns success exactly when the port directory and the patch file
exist, the backup root is created, the extract command and the `WRKSRC` query are
spawned and exit 0, the snapshot copy reports no error, and either the job is a
simulation or the patch command and the rebuild command are both spawned and exit
0. In particular, outside simulation mode a rebuild that fails makes the run
fail. -/
theorem C6_success_iff (cfg : Config) (w : World) (lg : Logger)
    (backups : List Entry) (work : Tree) :
    ((run cfg w (St.init lg backups work)).1 = Except.ok () ↔
        w.fs_exists (port_dir cfg) = true ∧ w.fs_exists cfg.patch_file = true ∧
        w.mkdir_error = none ∧ w.ok Step.extract = true ∧ w.ok Step.query = true ∧
        (run_copy cfg w backups work).1 = none ∧
        (cfg.dry_run = true ∨ (w.ok Step.patch = true ∧ w.ok Step.rebuild = true))) ∧
      (cfg.dry_run = false → w.ok Step.rebuild = false →
        ∃ e, (run cfg w (St.init lg backups work)).1 = Except.error e) := by
  rcases run_cases cfg w lg backups work with c | c | c | c | c | c | c | c
  · obtain ⟨hR, ⟨e, he⟩, -, -⟩ := c
    rw [he]
    refine ⟨⟨fun h => (by cases h), fun h => absurd ⟨h.1, h.2.1, h.2.2.1⟩ hR⟩, fun _ _ => ⟨e, rfl⟩⟩
  · obtain ⟨-, hx, ⟨e, he⟩, -, -⟩ := c
    rw [he, hx]
    exact ⟨⟨fun h => (by cases h), fun h => (by simp at h)⟩, fun _ _ => ⟨e, rfl⟩⟩
  · obtain ⟨-, -, hx, ⟨e, he⟩, -, -⟩ := c
    rw [he, hx]
    exact ⟨⟨fun h => (by cases h), fun h => (by simp at h)⟩, fun _ _ => ⟨e, rfl⟩⟩
  · obtain ⟨-, -, -, ⟨msg, hc, he, -⟩, -⟩ := c
    rw [he, hc]
    exact ⟨⟨fun h => (by cases h), fun h => (by simp at h)⟩, fun _ _ => ⟨_, rfl⟩⟩
  · obtain ⟨hR, h1, h2, hc, hd, he, -, -⟩ := c
    rw [he]
    exact ⟨⟨fun _ => ⟨hR.1, hR.2.1, hR.2.2, h1, h2, hc, Or.inl hd⟩, fun _ => rfl⟩,
      fun h => by rw [hd] at h; cases h⟩
  · obtain ⟨-, -, -, -, hd, hp, ⟨err, he, -, -⟩, -⟩ := c
    rw [he, hd, hp]
    exact ⟨⟨fun h => (by cases h), fun h => (by simp at h)⟩, fun _ _ => ⟨_, rfl⟩⟩
  · obtain ⟨-, -, -, -, hd, -, hq, he, -, -⟩ := c
    rw [he, hd, hq]
    exact ⟨⟨fun h => (by cases h), fun h => (by simp at h)⟩, fun _ _ => ⟨_, rfl⟩⟩
  · obtain ⟨hR, h1, h2, hc, hd, hp, hq, he, -, -⟩ := c
    rw [he]
    exact ⟨⟨fun _ => ⟨hR.1, hR.2.1, hR.2.2, h1, h2, hc, Or.inr ⟨hp, hq⟩⟩, fun _ => rfl⟩,
      fun _ h => by rw [hq] at h; cases h⟩

/-! ## The backup that is restored -/

/-- C7 fails in the code: the backup root of the port `st` holds two snapshots of
`st` and a later snapshot of the port `xst`; `restore_from_backup` restores from the
snapshot of `xst`, which is not a snapshot of `st`, and the target ends up with the
sources of `xst`. What holds for every backup root with a snapshot of the port: the
backup restored from is an entry of the root that is at least as new as every
snapshot of the port, and it is a snapshot of the port whenever the filter of
`restore_from_backup` lets only snapshots of the port through. -/
theorem C7_newest_match_of_another_port :
    startsWith stOldEntry.name (stCfg.port_name ++ "-original-") = true ∧
      startsWith stEntry.name (stCfg.port_name ++ "-original-") = true ∧
      startsWith xstEntry.name (stCfg.port_name ++ "-original-") = false ∧
      latest_backup stCfg [stOldEntry, stEntry, xstEntry] = some xstEntry ∧
      (restore_from_backup stCfg demoWorld "/usr/ports/x11/st/work/st-0.9"
        (St.init demoLogger [stOldEntry, stEntry, xstEntry] [(["st.c"], Obj.file [9])])).1 =
        Except.ok () ∧
      (restore_from_backup stCfg demoWorld "/usr/ports/x11/st/work/st-0.9"
        (St.init demoLogger [stOldEntry, stEntry, xstEntry] [(["st.c"], Obj.file [9])])).2.work =
        [(["xst.c"], Obj.file [2])] ∧
      ∀ (cfg : Config) (backups : List Entry),
        (∃ x ∈ backups, startsWith x.name (cfg.port_name ++ "-original-") = true) →
        ∃ e, latest_backup cfg backups = some e ∧ e ∈ backups ∧
          (∀ x ∈ backups, startsWith x.name (cfg.port_name ++ "-original-") = true →
            x.mtime ≤ e.mtime) ∧
          ((∀ x ∈ backups, contains (entry_path cfg x.name) (cfg.port_name ++ "-original-") = true →
              startsWith x.name (cfg.port_name ++ "-original-") = true) →
            startsWith e.name (cfg.port_name ++ "-original-") = true) := by
  refine ⟨by decide, by decide, by decide, by decide, rfl, by decide, ?_⟩
  intro cfg backups hex
  obtain ⟨x0, hx0, hp0⟩ := hex
  have hne : matching_backups cfg backups ≠ [] :=
    List.ne_nil_of_mem (matching_of_startsWith cfg backups x0 hx0 hp0)
  obtain ⟨e, he, hmem, hmax⟩ := latest_backup_spec cfg backups hne
  have hin := List.mem_filter.1 hmem
  refine ⟨e, he, hin.1, ?_, ?_⟩
  · intro x hx hp
    exact hmax x (matching_of_startsWith cfg backups x hx hp)
  · intro hall
    exact hall e hin.1 hin.2

/-- C8: the filter of `restore_from_backup` tests whether the path text of an entry
contains `{port_name}-original-`. For the port `st`, a later snapshot of the port
`xst` passes the filter and is the backup restored from, though its name does not
begin with `st-original-`; and under a backup root `/var/st-original-store` a
snapshot of `vim` passes the filter through the path of the root. -/
theorem C8_filter_accepts_other_ports :
    latest_backup stCfg [stEntry, xstEntry] = some xstEntry ∧
      startsWith xstEntry.name (stCfg.port_name ++ "-original-") = false ∧
      latest_backup stRootCfg [stEntry, vimEntry] = some vimEntry ∧
      startsWith vimEntry.name (stRootCfg.port_name ++ "-original-") = false := by
  decide

/-! ## Two snapshots -/

/-- C9 as stated fails: `get_timestamp` formats the clock reading, so two snapshot
operations that get the same reading name the same backup path. Here the second
`backup_original` reads the clock as the first did: both name
`/b/demo-original-20240309-070500.123456789`, the second copy fails on the files
already there, and the backup root lists one snapshot. -/
theorem C9_same_reading_same_path :
    ¬ (entry_path demoCfg (snapshot_name demoCfg tickWorld.clock) ≠
          entry_path demoCfg (snapshot_name demoCfg sameReadingWorld.clock) ∧
        (∃ e ∈ (backup_original demoCfg sameReadingWorld
            (backup_original demoCfg tickWorld (St.init demoLogger [] [])).2).2.backups,
          entry_path demoCfg e.name = entry_path demoCfg (snapshot_name demoCfg tickWorld.clock)) ∧
        (∃ e ∈ (backup_original demoCfg sameReadingWorld
            (backup_original demoCfg tickWorld (St.init demoLogger [] [])).2).2.backups,
          entry_path demoCfg e.name =
            entry_path demoCfg (snapshot_name demoCfg sameReadingWorld.clock)) ∧
        ∃ e, latest_backup demoCfg (backup_original demoCfg sameReadingWorld
            (backup_original demoCfg tickWorld (St.init demoLogger [] [])).2).2.backups = some e ∧
          entry_path demoCfg e.name =
            entry_path demoCfg (snapshot_name demoCfg sameReadingWorld.clock)) ∧
      snapshot_name demoCfg tickWorld.clock = "demo-original-20240309-070500.123456789" ∧
      (backup_original demoCfg tickWorld (St.init demoLogger [] [])).1 =
        Except.ok "work/demo-1.0" ∧
      (backup_original demoCfg sameReadingWorld
        (backup_original demoCfg tickWorld (St.init demoLogger [] [])).2).1 =
        Except.error "backup failed: File exists" ∧
      (backup_original demoCfg sameReadingWorld
        (backup_original demoCfg tickWorld (St.init demoLogger [] [])).2).2.backups =
        [tickEntry] :=
  ⟨fun h => h.1 rfl, by decide, rfl, rfl, by decide⟩

/-- C9, amended: two sequential snapshot operations (`backup_original`, the second
on the state the first left) that both succeed and whose time stamps differ name
two distinct backup paths, and both are listed in the backup root afterwards. The
latest-backup selection returns the second one when its name was not in the
backup root before and the file clock at the second snapshot is later than the
last-modification time of every entry already there. -/
theorem C9_two_snapshots (cfg : Config) (w1 w2 : World) (st : St) (r1 r2 : String)
    (hts : get_timestamp w1.clock ≠ get_timestamp w2.clock)
    (h1 : (backup_original cfg w1 st).1 = Except.ok r1)
    (h2 : (backup_original cfg w2 (backup_original cfg w1 st).2).1 = Except.ok r2) :
    entry_path cfg (snapshot_name cfg w1.clock) ≠ entry_path cfg (snapshot_name cfg w2.clock) ∧
      (∃ e ∈ (backup_original cfg w2 (backup_original cfg w1 st).2).2.backups,
        entry_path cfg e.name = entry_path cfg (snapshot_name cfg w1.clock)) ∧
      (∃ e ∈ (backup_original cfg w2 (backup_original cfg w1 st).2).2.backups,
        entry_path cfg e.name = entry_path cfg (snapshot_name cfg w2.clock)) ∧
      ((∀ x ∈ st.backups, x.name ≠ snapshot_name cfg w2.clock) →
        (∀ x ∈ (backup_original cfg w1 st).2.backups, x.mtime < w2.file_time) →
        ∃ e, latest_backup cfg (backup_original cfg w2 (backup_original cfg w1 st).2).2.backups =
            some e ∧
          entry_path cfg e.name = entry_path cfg (snapshot_name cfg w2.clock)) := by
  have hne := snapshot_name_ne cfg w1.clock w2.clock hts
  obtain ⟨hc1, hb1⟩ := backup_original_ok cfg w1 st r1 h1
  obtain ⟨hc2, hb2⟩ := backup_original_ok cfg w2 _ r2 h2
  generalize (backup_original cfg w1 st).2 = s1 at hb1 hb2 hc2 ⊢
  generalize (backup_original cfg w2 s1).2 = s2 at hb2 ⊢
  unfold run_copy at hc1 hb1 hc2 hb2
  -- the first snapshot is listed after the first operation, and survives the second
  obtain ⟨e1, he1, hn1⟩ := snapshot_copy_listed w1 _ _ _ hc1
  rw [← hb1] at he1
  have he1' : e1 ∈ s2.backups := by
    rw [hb2]
    exact (snapshot_copy_mem_of_ne w2 _ _ _ e1 (by rw [hn1]; exact hne)).2 he1
  -- the second snapshot is listed after the second operation
  obtain ⟨e2, he2, hn2⟩ := snapshot_copy_listed w2 _ _ _ hc2
  rw [← hb2] at he2
  refine ⟨entry_path_snapshot_ne cfg _ _ hts, ⟨e1, he1', by rw [hn1]⟩, ⟨e2, he2, by rw [hn2]⟩, ?_⟩
  intro hfresh hclock
  -- the name of the second snapshot is new
  have hfresh1 : ∀ x ∈ s1.backups, x.name ≠ snapshot_name cfg w2.clock := by
    intro x hx hxn
    rw [hb1] at hx
    have := (snapshot_copy_mem_of_ne w1 (snapshot_name cfg w1.clock) _ _ x
      (by rw [hxn]; exact fun h => hne h.symm)).1 hx
    exact hfresh x this hxn
  obtain ⟨t2, ht2⟩ := snapshot_copy_fresh w2 _ _ _ hc2 hfresh1
  rw [ht2] at hb2
  have he3 : ({ name := snapshot_name cfg w2.clock, mtime := w2.file_time, tree := t2 } : Entry) ∈
      s2.backups := by
    rw [hb2]
    exact List.mem_append_right _ (List.mem_singleton_self _)
  -- the second snapshot passes the filter and is strictly the newest
  have hm2 := matching_of_startsWith cfg s2.backups _ he3 (snapshot_name_startsWith cfg w2.clock)
  obtain ⟨e, hl, hmem, hmax⟩ := latest_backup_spec cfg s2.backups (List.ne_nil_of_mem hm2)
  refine ⟨e, hl, ?_⟩
  have hge := hmax _ hm2
  have hin : e ∈ s2.backups := (List.mem_filter.1 hmem).1
  rw [hb2] at hin
  rcases List.mem_append.1 hin with hin | hin
  · have := hclock e hin
    simp only at hge
    omega
  · rw [List.mem_singleton.1 hin]

/-- C9, amended, at two snapshots taken one nanosecond apart. -/
theorem C9_two_snapshots_witness :
    get_timestamp tickWorld.clock ≠ get_timestamp nextTickWorld.clock ∧
      entry_path demoCfg (snapshot_name demoCfg tickWorld.clock) ≠
        entry_path demoCfg (snapshot_name demoCfg nextTickWorld.clock) ∧
      ∃ e, latest_backup demoCfg (backup_original demoCfg nextTickWorld
          (backup_original demoCfg tickWorld (St.init demoLogger [] [])).2).2.backups = some e ∧
        entry_path demoCfg e.name =
          entry_path demoCfg (snapshot_name demoCfg nextTickWorld.clock) :=
  ⟨by decide,
    match C9_two_snapshots demoCfg tickWorld nextTickWorld (St.init demoLogger [] [])
      "work/demo-1.0" "work/demo-1.0" (by decide) rfl rfl with
    | ⟨h1, _, _, h4⟩ => ⟨h1, h4 (by decide) (by decide)⟩⟩

/-! ## Restoring a snapshot -/

/-- C10 as stated fails: the first loop of `restore_from_backup` only logs a removal
that fails. Here the reject file of the failed patch cannot be removed; the restore
logs the warning, completes without error, and leaves the reject file in the
target, which the snapshot does not contain. -/
theorem C10_leftover_after_failed_removal :
    latest_backup demoCfg rejectState.backups = some demoEntry ∧
      (restore_from_backup demoCfg stuckWorld "/usr/ports/x11/demo/work/demo-1.0"
        rejectState).1 = Except.ok () ∧
      (restore_from_backup demoCfg stuckWorld "/usr/ports/x11/demo/work/demo-1.0"
        rejectState).2.work ≠ demoEntry.tree ∧
      Tree.get? (restore_from_backup demoCfg stuckWorld "/usr/ports/x11/demo/work/demo-1.0"
        rejectState).2.work ["a.c.rej"] = some (Obj.file [9]) ∧
      Tree.get? demoEntry.tree ["a.c.rej"] = none ∧
      (Level.WARNING,
        "Failed to remove /usr/ports/x11/demo/work/demo-1.0/a.c.rej: Permission denied") ∈
        (restore_from_backup demoCfg stuckWorld "/usr/ports/x11/demo/work/demo-1.0"
          rejectState).2.logger.out :=
  ⟨by decide, rfl, by decide, by decide, by decide, by decide⟩

/-- C10, amended: when `restore_from_backup` completes without error and every
removal of the first loop succeeded, the content of the target directory is the
tree of the backup it restored from: the same relative paths, the same
directories, the same bytes in every file, and nothing else. The snapshot and the
previous content of the target are well-formed listings of regular files and
directories. -/
theorem C10_restore_reproduces_snapshot (cfg : Config) (w : World) (target : String) (st : St)
    (latest : Entry) (hl : latest_backup cfg st.backups = some latest)
    (hs : latest.tree.WF) (ht : st.work.WF)
    (hrm : ∀ n ∈ st.work.topNames, w.remove_fault n = none)
    (hok : (restore_from_backup cfg w target st).1 = Except.ok ()) :
    (restore_from_backup cfg w target st).2.work = latest.tree := by
  unfold restore_from_backup at hok ⊢
  simp only [St.record] at hok ⊢
  unfold restore_steps at hok ⊢
  rw [hl] at hok ⊢
  simp only at hok ⊢
  have hclear := clear_target_all w target
    (st.info ("Restoring from backup: " ++ entry_path cfg latest.name))
    (closed_of_wf st.work ht) hrm
  have := restore_entries_wf w latest.tree []
    (clear_target w target st.work.topNames
      (st.info ("Restoring from backup: " ++ entry_path cfg latest.name)))
    closed_nil hs hclear hok
  simpa using this

/-- C10, amended, at a restore over a source directory with a reject file that can
be removed. -/
theorem C10_restore_reproduces_snapshot_witness :
    latest_backup demoCfg rejectState.backups = some demoEntry ∧
      (restore_from_backup demoCfg demoWorld "/usr/ports/x11/demo/work/demo-1.0"
        rejectState).2.work = demoEntry.tree :=
  ⟨by decide,
    C10_restore_reproduces_snapshot demoCfg demoWorld "/usr/ports/x11/demo/work/demo-1.0"
      rejectState demoEntry (by decide) (by decide) (by decide) (by decide) rfl⟩

/-! ## Restore without a backup -/

/-- C20: the commands a run executes are an initial part of extract, `WRKSRC` query,
patch, rebuild; every command that comes before another one was spawned and
exited with status 0, so no command follows a failed one; and nothing follows a
restore, which itself executes no command. -/
theorem C20_commands_stop_at_first_failure (cfg : Config) (w : World) (lg : Logger)
    (backups : List Entry) (work : Tree) :
    commands_of (run cfg w (St.init lg backups work)).2.trace <+:
        [ev_extract cfg w, ev_query cfg w, ev_patch cfg w, ev_rebuild cfg w] ∧
      (∀ pre e post,
        commands_of (run cfg w (St.init lg backups work)).2.trace = pre ++ e :: post →
        ∀ x ∈ pre, Event.succeeded x = true) ∧
      (∀ pre target err post,
        (run cfg w (St.init lg backups work)).2.trace = pre ++ Event.restore target err :: post →
        post = []) := by
  have key : commands_of (run cfg w (St.init lg backups work)).2.trace <+:
        [ev_extract cfg w, ev_query cfg w, ev_patch cfg w, ev_rebuild cfg w] ∧
      (∀ x ∈ (commands_of (run cfg w (St.init lg backups work)).2.trace).dropLast,
        Event.succeeded x = true) ∧
      (∀ pre target err post,
        (run cfg w (St.init lg backups work)).2.trace = pre ++ Event.restore target err :: post →
        post = []) := by
    rcases run_cases cfg w lg backups work with c | c | c | c | c | c | c | c
    · obtain ⟨-, -, ht, -⟩ := c
      rw [ht]
      refine ⟨⟨_, rfl⟩, by simp [commands_of], ?_⟩
      intro pre target err post h
      rcases pre with _ | ⟨a, pre⟩ <;> simp at h
    · obtain ⟨-, -, -, ht, -⟩ := c
      rw [ht]
      refine ⟨⟨_, rfl⟩, by simp [commands_of, ev_extract, Event.isCommand], ?_⟩
      intro pre target err post h
      rcases pre with _ | ⟨p0, _ | ⟨p1, pre⟩⟩ <;> simp [ev_extract] at h
    · obtain ⟨-, h1, -, -, ht, -⟩ := c
      rw [ht]
      refine ⟨⟨_, rfl⟩, ?_, ?_⟩
      · have := ev_succeeded w Step.extract ("cd " ++ port_dir cfg ++ " && make extract") h1
        simpa [commands_of, ev_extract, ev_query, Event.isCommand] using this
      · intro pre target err post h
        rcases pre with _ | ⟨p0, _ | ⟨p1, _ | ⟨p2, pre⟩⟩⟩ <;> simp [ev_extract, ev_query] at h
    · obtain ⟨-, h1, h2, ⟨msg, -, -, ht⟩, -⟩ := c
      rw [ht]
      refine ⟨⟨[ev_patch cfg w, ev_rebuild cfg w], by
        simp [commands_of, ev_extract, ev_query, ev_snapshot, Event.isCommand]⟩, ?_, ?_⟩
      · have := ev_succeeded w Step.extract ("cd " ++ port_dir cfg ++ " && make extract") h1
        simpa [commands_of, ev_extract, ev_query, ev_snapshot, Event.isCommand] using this
      · intro pre target err post h
        rcases pre with _ | ⟨p0, _ | ⟨p1, _ | ⟨p2, _ | ⟨p3, pre⟩⟩⟩⟩ <;>
          simp [ev_extract, ev_query, ev_snapshot] at h
    · obtain ⟨-, h1, h2, -, -, -, ht, -⟩ := c
      rw [ht]
      refine ⟨⟨[ev_patch cfg w, ev_rebuild cfg w], by
        simp [commands_of, ev_extract, ev_query, ev_snapshot, Event.isCommand]⟩, ?_, ?_⟩
      · have := ev_succeeded w Step.extract ("cd " ++ port_dir cfg ++ " && make extract") h1
        simpa [commands_of, ev_extract, ev_query, ev_snapshot, Event.isCommand] using this
      · intro pre target err post h
        rcases pre with _ | ⟨p0, _ | ⟨p1, _ | ⟨p2, _ | ⟨p3, pre⟩⟩⟩⟩ <;>
          simp [ev_extract, ev_query, ev_snapshot] at h
    · obtain ⟨-, h1, h2, -, -, -, ⟨err, -, -, ht⟩, -⟩ := c
      rw [ht]
      refine ⟨⟨[ev_rebuild cfg w], by
        simp [commands_of, ev_extract, ev_query, ev_snapshot, ev_patch, Event.isCommand]⟩, ?_, ?_⟩
      · have e1 := ev_succeeded w Step.extract ("cd " ++ port_dir cfg ++ " && make extract") h1
        have e2 := ev_succeeded w Step.query ("cd " ++ port_dir cfg ++ " && make -v WRKSRC") h2
        simp [commands_of, ev_extract, ev_query, ev_snapshot, ev_patch, Event.isCommand, e1, e2]
      · intro pre target err' post h
        rcases pre with _ | ⟨p0, _ | ⟨p1, _ | ⟨p2, _ | ⟨p3, _ | ⟨p4, _ | ⟨p5, pre⟩⟩⟩⟩⟩⟩ <;>
          simp [ev_extract, ev_query, ev_snapshot, ev_patch] at h
        exact h.2.2.2.2.2
    · obtain ⟨-, h1, h2, -, -, h3, -, -, ht, -⟩ := c
      rw [ht]
      refine ⟨⟨[], by
        simp [commands_of, ev_extract, ev_query, ev_snapshot, ev_patch, ev_rebuild,
          Event.isCommand]⟩, ?_, ?_⟩
      · have e1 := ev_succeeded w Step.extract ("cd " ++ port_dir cfg ++ " && make extract") h1
        have e2 := ev_succeeded w Step.query ("cd " ++ port_dir cfg ++ " && make -v WRKSRC") h2
        have e3 := ev_succeeded w Step.patch
          ("cd " ++ source_dir cfg w ++ " && patch -p1 < " ++ cfg.patch_file) h3
        simp [commands_of, ev_extract, ev_query, ev_snapshot, ev_patch, ev_rebuild,
          Event.isCommand, e1, e2, e3]
      · intro pre target err' post h
        rcases pre with _ | ⟨p0, _ | ⟨p1, _ | ⟨p2, _ | ⟨p3, _ | ⟨p4, _ | ⟨p5, pre⟩⟩⟩⟩⟩⟩ <;>
          simp [ev_extract, ev_query, ev_snapshot, ev_patch, ev_rebuild] at h
    · obtain ⟨-, h1, h2, -, -, h3, -, -, ht, -⟩ := c
      rw [ht]
      refine ⟨⟨[], by
        simp [commands_of, ev_extract, ev_query, ev_snapshot, ev_patch, ev_rebuild,
          Event.isCommand]⟩, ?_, ?_⟩
      · have e1 := ev_succeeded w Step.extract ("cd " ++ port_dir cfg ++ " && make extract") h1
        have e2 := ev_succeeded w Step.query ("cd " ++ port_dir cfg ++ " && make -v WRKSRC") h2
        have e3 := ev_succeeded w Step.patch
          ("cd " ++ source_dir cfg w ++ " && patch -p1 < " ++ cfg.patch_file) h3
        simp [commands_of, ev_extract, ev_query, ev_snapshot, ev_patch, ev_rebuild,
          Event.isCommand, e1, e2, e3]
      · intro pre target err' post h
        rcases pre with _ | ⟨p0, _ | ⟨p1, _ | ⟨p2, _ | ⟨p3, _ | ⟨p4, _ | ⟨p5, pre⟩⟩⟩⟩⟩⟩ <;>
          simp [ev_extract, ev_query, ev_snapshot, ev_patch, ev_rebuild] at h
  refine ⟨key.1, ?_, key.2.2⟩
  intro pre e post h x hx
  exact key.2.1 x (mem_dropLast_of_split _ pre post e x h hx)

/-! ## Captured output -/

/-- C12: for a command that exits with status 0 and prints nothing,
`command_execute_with_output` of patch.c returns a null pointer, its failure value:
the output buffer is only allocated when a chunk is read. For the same command
`execute_with_output` of propatch.cpp returns the empty text, and patch.c itself
returns the empty text when the command prints a single newline. -/
theorem C12_empty_output_returns_null :
    (PatchC.command_execute_with_output "cd /usr/ports/x11/st && make -V WRKSRC"
        (some (0, "")) (some demoLogger)).1 = none ∧
      (PatchC.command_execute_with_output "cd /usr/ports/x11/st && make -V WRKSRC"
        (some (0, "\n")) (some demoLogger)).1 = some "" ∧
      (execute_with_output Step.query "cd /usr/ports/x11/st && make -v WRKSRC" silentWorld
        (St.init demoLogger [] [])).1 = Except.ok "" :=
  ⟨by decide, by decide, rfl⟩

/-- C13: `backup_original` of patch.c passes a null `result` to `command_execute` for
`cp -r` and only tests the return value, which is 0 whenever the process was
started. When `cp -r` exits with status 1, `backup_original` still logs
`Backup created at` and returns `WRKSRC`; it returns a null pointer only when
`cp -r` cannot be started. -/
theorem C13_copy_exit_status_ignored :
    (PatchC.backup_original stPatcher cpFailsWorld cStart).1 = some "work/st-0.9" ∧
      (PatchC.backup_original stPatcher cpFailsWorld cStart).2.commands.getLast? =
        some "cp -r /usr/ports/x11/st/work/st-0.9 /b/st-original-20240309-070500" ∧
      (Level.INFO, "Backup created at: /b/st-original-20240309-070500") ∈
        (PatchC.backup_original stPatcher cpFailsWorld cStart).2.logger.out ∧
      (PatchC.backup_original stPatcher cpMissingWorld cStart).1 = none ∧
      (Level.ERROR, "Backup copy failed") ∈
        (PatchC.backup_original stPatcher cpMissingWorld cStart).2.logger.out := by
  decide

/-! ## Debug entries -/

/-- C18: with a logger whose minimum level is `DEBUG`, a call of
`CommandExecutor::execute` of propatch.cpp that captures output appends nothing to
the log: `Logger::debug` goes through `log<Level::DEBUG>`, whose compile-time
filter `Level >= Level::INFO` drops it. The run-time filter of `Logger::log` would
let the entry through, and `execute` of reaptchpro_st.cpp logs both entries. -/
theorem C18_debug_entries_not_logged :
    demoWorld.result Step.query = some { status := 0, output := "work/demo-1.0\n" } ∧
      (execute Step.query "cd /usr/ports/x11/demo && make -v WRKSRC" demoWorld
        (St.init debugLogger [] [])).2.logger.out = [] ∧
      (debugLogger.log Level.DEBUG "Executing: cd /usr/ports/x11/demo && make -v WRKSRC").out =
        [(Level.DEBUG, "Executing: cd /usr/ports/x11/demo && make -v WRKSRC")] ∧
      (ReaptchSt.execute "cd /usr/ports/x11/demo && make -V WRKSRC" (some (0, "work/demo-1.0\n"))
        debugLogger).2.out =
        [(Level.DEBUG, "Executing: cd /usr/ports/x11/demo && make -V WRKSRC"),
          (Level.DEBUG, "Command output:\nwork/demo-1.0\n")] := by
  decide

/-! ## The command line -/

/-- C15 as stated fails: `parse_args` returns before it tests the positionals when a
help flag was read. The vector `propatch --help` lacks the port name and the patch
file, yet `parse_args` succeeds and `main` exits with code 0. -/
theorem C15_help_excuses_missing_positionals :
    Malformed ["propatch", "--help"] ∧
      ¬ (∃ e, parse_args ["propatch", "--help"] = Except.error e) ∧
      parse_args ["propatch", "--help"] = Except.ok { help := true } ∧
      (main ["propatch", "--help"] demoWorld [] []).exit_code = 0 := by
  refine ⟨by decide, ?_, rfl, rfl⟩
  rintro ⟨e, he⟩
  cases he

/-- C15, amended: `parse_args` returns an error, and `main` exits with code 1 without
running the workflow, for every argument vector that has a `-` argument which is
none of the known flags and not the value of the backup option, or whose backup
option is the last argument; and for every argument vector that lacks the port
name or the patch file positional and gives no help flag. -/
theorem C15_malformed_arguments_rejected (argv : List String) (w : World)
    (backups : List Entry) (work : Tree)
    (h : (scan (argv.drop 1)).any Tok.isBad = true ∨
      (Tok.help ∉ scan (argv.drop 1) ∧ (positionals (scan (argv.drop 1))).length < 2)) :
    (∃ e, parse_args argv = Except.error e) ∧
      (main argv w backups work).exit_code = 1 ∧ (main argv w backups work).ran = none := by
  have herr : ∃ e, parse_args argv = Except.error e := by
    obtain ⟨s1, -, s3, -, -⟩ := parse_args_spec argv
    cases hb : (scan (argv.drop 1)).any Tok.isBad with
    | true => exact s1 hb
    | false =>
      rcases h with h | ⟨hh, hn⟩
      · rw [hb] at h
        cases h
      · exact s3 hb hh (lt_of_le_of_lt (named_length_le _) hn)
  exact ⟨herr, (main_early argv w backups work).1 herr⟩

/-- C15, amended, at a vector with an unknown flag. -/
theorem C15_malformed_arguments_rejected_witness :
    (scan (["propatch", "st", "/tmp/st.diff", "--force"].drop 1)).any Tok.isBad = true ∧
      (main ["propatch", "st", "/tmp/st.diff", "--force"] demoWorld [] []).exit_code = 1 :=
  ⟨by decide,
    (C15_malformed_arguments_rejected ["propatch", "st", "/tmp/st.diff", "--force"] demoWorld
      [] [] (Or.inl (by decide))).2.1⟩

/-- C16 as stated fails: `parse_args` takes the first two positionals and ignores any
further one. With the positionals `st`, `/tmp/st.diff`, `/my/backups` and no backup
option, the backup directory stays `/usr/local/etc/patches`. -/
theorem C16_third_positional_ignored :
    parse_args ["propatch", "st", "/tmp/st.diff", "/my/backups"] =
        Except.ok { port_name := "st", patch_file := "/tmp/st.diff" } ∧
      ¬ (∃ a, parse_args ["propatch", "st", "/tmp/st.diff", "/my/backups"] = Except.ok a ∧
        a.backup_dir = "/my/backups") := by
  refine ⟨rfl, ?_⟩
  rintro ⟨a, ha, hd⟩
  cases ha
  revert hd
  decide

/-- C16, amended: in every configuration `parse_args` yields, the backup directory is
the value of the last `--backup-dir`/`-b` option, and the default
`/usr/local/etc/patches` when there is no such option, with two positionals and
with more: a third positional does not select the backup directory. -/
theorem C16_backup_dir_by_option_only (argv : List String) (a : CLIArgs)
    (h : parse_args argv = Except.ok a) :
    a.backup_dir = (backup_choice (scan (argv.drop 1))).getD "/usr/local/etc/patches" ∧
      (backup_choice (scan (argv.drop 1)) = none → a.backup_dir = "/usr/local/etc/patches") := by
  have := (parse_args_spec argv).2.2.2.2 a h
  refine ⟨this, ?_⟩
  intro hn
  rw [this, hn]
  rfl

/-- C16, amended, at a vector with two positionals and no backup option. -/
theorem C16_backup_dir_by_option_only_witness :
    parse_args ["propatch", "st", "/tmp/st.diff"] =
        Except.ok { port_name := "st", patch_file := "/tmp/st.diff" } ∧
      ({ port_name := "st", patch_file := "/tmp/st.diff" } : CLIArgs).backup_dir =
        "/usr/local/etc/patches" :=
  ⟨rfl, (C16_backup_dir_by_option_only ["propatch", "st", "/tmp/st.diff"]
    { port_name := "st", patch_file := "/tmp/st.diff" } rfl).2 (by decide)⟩

/-- C17 as stated fails: the loop of `parse_args` returns an error at an unknown `-`
argument and at a backup option without a value, also after a help flag; and a
`--help` that follows `-b` is taken as the backup directory. In the three vectors
here `--help` or `-h` is given, yet `parse_args` returns an error and `main` exits
with code 1. -/
theorem C17_help_does_not_excuse_bad_arguments :
    ¬ (∃ a, parse_args ["propatch", "--help", "--bogus"] = Except.ok a ∧ a.help = true) ∧
      parse_args ["propatch", "--help", "--bogus"] = Except.error "Unknown argument: --bogus" ∧
      (main ["propatch", "--help", "--bogus"] demoWorld [] []).exit_code = 1 ∧
      parse_args ["propatch", "-h", "-b"] = Except.error "Missing backup directory" ∧
      parse_args ["propatch", "-b", "--help"] = Except.error "Port name required" := by
  refine ⟨?_, rfl, rfl, rfl, rfl⟩
  rintro ⟨a, ha, -⟩
  cases ha

/-- C17, amended: for every argument vector in which a help flag is read (`--help` or
`-h`, not as the value of the backup option) and which has no unknown `-` argument
and no backup option without a value, `parse_args` succeeds with `help` set, also
when the port name and the patch file are absent, and `main` exits with code 0
without constructing or running the patcher. -/
theorem C17_help_exits_zero (argv : List String) (w : World) (backups : List Entry)
    (work : Tree) (hh : Tok.help ∈ scan (argv.drop 1))
    (hb : (scan (argv.drop 1)).any Tok.isBad = false) :
    (∃ a, parse_args argv = Except.ok a ∧ a.help = true) ∧
      (main argv w backups work).exit_code = 0 ∧ (main argv w backups work).ran = none := by
  obtain ⟨a, ha, hhelp⟩ := (parse_args_spec argv).2.1 hb hh
  exact ⟨⟨a, ha, hhelp⟩, (main_early argv w backups work).2 a ha hhelp⟩

/-- C17, amended, at a vector with a help flag and nothing else. -/
theorem C17_help_exits_zero_witness :
    Tok.help ∈ scan (["propatch", "-n", "-h"].drop 1) ∧
      (main ["propatch", "-n", "-h"] demoWorld [] []).exit_code = 0 :=
  ⟨by decide, (C17_help_exits_zero ["propatch", "-n", "-h"] demoWorld [] [] (by decide)
    (by decide)).2.1⟩

/-! ## create_directory_recursive -/

/-- C19: for broken-down times with a four-digit year and every field in its range,
the time stamp `%Y%m%d-%H%M%S` has 15 characters and the order of two stamps as text
is the chronological order of the fields; so is the order of the snapshot names of one
port, and the name that sorting and taking the last picks carries a latest time. The
stamp of propatch.cpp is this one when `%S` prints whole seconds, and an earlier time
always gives a smaller stamp there. -/
theorem C19_timestamp_order_is_chronological (cfg : Config) (a b : LocalTime)
    (times : List LocalTime) (ha : InRange a) (hb : InRange b)
    (htimes : ∀ t ∈ times, InRange t) (hne : times ≠ []) :
    (ReaptchSt.get_timestamp a).length = 15 ∧
      (ReaptchSt.str_lt (ReaptchSt.get_timestamp a) (ReaptchSt.get_timestamp b) = true ↔
        earlier a b) ∧
      (ReaptchSt.str_lt (st_snapshot_name cfg.port_name a) (st_snapshot_name cfg.port_name b)
        = true ↔ earlier a b) ∧
      (∃ t ∈ times,
        ReaptchSt.latest_backup (times.map (st_snapshot_name cfg.port_name)) =
          some (st_snapshot_name cfg.port_name t) ∧
        ∀ u ∈ times, ¬ earlier t u) ∧
      (a.subsec = "" → get_timestamp a = ReaptchSt.get_timestamp a ∧
        snapshot_name cfg a = st_snapshot_name cfg.port_name a) ∧
      (earlier a b → ReaptchSt.str_lt (get_timestamp a) (get_timestamp b) = true ∧
        ReaptchSt.str_lt (snapshot_name cfg a) (snapshot_name cfg b) = true) := by
  refine ⟨st_get_timestamp_length a ha, st_get_timestamp_lt a b ha hb, ?_, ?_, ?_, ?_⟩
  · rw [st_snapshot_name_lt]
    exact st_get_timestamp_lt a b ha hb
  · have hne2 : times.map (st_snapshot_name cfg.port_name) ≠ [] := by
      intro h
      exact hne (List.map_eq_nil_iff.mp h)
    obtain ⟨x, hx, hlast, hmax⟩ := st_latest_backup_greatest _ hne2
    obtain ⟨t, ht, rfl⟩ := List.mem_map.mp hx
    refine ⟨t, ht, hlast, ?_⟩
    intro u hu he
    have h1 := hmax (st_snapshot_name cfg.port_name u) (List.mem_map.mpr ⟨u, hu, rfl⟩)
    rw [st_snapshot_name_lt] at h1
    have h2 := (st_get_timestamp_lt t u (htimes t ht) (htimes u hu)).mpr he
    rw [h1] at h2
    cases h2
  · intro hs
    have e : ({ a with subsec := "" } : LocalTime) = a := by
      cases a
      simp only at hs
      subst hs
      rfl
    have e1 : get_timestamp a = ReaptchSt.get_timestamp a := by
      unfold ReaptchSt.get_timestamp
      rw [e]
    refine ⟨e1, ?_⟩
    unfold snapshot_name st_snapshot_name
    rw [e1]
  · intro he
    have h1 := (get_timestamp_lt a b ha hb).mpr (Or.inl he)
    refine ⟨h1, ?_⟩
    unfold snapshot_name
    unfold ReaptchSt.str_lt at h1 ⊢
    simp only [String.data_append]
    rw [lex_lt_same_front]
    exact h1

theorem C19_timestamp_order_is_chronological_witness :
    InRange janEnd ∧ InRange febStart ∧ earlier janEnd febStart ∧
      ReaptchSt.str_lt (ReaptchSt.get_timestamp janEnd) (ReaptchSt.get_timestamp febStart) =
        true ∧
      ∃ t ∈ [febStart, janEnd],
        ReaptchSt.latest_backup ([febStart, janEnd].map (st_snapshot_name stCfg.port_name)) =
          some (st_snapshot_name stCfg.port_name t) ∧
        ∀ u ∈ [febStart, janEnd], ¬ earlier t u :=
  have h := C19_timestamp_order_is_chronological stCfg janEnd febStart [febStart, janEnd]
    (by decide) (by decide) (by decide) (by decide)
  ⟨by decide, by decide, by decide, h.2.1.mpr (by decide), h.2.2.2.1⟩

/-! ## A regular file at the path of the backup directory -/

/-- C21 fails in the code: with `/usr/local/etc` a directory and `patches` in it a
regular file, every `mkdir` of `create_directory_recursive("/usr/local/etc/patches")`
reports `EEXIST`, the last one for the file, and the function returns 0 with the tree
unchanged: the path names a regular file, not a directory. `create_backup_dir` returns
0 and logs that the backup directory is ready, where `fs::create_directories` of
propatch.cpp reports an error. A regular file at an inner component (`/usr/local`)
does make the function return -1. This is the only way the property fails: when the
function returns 0 (and the system reports `EEXIST` only for what exists), the path
is a directory afterwards unless it leads to a regular file that was there before
the call (at the names of the path, when none of them is `.` or `..`). -/
theorem C21_existing_file_accepted_as_directory :
    (PatchC.create_directory_recursive (fun _ => none) "/usr/local/etc/patches"
        patchesFileTree).1 = 0 ∧
      (PatchC.create_directory_recursive (fun _ => none) "/usr/local/etc/patches"
        patchesFileTree).2.tree = patchesFileTree.tree ∧
      (PatchC.create_directory_recursive (fun _ => none) "/usr/local/etc/patches"
        patchesFileTree).2.calls =
        [("/usr", some PatchC.Errno.EEXIST), ("/usr/local", some PatchC.Errno.EEXIST),
          ("/usr/local/etc", some PatchC.Errno.EEXIST),
          ("/usr/local/etc/patches", some PatchC.Errno.EEXIST)] ∧
      PatchC.directory_exists "/usr/local/etc/patches"
        (PatchC.create_directory_recursive (fun _ => none) "/usr/local/etc/patches"
          patchesFileTree).2.tree = false ∧
      Tree.get? (PatchC.create_directory_recursive (fun _ => none) "/usr/local/etc/patches"
        patchesFileTree).2.tree ["usr", "local", "etc", "patches"] = some (Obj.file [104, 105]) ∧
      (PatchC.create_backup_dir (fun _ => none) (fun _ => "") patchesConfig debugLogger
        patchesFileTree).1 = 0 ∧
      (PatchC.create_backup_dir (fun _ => none) (fun _ => "") patchesConfig debugLogger
        patchesFileTree).2.1.out =
        [(Level.DEBUG, "Backup directory ready: /usr/local/etc/patches")] ∧
      create_directories ["usr", "local", "etc", "patches"] patchesFileTree.tree =
        Except.error "Not a directory" ∧
      (PatchC.create_directory_recursive (fun _ => none) "/usr/local/etc/patches"
        localFileTree).1 = -1 ∧
      (PatchC.create_directory_recursive (fun _ => none) "/usr/local/etc/patches"
        localFileTree).2.calls.getLast? =
        some ("/usr/local/etc", some PatchC.Errno.ENOTDIR) ∧
      ∀ (fault : RelPath → Option PatchC.Errno) (path : String) (st : PatchC.DirSt),
        (∀ q, fault q ≠ some PatchC.Errno.EEXIST) →
        (PatchC.create_directory_recursive fault path st).1 = 0 →
        PatchC.directory_exists path
            (PatchC.create_directory_recursive fault path st).2.tree = true ∨
          ∃ q b, PatchC.target (PatchC.create_directory_recursive fault path st).2.tree path =
              Except.ok (some q) ∧
            ("." ∉ PatchC.path_names path → ".." ∉ PatchC.path_names path →
              q = PatchC.path_names path) ∧
            Tree.get? st.tree q = some (Obj.file b) ∧
            Tree.get? (PatchC.create_directory_recursive fault path st).2.tree q =
              some (Obj.file b) := by
  refine ⟨by decide, by decide, by decide, by decide, by decide, by decide, by decide, rfl,
    by decide, by decide, ?_⟩
  intro fault path st hf h
  exact create_directory_recursive_entry fault path st hf h

end Propatch
